import Mathlib

/-!
Verification of the marksmith streaming Markdown parser.

The TypeScript source is shallowly embedded: JS strings are modelled as
`List Char` (Unicode scalar values), mutable classes as explicit state
records, and `while` loops as structural or fuel-based recursion.  Every
definition mirrors the source function of the same name.
-/

/-- JS strings are modelled as lists of Unicode scalar values. -/
abbrev Str := List Char

/-- The JS whitespace class (`\s` in regexes, and the set removed by
`String.prototype.trim`): tab, LF, VT, FF, CR, space, NBSP, BOM and the
Unicode space separators. -/
def jsWhitespace (c : Char) : Bool :=
  let n := c.toNat
  n == 0x09 || n == 0x0a || n == 0x0b || n == 0x0c || n == 0x0d ||
  n == 0x20 || n == 0xa0 || n == 0x1680 ||
  (0x2000 ≤ n && n ≤ 0x200a) ||
  n == 0x2028 || n == 0x2029 || n == 0x202f || n == 0x205f ||
  n == 0x3000 || n == 0xfeff

/-- `String.prototype.trim`. -/
def jsTrim (s : Str) : Str :=
  ((s.dropWhile jsWhitespace).reverse.dropWhile jsWhitespace).reverse

/-- `String.prototype.trimStart` (used to model leading-whitespace drops). -/
def jsTrimStart (s : Str) : Str := s.dropWhile jsWhitespace

/-! ## Line splitter (`line-splitter.ts`) -/

/-- The private state of a `LineSplitter` instance: `#partialLine` and
`#hasPendingCR`. -/
structure SplitterState where
  partialLine : Str
  hasPendingCR : Bool
deriving DecidableEq, Repr

/-- Prepend a completed line to a scan result. -/
def consLine (l : Str) (r : List Str × Str × Bool) : List Str × Str × Bool :=
  (l :: r.1, r.2)

/-- The character scan of `LineSplitter.split`: `acc` is the current
candidate line (initially the buffered partial line).  Returns the emitted
lines, the remaining tail, and whether the chunk ended in a bare CR
(case (2) of the source, which sets `#hasPendingCR`). -/
def splitterScan (acc : Str) : Str → List Str × Str × Bool
  | [] => ([], acc, false)
  | c :: rest =>
    if c = '\n' then
      consLine acc (splitterScan [] rest)
    else if c = '\r' then
      match rest with
      | [] => ([acc], [], true)
      | c2 :: rest2 =>
        -- (1) CRLF fully contained in the chunk: skip the LF as well.
        if c2 = '\n' then consLine acc (splitterScan [] rest2)
        -- (3) lone CR mid-chunk.
        else consLine acc (splitterScan [] (c2 :: rest2))
    else
      splitterScan (acc ++ [c]) rest

namespace LineSplitter

/-- `LineSplitter.split(chunk, { stream })`.  If the previous chunk ended
with a CR, a leading LF is swallowed and the flag is cleared
unconditionally; when not streaming, a non-empty partial line is flushed. -/
def split (st : SplitterState) (chunk : Str) (stream : Bool) :
    List Str × SplitterState :=
  let chunk1 :=
    if st.hasPendingCR then
      match chunk with
      | '\n' :: rest => rest
      | _ => chunk
    else chunk
  let r := splitterScan st.partialLine chunk1
  if stream = false ∧ r.2.1 ≠ [] then
    (r.1 ++ [r.2.1], ⟨[], r.2.2⟩)
  else
    (r.1, ⟨r.2.1, r.2.2⟩)

end LineSplitter

/-- Unfolding lemma: a plain character is appended to the accumulator. -/
theorem splitterScan_cons (acc : Str) (c : Char) (rest : Str)
    (h1 : c ≠ '\n') (h2 : c ≠ '\r') :
    splitterScan acc (c :: rest) = splitterScan (acc ++ [c]) rest := by
  conv_lhs => rw [splitterScan.eq_def]
  simp only [if_neg h1, if_neg h2]

/-- Scan lemma: a chunk with no terminators followed by a final CR emits
exactly one line (the accumulator followed by the chunk) and requests the
pending-CR lookahead. -/
theorem splitterScan_plain_append_cr (s : Str) :
    ∀ acc : Str, (∀ c ∈ s, c ≠ '\n' ∧ c ≠ '\r') →
      splitterScan acc (s ++ ['\r']) = ([acc ++ s], [], true) := by
  induction s with
  | nil => intro acc _; simp [splitterScan]
  | cons c rest ih =>
    intro acc h
    have hc := h c (List.mem_cons_self c rest)
    have hrest : ∀ x ∈ rest, x ≠ '\n' ∧ x ≠ '\r' := by
      intro x hx; exact h x (List.mem_cons_of_mem c hx)
    rw [List.cons_append, splitterScan_cons acc c _ hc.1 hc.2,
      ih (acc ++ [c]) hrest]
    simp

/-- Scan lemma: a chunk with no terminators leaves everything buffered. -/
theorem splitterScan_plain (s : Str) :
    ∀ acc : Str, (∀ c ∈ s, c ≠ '\n' ∧ c ≠ '\r') →
      splitterScan acc s = ([], acc ++ s, false) := by
  induction s with
  | nil => intro acc _; simp [splitterScan]
  | cons c rest ih =>
    intro acc h
    have hc := h c (List.mem_cons_self c rest)
    have hrest : ∀ x ∈ rest, x ≠ '\n' ∧ x ≠ '\r' := by
      intro x hx; exact h x (List.mem_cons_of_mem c hx)
    rw [splitterScan_cons acc c _ hc.1 hc.2, ih (acc ++ [c]) hrest]
    simp

/-- C4: `LineSplitter.split` treats the pending-CR flag as a one-call
lookahead.  (1) A chunk ending in CR emits the line before the CR and sets
the flag.  (2) On the very next call the flag is consumed after inspecting
only the first character: a leading LF is swallowed, so a CRLF split across
two chunks yields one line.  (3) An empty chunk simply clears the flag.
(4) A subsequent chunk `"\nX"` then emits one empty line for the LF and
leaves `"X"` buffered as the partial line. -/
theorem lineSplitter_pending_cr_lookahead :
    (∀ p s : Str, (∀ c ∈ s, c ≠ '\n' ∧ c ≠ '\r') →
      LineSplitter.split ⟨p, false⟩ (s ++ ['\r']) true = ([p ++ s], ⟨[], true⟩))
  ∧ (∀ (st : SplitterState) (rest : Str) (stream : Bool),
      st.hasPendingCR = true →
      LineSplitter.split st ('\n' :: rest) stream
        = LineSplitter.split ⟨st.partialLine, false⟩ rest stream)
  ∧ (∀ stream : Bool,
      LineSplitter.split ⟨[], true⟩ [] stream = ([], ⟨[], false⟩))
  ∧ LineSplitter.split ⟨[], false⟩ ['\n', 'X'] true = ([[]], ⟨['X'], false⟩) := by
  refine ⟨?_, ?_, ?_, ?_⟩
  · intro p s h
    simp [LineSplitter.split, splitterScan_plain_append_cr s p h]
  · intro st rest stream h
    simp [LineSplitter.split, h]
  · intro stream
    cases stream <;> simp [LineSplitter.split, splitterScan]
  · decide

/-- Witness for `lineSplitter_pending_cr_lookahead` at concrete inputs. -/
theorem lineSplitter_pending_cr_lookahead_witness :
    LineSplitter.split ⟨[], false⟩ (['a'] ++ ['\r']) true = ([['a']], ⟨[], true⟩)
    ∧ LineSplitter.split ⟨['x'], true⟩ ('\n' :: ['b']) true
        = LineSplitter.split ⟨['x'], false⟩ ['b'] true :=
  ⟨lineSplitter_pending_cr_lookahead.1 [] ['a'] (by decide),
    lineSplitter_pending_cr_lookahead.2.1 ⟨['x'], true⟩ ['b'] true rfl⟩

/-! ## Table row parsing (`parseTableRow` in `markdown-parser.ts`) -/

/-- The scanner behind `line.split(/(?<!\\)\|/)`: split at every `|` whose
immediately preceding character is not a backslash.  `prev` is the
character before the current position in the original string. -/
def splitPipesGo (prev : Option Char) (acc : Str) : Str → List Str
  | [] => [acc]
  | c :: rest =>
    if c = '|' ∧ prev ≠ some '\\' then
      acc :: splitPipesGo (some '|') [] rest
    else
      splitPipesGo (some c) (acc ++ [c]) rest

/-- `line.split(/(?<!\\)\|/)`. -/
def splitUnescapedPipes (s : Str) : List Str := splitPipesGo none [] s

/-- `cell.replace(/\\\|/g, "|")`: leftmost, non-overlapping replacement of
`\|` by `|`. -/
def unescapePipes : Str → Str
  | [] => []
  | '\\' :: '|' :: rest => '|' :: unescapePipes rest
  | c :: rest => c :: unescapePipes rest

/-- `parseTableRow`: trim the line, split it on unescaped pipes, unescape
and trim each cell, then drop a single leading and a single trailing empty
cell. -/
def parseTableRow (line : Str) : List Str :=
  let cells := (splitUnescapedPipes (jsTrim line)).map
    (fun cell => jsTrim (unescapePipes cell))
  if cells.length > 0 then
    let cells1 := if cells.head? = some [] then cells.tail else cells
    if cells1.getLast? = some [] then cells1.dropLast else cells1
  else cells

/-- The body-row padding applied when a line continues an open table
(`MarkdownParser.parseLine`, table-continuation branch): rows longer than
the header are truncated, shorter rows are right-padded with empty
strings. -/
def padCells (cells : List Str) (numOfColumns : Nat) : List Str :=
  if cells.length > numOfColumns then
    cells.take numOfColumns
  else if cells.length < numOfColumns then
    cells ++ List.replicate (numOfColumns - cells.length) []
  else cells

/-! Specification-side formulation of the row split (from the spec's words:
"split on unescaped `|`, i.e. `|` not preceded by `\`"), written as direct
structural recursion for comparison with the scanner above. -/

/-- Prepend characters onto the first cell of a split result. -/
def prependToHead (p : Str) : List Str → List Str
  | [] => [p]
  | h :: t => (p ++ h) :: t

/-- Spec-side split: a `|` immediately preceded by `\` does not split; any
other `|` does. -/
def specSplitPipes : Str → List Str
  | [] => [[]]
  | '\\' :: '|' :: rest => prependToHead ['\\', '|'] (specSplitPipes rest)
  | '|' :: rest => [] :: specSplitPipes rest
  | c :: rest => prependToHead [c] (specSplitPipes rest)

theorem prependToHead_ne_nil (p : Str) (cs : List Str) :
    prependToHead p cs ≠ [] := by
  cases cs <;> simp [prependToHead]

theorem specSplitPipes_ne_nil (s : Str) : specSplitPipes s ≠ [] := by
  rw [specSplitPipes.eq_def]
  split
  · simp
  · exact prependToHead_ne_nil _ _
  · simp
  · exact prependToHead_ne_nil _ _

theorem prependToHead_prependToHead (a b : Str) (cs : List Str) :
    prependToHead a (prependToHead b cs) = prependToHead (a ++ b) cs := by
  cases cs <;> simp [prependToHead]

/-- The source scanner agrees with the spec-side split.  `prev` is the
character preceding the remaining input; the hypothesis records that a
pipe escaped by a preceding backslash has already been consumed together
with that backslash. -/
theorem splitPipesGo_spec (l : Str) : ∀ (prev : Option Char) (acc : Str),
    (prev = some '\\' → l.head? ≠ some '|') →
    splitPipesGo prev acc l = prependToHead acc (specSplitPipes l) := by
  induction l using specSplitPipes.induct with
  | case1 =>
    intro prev acc _
    simp [splitPipesGo, specSplitPipes, prependToHead]
  | case2 rest ih =>
    intro prev acc _
    rw [show splitPipesGo prev acc ('\\' :: '|' :: rest)
        = splitPipesGo (some '\\') (acc ++ ['\\']) ('|' :: rest) by
      rw [splitPipesGo.eq_def]; simp]
    rw [show splitPipesGo (some '\\') (acc ++ ['\\']) ('|' :: rest)
        = splitPipesGo (some '|') (acc ++ ['\\'] ++ ['|']) rest by
      rw [splitPipesGo.eq_def]; simp]
    rw [ih (some '|') (acc ++ ['\\'] ++ ['|']) (by simp)]
    rw [show specSplitPipes ('\\' :: '|' :: rest)
        = prependToHead ['\\', '|'] (specSplitPipes rest) from rfl]
    rw [prependToHead_prependToHead]
    simp
  | case3 rest ih =>
    intro prev acc h
    have hprev : prev ≠ some '\\' := by
      intro hp
      exact h hp rfl
    rw [show splitPipesGo prev acc ('|' :: rest)
        = acc :: splitPipesGo (some '|') [] rest by
      rw [splitPipesGo.eq_def]; simp [hprev]]
    rw [ih (some '|') [] (by simp)]
    rw [show specSplitPipes ('|' :: rest) = [] :: specSplitPipes rest from rfl]
    cases hs : specSplitPipes rest with
    | nil => exact absurd hs (specSplitPipes_ne_nil rest)
    | cons a t => simp [prependToHead]
  | case4 c rest h1 h2 ih =>
    intro prev acc _
    rw [show splitPipesGo prev acc (c :: rest)
        = splitPipesGo (some c) (acc ++ [c]) rest by
      rw [splitPipesGo.eq_def]
      exact if_neg (fun hq => h2 hq.1)]
    rw [ih (some c) (acc ++ [c]) (by
      intro hc
      have hcc : c = '\\' := by injection hc
      intro hh
      cases rest with
      | nil => simp at hh
      | cons r rs =>
        have : r = '|' := by simpa using hh
        exact h1 rs hcc (by rw [this]))]
    rw [show specSplitPipes (c :: rest) = prependToHead [c] (specSplitPipes rest) by
      rw [specSplitPipes.eq_def]
      rcases rest with - | ⟨r, rs⟩
      · simp_all [prependToHead]
      · by_cases hcb : c = '\\'
        · by_cases hrp : r = '|'
          · exact absurd rfl (by subst hcb hrp; exact h1 rs rfl)
          · subst hcb; simp [hrp]
        · simp [hcb, h2]]
    rw [prependToHead_prependToHead]

theorem splitUnescapedPipes_eq_spec (s : Str) :
    splitUnescapedPipes s = specSplitPipes s := by
  have h := splitPipesGo_spec s none [] (by simp)
  rw [splitUnescapedPipes, h]
  cases hs : specSplitPipes s with
  | nil => exact absurd hs (specSplitPipes_ne_nil s)
  | cons a t => simp [prependToHead]

/-- Drop a single leading empty cell (spec side). -/
def dropOneLeadingEmpty : List Str → List Str
  | [] :: t => t
  | cs => cs

/-- Drop a single trailing empty cell (spec side). -/
def dropOneTrailingEmpty (cs : List Str) : List Str :=
  (dropOneLeadingEmpty cs.reverse).reverse

/-- Spec-side row parser, phrased from the specification text: trim the
line, split on every `|` not preceded by a backslash, replace `\|` by `|`
in each cell and trim it, then drop one leading and one trailing empty
cell. -/
def specTableRow (line : Str) : List Str :=
  dropOneTrailingEmpty (dropOneLeadingEmpty
    ((specSplitPipes (jsTrim line)).map (fun cell => jsTrim (unescapePipes cell))))

theorem dropOneLeadingEmpty_eq (cs : List Str) :
    dropOneLeadingEmpty cs = if cs.head? = some [] then cs.tail else cs := by
  rcases cs with - | ⟨h, t⟩
  · rfl
  · rcases h with - | ⟨c, r⟩ <;> simp [dropOneLeadingEmpty]

theorem dropOneTrailingEmpty_eq (cs : List Str) :
    dropOneTrailingEmpty cs
      = if cs.getLast? = some [] then cs.dropLast else cs := by
  rw [dropOneTrailingEmpty, dropOneLeadingEmpty_eq]
  rcases hr : cs.reverse with - | ⟨h, t⟩
  · have : cs = [] := by simpa using congrArg List.reverse hr
    simp [this]
  · have hcs : cs = (h :: t).reverse := by
      have h2 := congrArg List.reverse hr
      rw [List.reverse_reverse] at h2
      exact h2
    rw [List.reverse_cons] at hcs
    subst hcs
    by_cases hh : h = []
    · subst hh
      simp [List.getLast?_concat]
    · simp [List.getLast?_concat, hh]

/-- `parseTableRow` refines the spec-worded row parser. -/
theorem parseTableRow_eq_spec (line : Str) :
    parseTableRow line = specTableRow line := by
  simp only [parseTableRow, specTableRow, splitUnescapedPipes_eq_spec]
  generalize (specSplitPipes (jsTrim line)).map
    (fun cell => jsTrim (unescapePipes cell)) = cells
  rcases cells with - | ⟨a, t⟩
  · simp [dropOneTrailingEmpty, dropOneLeadingEmpty]
  · rw [if_pos (by simp), dropOneLeadingEmpty_eq, dropOneTrailingEmpty_eq]

/-- C7: a table row line is parsed by trimming the line, splitting on every
`|` not preceded by a backslash, replacing `\|` by `|` in each cell and
trimming it, then dropping one leading and one trailing empty cell (never
interior ones); body rows appended to an open table are right-padded with
empty strings up to the header cell count, and truncated down to it. -/
theorem tableRow_parse_and_padding :
    (∀ line : Str, parseTableRow line = specTableRow line)
  ∧ (∀ (cells : List Str) (n : Nat),
      padCells cells n = cells.take n ++ List.replicate (n - cells.length) []
      ∧ (padCells cells n).length = n) := by
  refine ⟨parseTableRow_eq_spec, ?_⟩
  intro cells n
  rw [padCells]
  by_cases h1 : cells.length > n
  · rw [if_pos h1]
    have h0 : n - cells.length = 0 := Nat.sub_eq_zero_of_le (le_of_lt h1)
    constructor
    · simp [h0]
    · simp [List.length_take]
      omega
  · rw [if_neg h1]
    have hle : cells.length ≤ n := by omega
    by_cases h2 : cells.length < n
    · rw [if_pos h2]
      constructor
      · rw [List.take_of_length_le hle]
      · simp
        omega
    · rw [if_neg h2]
      have heq : cells.length = n := by omega
      constructor
      · rw [List.take_of_length_le hle, heq]
        simp
      · exact heq

/-! ## Link reference definition store (`normalizeReference`, and the
first-writer-wins insertion in `MarkdownParser`) -/

theorem length_dropWhile_le (p : Char → Bool) (l : Str) :
    (l.dropWhile p).length ≤ l.length := by
  induction l with
  | nil => simp [List.dropWhile]
  | cons c rest ih =>
    rw [List.dropWhile]
    by_cases h : p c
    · simp [h]; omega
    · simp [h]

/-- The scan behind `reference.replace(/\s+/g, " ")`: emit one space at the
start of each maximal whitespace run; `prevWs` records whether the previous
character was whitespace (i.e. the run is already represented). -/
def collapseWsGo (prevWs : Bool) : Str → Str
  | [] => []
  | c :: rest =>
    if jsWhitespace c then
      if prevWs then collapseWsGo true rest
      else ' ' :: collapseWsGo true rest
    else c :: collapseWsGo false rest

/-- `reference.replace(/\s+/g, " ")`: collapse every whitespace run to a
single space. -/
def collapseWhitespaceRuns (s : Str) : Str := collapseWsGo false s

/-- `normalizeReference`: trim, collapse whitespace runs, then
`.toLowerCase().toUpperCase()`.  The JS case conversions use the host
Unicode tables, so they are taken as parameters; every theorem below holds
for any choice of the two case maps. -/
def normalizeReference (toLowerCase toUpperCase : Str → Str) (reference : Str) : Str :=
  toUpperCase (toLowerCase (collapseWhitespaceRuns (jsTrim reference)))

/-- A stored link reference definition: `{ href, title? }`. -/
structure RefDef where
  href : Str
  title : Option Str
deriving DecidableEq, Repr

/-- The `#referenceDefinitions` map, modelled as an insertion-ordered
association list over normalized labels. -/
abbrev RefMap := List (Str × RefDef)

/-- `Map.get`. -/
def refsGet (m : RefMap) (label : Str) : Option RefDef :=
  (m.find? (fun e => e.1 = label)).map (fun e => e.2)

/-- The insertion performed by `parseReferenceLinkDefinitions` (and the
setext-heading path): `if (!refs.has(label)) refs.set(label, { href, title })`,
where `label` is already normalized. -/
def insertReferenceDefinition (m : RefMap) (label : Str) (d : RefDef) : RefMap :=
  if (refsGet m label).isSome then m else m ++ [(label, d)]

/-- C8: definitions are inserted first-writer-wins under normalized-label
equality: once a normalized label is present, any later definition with an
equally-normalizing label leaves the store completely unchanged, and the
stored value stays the first definition. -/
theorem referenceDefinitions_first_writer_wins
    (toLowerCase toUpperCase : Str → Str) (m : RefMap)
    (label1 label2 : Str) (d1 d2 : RefDef)
    (heq : normalizeReference toLowerCase toUpperCase label1
      = normalizeReference toLowerCase toUpperCase label2)
    (habsent : refsGet m (normalizeReference toLowerCase toUpperCase label1) = none) :
    (insertReferenceDefinition
        (insertReferenceDefinition m
          (normalizeReference toLowerCase toUpperCase label1) d1)
        (normalizeReference toLowerCase toUpperCase label2) d2
      = insertReferenceDefinition m
          (normalizeReference toLowerCase toUpperCase label1) d1)
    ∧ refsGet
        (insertReferenceDefinition
          (insertReferenceDefinition m
            (normalizeReference toLowerCase toUpperCase label1) d1)
          (normalizeReference toLowerCase toUpperCase label2) d2)
        (normalizeReference toLowerCase toUpperCase label2) = some d1 := by
  set k := normalizeReference toLowerCase toUpperCase label1 with hk
  rw [← heq]
  have hm1 : insertReferenceDefinition m k d1 = m ++ [(k, d1)] := by
    rw [insertReferenceDefinition, habsent]
    simp
  have hget : refsGet (m ++ [(k, d1)]) k = some d1 := by
    rw [refsGet, List.find?_append]
    rw [refsGet] at habsent
    have : m.find? (fun e => e.1 = k) = none := by
      cases hf : m.find? (fun e => e.1 = k) with
      | none => rfl
      | some e => rw [hf] at habsent; simp at habsent
    rw [this]
    simp
  constructor
  · rw [hm1, insertReferenceDefinition, hget]
    simp
  · rw [hm1, insertReferenceDefinition, hget]
    simpa using hget

/-- Witness for `referenceDefinitions_first_writer_wins` with ASCII case
maps and the labels `" Ref"` and `"rEF"`, which normalize equally. -/
theorem referenceDefinitions_first_writer_wins_witness :
    (insertReferenceDefinition
        (insertReferenceDefinition []
          (normalizeReference (List.map Char.toLower) (List.map Char.toUpper)
            [' ', 'R', 'e', 'f']) ⟨['u'], none⟩)
        (normalizeReference (List.map Char.toLower) (List.map Char.toUpper)
          ['r', 'E', 'F']) ⟨['v'], none⟩
      = insertReferenceDefinition []
          (normalizeReference (List.map Char.toLower) (List.map Char.toUpper)
            [' ', 'R', 'e', 'f']) ⟨['u'], none⟩)
    ∧ refsGet
        (insertReferenceDefinition
          (insertReferenceDefinition []
            (normalizeReference (List.map Char.toLower) (List.map Char.toUpper)
              [' ', 'R', 'e', 'f']) ⟨['u'], none⟩)
          (normalizeReference (List.map Char.toLower) (List.map Char.toUpper)
            ['r', 'E', 'F']) ⟨['v'], none⟩)
        (normalizeReference (List.map Char.toLower) (List.map Char.toUpper)
          ['r', 'E', 'F']) = some ⟨['u'], none⟩ :=
  referenceDefinitions_first_writer_wins
    (List.map Char.toLower) (List.map Char.toUpper) []
    [' ', 'R', 'e', 'f'] ['r', 'E', 'F'] ⟨['u'], none⟩ ⟨['v'], none⟩
    (by decide) (by decide)

/-! ## Inline nodes and emphasis machinery (`inline-parser.ts`) -/

/-- Inline nodes.  `emphasisDelimiter` is the internal delimiter-run node;
the remaining variants form the public inline AST. -/
inductive Inline where
  | text (text : Str)
  | codeSpan (text : Str)
  | hardbreak
  | softbreak
  | link (href : Str) (title : Option Str) (children : List Inline)
  | image (href : Str) (title : Option Str) (children : List Inline)
  | html (content : Str)
  | emphasisDelimiter (marker : Char) (content : Str)
      (canOpen canClose : Bool) (count : Nat)
  | emphasis (children : List Inline)
  | strong (children : List Inline)
deriving Repr

/-- `isAsciiPunctuationCharacter`. -/
def isAsciiPunctuationCharacter (c : Char) : Bool :=
  (['!', '"', '#', '$', '%', '&', '\'', '(', ')', '*', '+', ',', '-', '.',
    '/', ':', ';', '<', '=', '>', '?', '@', '[', '\\', ']', '^', '_', '`',
    '{', '|', '}', '~'] : List Char).contains c

/-- Membership of a code point in a list of inclusive ranges. -/
def inCodeRanges (n : Nat) (ranges : List (Nat × Nat)) : Bool :=
  ranges.any (fun r => decide (r.1 ≤ n) && decide (n ≤ r.2))

/-- The code-point ranges of `UNICODE_P_REGEX` (Unicode category P), with
surrogate-pair alternations converted to astral code points. -/
def unicodePRanges : List (Nat × Nat) := [
  (0x21, 0x23), (0x25, 0x2a), (0x2c, 0x2f), (0x3a, 0x3b), (0x3f, 0x40), (0x5b, 0x5d),
  (0x5f, 0x5f), (0x7b, 0x7d), (0xa1, 0xa1), (0xa7, 0xa7), (0xab, 0xab), (0xb6, 0xb7),
  (0xbb, 0xbb), (0xbf, 0xbf), (0x37e, 0x37e), (0x387, 0x387), (0x55a, 0x55f), (0x589, 0x58a),
  (0x5be, 0x5be), (0x5c0, 0x5c0), (0x5c3, 0x5c3), (0x5c6, 0x5c6), (0x5f3, 0x5f4), (0x609, 0x60a),
  (0x60c, 0x60d), (0x61b, 0x61b), (0x61d, 0x61f), (0x66a, 0x66d), (0x6d4, 0x6d4), (0x700, 0x70d),
  (0x7f7, 0x7f9), (0x830, 0x83e), (0x85e, 0x85e), (0x964, 0x965), (0x970, 0x970), (0x9fd, 0x9fd),
  (0xa76, 0xa76), (0xaf0, 0xaf0), (0xc77, 0xc77), (0xc84, 0xc84), (0xdf4, 0xdf4), (0xe4f, 0xe4f),
  (0xe5a, 0xe5b), (0xf04, 0xf12), (0xf14, 0xf14), (0xf3a, 0xf3d), (0xf85, 0xf85), (0xfd0, 0xfd4),
  (0xfd9, 0xfda), (0x104a, 0x104f), (0x10fb, 0x10fb), (0x1360, 0x1368), (0x1400, 0x1400), (0x166e, 0x166e),
  (0x169b, 0x169c), (0x16eb, 0x16ed), (0x1735, 0x1736), (0x17d4, 0x17d6), (0x17d8, 0x17da), (0x1800, 0x180a),
  (0x1944, 0x1945), (0x1a1e, 0x1a1f), (0x1aa0, 0x1aa6), (0x1aa8, 0x1aad), (0x1b5a, 0x1b60), (0x1b7d, 0x1b7e),
  (0x1bfc, 0x1bff), (0x1c3b, 0x1c3f), (0x1c7e, 0x1c7f), (0x1cc0, 0x1cc7), (0x1cd3, 0x1cd3), (0x2010, 0x2027),
  (0x2030, 0x2043), (0x2045, 0x2051), (0x2053, 0x205e), (0x207d, 0x207e), (0x208d, 0x208e), (0x2308, 0x230b),
  (0x2329, 0x232a), (0x2768, 0x2775), (0x27c5, 0x27c6), (0x27e6, 0x27ef), (0x2983, 0x2998), (0x29d8, 0x29db),
  (0x29fc, 0x29fd), (0x2cf9, 0x2cfc), (0x2cfe, 0x2cff), (0x2d70, 0x2d70), (0x2e00, 0x2e2e), (0x2e30, 0x2e4f),
  (0x2e52, 0x2e5d), (0x3001, 0x3003), (0x3008, 0x3011), (0x3014, 0x301f), (0x3030, 0x3030), (0x303d, 0x303d),
  (0x30a0, 0x30a0), (0x30fb, 0x30fb), (0xa4fe, 0xa4ff), (0xa60d, 0xa60f), (0xa673, 0xa673), (0xa67e, 0xa67e),
  (0xa6f2, 0xa6f7), (0xa874, 0xa877), (0xa8ce, 0xa8cf), (0xa8f8, 0xa8fa), (0xa8fc, 0xa8fc), (0xa92e, 0xa92f),
  (0xa95f, 0xa95f), (0xa9c1, 0xa9cd), (0xa9de, 0xa9df), (0xaa5c, 0xaa5f), (0xaade, 0xaadf), (0xaaf0, 0xaaf1),
  (0xabeb, 0xabeb), (0xd800, 0xd807), (0xd809, 0xd809), (0xd80b, 0xd80b), (0xd81a, 0xd81b), (0xd82f, 0xd82f),
  (0xd836, 0xd836), (0xd83a, 0xd83a), (0xdc3b, 0xdc3b), (0xdc41, 0xdc45), (0xdc47, 0xdc4f), (0xdc57, 0xdc57),
  (0xdc5a, 0xdc5b), (0xdc5d, 0xdc5d), (0xdc70, 0xdc74), (0xdc9f, 0xdc9f), (0xdcbb, 0xdcbc), (0xdcbe, 0xdcc1),
  (0xdcc6, 0xdcc6), (0xdd00, 0xdd02), (0xdd1f, 0xdd1f), (0xdd3f, 0xdd46), (0xdd5e, 0xdd5f), (0xdd6f, 0xdd6f),
  (0xdd74, 0xdd75), (0xddc1, 0xddd7), (0xdddb, 0xdddb), (0xdddd, 0xdddf), (0xdde2, 0xdde2), (0xde38, 0xde3d),
  (0xde3f, 0xde46), (0xde50, 0xde58), (0xde60, 0xde6c), (0xde6e, 0xde6f), (0xde7f, 0xde7f), (0xde87, 0xde8b),
  (0xde97, 0xde9c), (0xde9e, 0xdea2), (0xdea9, 0xdea9), (0xdead, 0xdead), (0xdeb9, 0xdeb9), (0xdef0, 0xdef8),
  (0xdf00, 0xdf09), (0xdf37, 0xdf3f), (0xdf43, 0xdf4f), (0xdf55, 0xdf59), (0xdf86, 0xdf89), (0xdf99, 0xdf9c),
  (0xdf9f, 0xdf9f), (0xdfd0, 0xdfd0), (0xdfe2, 0xdfe2), (0xdff1, 0xdff2), (0xdfff, 0xdfff), (0xfd3e, 0xfd3f),
  (0xfe10, 0xfe19), (0xfe30, 0xfe52), (0xfe54, 0xfe61), (0xfe63, 0xfe63), (0xfe68, 0xfe68), (0xfe6a, 0xfe6b),
  (0xff01, 0xff03), (0xff05, 0xff0a), (0xff0c, 0xff0f), (0xff1a, 0xff1b), (0xff1f, 0xff20), (0xff3b, 0xff3d),
  (0xff3f, 0xff3f), (0xff5b, 0xff5b), (0xff5d, 0xff5d), (0xff5f, 0xff65)
]

/-- The code-point ranges of `UNICODE_S_REGEX` (Unicode category S), with
surrogate-pair alternations converted to astral code points. -/
def unicodeSRanges : List (Nat × Nat) := [
  (0x24, 0x24), (0x2b, 0x2b), (0x3c, 0x3e), (0x5e, 0x5e), (0x60, 0x60), (0x7c, 0x7c),
  (0x7e, 0x7e), (0xa2, 0xa6), (0xa8, 0xa9), (0xac, 0xac), (0xae, 0xb1), (0xb4, 0xb4),
  (0xb8, 0xb8), (0xd7, 0xd7), (0xf7, 0xf7), (0x2c2, 0x2c5), (0x2d2, 0x2df), (0x2e5, 0x2eb),
  (0x2ed, 0x2ed), (0x2ef, 0x2ff), (0x375, 0x375), (0x384, 0x385), (0x3f6, 0x3f6), (0x482, 0x482),
  (0x58d, 0x58f), (0x606, 0x608), (0x60b, 0x60b), (0x60e, 0x60f), (0x6de, 0x6de), (0x6e9, 0x6e9),
  (0x6fd, 0x6fe), (0x7f6, 0x7f6), (0x7fe, 0x7ff), (0x888, 0x888), (0x9f2, 0x9f3), (0x9fa, 0x9fb),
  (0xaf1, 0xaf1), (0xb70, 0xb70), (0xbf3, 0xbfa), (0xc7f, 0xc7f), (0xd4f, 0xd4f), (0xd79, 0xd79),
  (0xe3f, 0xe3f), (0xf01, 0xf03), (0xf13, 0xf13), (0xf15, 0xf17), (0xf1a, 0xf1f), (0xf34, 0xf34),
  (0xf36, 0xf36), (0xf38, 0xf38), (0xfbe, 0xfc5), (0xfc7, 0xfcc), (0xfce, 0xfcf), (0xfd5, 0xfd8),
  (0x109e, 0x109f), (0x1390, 0x1399), (0x166d, 0x166d), (0x17db, 0x17db), (0x1940, 0x1940), (0x19de, 0x19ff),
  (0x1b61, 0x1b6a), (0x1b74, 0x1b7c), (0x1fbd, 0x1fbd), (0x1fbf, 0x1fc1), (0x1fcd, 0x1fcf), (0x1fdd, 0x1fdf),
  (0x1fed, 0x1fef), (0x1ffd, 0x1ffe), (0x2044, 0x2044), (0x2052, 0x2052), (0x207a, 0x207c), (0x208a, 0x208c),
  (0x20a0, 0x20c0), (0x2100, 0x2101), (0x2103, 0x2106), (0x2108, 0x2109), (0x2114, 0x2114), (0x2116, 0x2118),
  (0x211e, 0x2123), (0x2125, 0x2125), (0x2127, 0x2127), (0x2129, 0x2129), (0x212e, 0x212e), (0x213a, 0x213b),
  (0x2140, 0x2144), (0x214a, 0x214d), (0x214f, 0x214f), (0x218a, 0x218b), (0x2190, 0x2307), (0x230c, 0x2328),
  (0x232b, 0x2426), (0x2440, 0x244a), (0x249c, 0x24e9), (0x2500, 0x2767), (0x2794, 0x27c4), (0x27c7, 0x27e5),
  (0x27f0, 0x2982), (0x2999, 0x29d7), (0x29dc, 0x29fb), (0x29fe, 0x2b73), (0x2b76, 0x2b95), (0x2b97, 0x2bff),
  (0x2ce5, 0x2cea), (0x2e50, 0x2e51), (0x2e80, 0x2e99), (0x2e9b, 0x2ef3), (0x2f00, 0x2fd5), (0x2ff0, 0x2fff),
  (0x3004, 0x3004), (0x3012, 0x3013), (0x3020, 0x3020), (0x3036, 0x3037), (0x303e, 0x303f), (0x309b, 0x309c),
  (0x3190, 0x3191), (0x3196, 0x319f), (0x31c0, 0x31e3), (0x31ef, 0x31ef), (0x3200, 0x321e), (0x322a, 0x3247),
  (0x3250, 0x3250), (0x3260, 0x327f), (0x328a, 0x32b0), (0x32c0, 0x33ff), (0x4dc0, 0x4dff), (0xa490, 0xa4c6),
  (0xa700, 0xa716), (0xa720, 0xa721), (0xa789, 0xa78a), (0xa828, 0xa82b), (0xa836, 0xa839), (0xaa77, 0xaa79),
  (0xab5b, 0xab5b), (0xab6a, 0xab6b), (0xfb29, 0xfb29), (0xfbb2, 0xfbc2), (0xfd40, 0xfd4f), (0xfdcf, 0xfdcf),
  (0xfdfc, 0xfdff), (0xfe62, 0xfe62), (0xfe64, 0xfe66), (0xfe69, 0xfe69), (0xff04, 0xff04), (0xff0b, 0xff0b),
  (0xff1c, 0xff1e), (0xff3e, 0xff3e), (0xff40, 0xff40), (0xff5c, 0xff5c), (0xff5e, 0xff5e), (0xffe0, 0xffe6),
  (0xffe8, 0xffee), (0xfffc, 0xfffd), (0x10137, 0x1013f), (0x10179, 0x10189), (0x1018c, 0x1018e), (0x10190, 0x1019c),
  (0x101a0, 0x101a0), (0x101d0, 0x101fc), (0x10877, 0x10878), (0x10ac8, 0x10ac8), (0x1173f, 0x1173f), (0x11fd5, 0x11ff1),
  (0x16b3c, 0x16b3f), (0x16b45, 0x16b45), (0x1bc9c, 0x1bc9c), (0x1cf50, 0x1cfc3), (0x1d000, 0x1d0f5), (0x1d100, 0x1d126),
  (0x1d129, 0x1d164), (0x1d16a, 0x1d16c), (0x1d183, 0x1d184), (0x1d18c, 0x1d1a9), (0x1d1ae, 0x1d1ea), (0x1d200, 0x1d241),
  (0x1d245, 0x1d245), (0x1d300, 0x1d356), (0x1d6c1, 0x1d6c1), (0x1d6db, 0x1d6db), (0x1d6fb, 0x1d6fb), (0x1d715, 0x1d715),
  (0x1d735, 0x1d735), (0x1d74f, 0x1d74f), (0x1d76f, 0x1d76f), (0x1d789, 0x1d789), (0x1d7a9, 0x1d7a9), (0x1d7c3, 0x1d7c3),
  (0x1d800, 0x1d9ff), (0x1da37, 0x1da3a), (0x1da6d, 0x1da74), (0x1da76, 0x1da83), (0x1da85, 0x1da86), (0x1e14f, 0x1e14f),
  (0x1e2ff, 0x1e2ff), (0x1ecac, 0x1ecac), (0x1ecb0, 0x1ecb0), (0x1ed2e, 0x1ed2e), (0x1eef0, 0x1eef1), (0x1f000, 0x1f02b),
  (0x1f030, 0x1f093), (0x1f0a0, 0x1f0ae), (0x1f0b1, 0x1f0bf), (0x1f0c1, 0x1f0cf), (0x1f0d1, 0x1f0f5), (0x1f10d, 0x1f1ad),
  (0x1f1e6, 0x1f202), (0x1f210, 0x1f23b), (0x1f240, 0x1f248), (0x1f250, 0x1f251), (0x1f260, 0x1f265), (0x1f300, 0x1f6d7),
  (0x1f6dc, 0x1f6ec), (0x1f6f0, 0x1f6fc), (0x1f700, 0x1f776), (0x1f77b, 0x1f7d9), (0x1f7e0, 0x1f7eb), (0x1f7f0, 0x1f7f0),
  (0x1f800, 0x1f80b), (0x1f810, 0x1f847), (0x1f850, 0x1f859), (0x1f860, 0x1f887), (0x1f890, 0x1f8ad), (0x1f8b0, 0x1f8b1),
  (0x1f900, 0x1fa53), (0x1fa60, 0x1fa6d), (0x1fa70, 0x1fa7c), (0x1fa80, 0x1fa88), (0x1fa90, 0x1fabd), (0x1fabf, 0x1fac5),
  (0x1face, 0x1fadb), (0x1fae0, 0x1fae8), (0x1faf0, 0x1faf8), (0x1fb00, 0x1fb92), (0x1fb94, 0x1fbca)
]

/-- `isUnicodePunctuationCharacter`:
`UNICODE_P_REGEX.test(c) || UNICODE_S_REGEX.test(c)`. -/
def isUnicodePunctuationCharacter (c : Char) : Bool :=
  inCodeRanges c.toNat unicodePRanges || inCodeRanges c.toNat unicodeSRanges

/-- `isWhiteSpaceCharacter` (the explicit code-point switch in the source). -/
def isWhiteSpaceCharacter (c : Char) : Bool :=
  let code := c.toNat
  (0x2000 ≤ code && code ≤ 0x200a) ||
  code == 0x09 || code == 0x0a || code == 0x0b || code == 0x0c ||
  code == 0x0d || code == 0x20 || code == 0xa0 || code == 0x1680 ||
  code == 0x202f || code == 0x205f || code == 0x3000

/-- The flanking classification of a `*`/`_` delimiter run in `parseInline`:
`previousCharacter = input[characterCursor - 1] ?? " "` and
`nextCharacter = input[characterCursor + numOfMarkers] ?? " "`, so an
out-of-range neighbor is treated as a space.  Returns `(canOpen, canClose)`. -/
def classifyEmphasisRun (input : Str) (characterCursor numOfMarkers : Nat)
    (marker : Char) : Bool × Bool :=
  let previousCharacter :=
    (if characterCursor = 0 then none
     else input.get? (characterCursor - 1)).getD ' '
  let nextCharacter := (input.get? (characterCursor + numOfMarkers)).getD ' '
  let isPreviousCharacterPunctuation :=
    isAsciiPunctuationCharacter previousCharacter ||
    isUnicodePunctuationCharacter previousCharacter
  let isNextCharacterPunctuation :=
    isAsciiPunctuationCharacter nextCharacter ||
    isUnicodePunctuationCharacter nextCharacter
  let isPreviousCharacterWhitespace := isWhiteSpaceCharacter previousCharacter
  let isNextCharacterWhitespace := isWhiteSpaceCharacter nextCharacter
  let isLeftFlanking :=
    !isNextCharacterWhitespace &&
    (!isNextCharacterPunctuation ||
      isPreviousCharacterWhitespace || isPreviousCharacterPunctuation)
  let isRightFlanking :=
    !isPreviousCharacterWhitespace &&
    (!isPreviousCharacterPunctuation ||
      isNextCharacterWhitespace || isNextCharacterPunctuation)
  if marker = '*' then
    (isLeftFlanking, isRightFlanking)
  else
    (isLeftFlanking && (!isRightFlanking || isPreviousCharacterPunctuation),
     isRightFlanking && (!isLeftFlanking || isNextCharacterPunctuation))

/-- `marker` of a delimiter node (property access `node.marker`). -/
def delimMarker : Inline → Char
  | .emphasisDelimiter m _ _ _ _ => m
  | _ => ' '

/-- `canOpen` of a delimiter node. -/
def delimCanOpen : Inline → Bool
  | .emphasisDelimiter _ _ o _ _ => o
  | _ => false

/-- `count` of a delimiter node. -/
def delimCount : Inline → Nat
  | .emphasisDelimiter _ _ _ _ n => n
  | _ => 0

/-- The backward search of `findMatchingOpenerForCloser`, examining index
`i - 1` and counting down. -/
def findOpenerGo (nodes : List Inline) (closer : Inline) : Nat → Option (Inline × Nat)
  | 0 => none
  | i + 1 =>
    match nodes.get? i with
    | some (Inline.emphasisDelimiter marker content canOpen canClose count) =>
      -- Skip delimiters that cannot open or use a different marker.
      if !canOpen then findOpenerGo nodes closer i
      else if marker ≠ delimMarker closer then findOpenerGo nodes closer i
      -- The "rule of three" guard of the source.
      else if (canClose || delimCanOpen closer)
          && (count + delimCount closer) % 3 == 0
          && (count % 3 != 0 || delimCount closer % 3 != 0) then
        findOpenerGo nodes closer i
      else
        some (Inline.emphasisDelimiter marker content canOpen canClose count, i)
    | _ => findOpenerGo nodes closer i

/-- `findMatchingOpenerForCloser(nodes, { node: closer, index })`. -/
def findMatchingOpenerForCloser (nodes : List Inline) (closer : Inline)
    (closerIndex : Nat) : Option (Inline × Nat) :=
  findOpenerGo nodes closer closerIndex

/-- C3 (corrected): the rule-of-three guard in
`findMatchingOpenerForCloser` fires whenever the opener can also close OR
the closer can also open (a disjunction, not a conjunction), the sum of
the two run lengths is a multiple of 3, and not both lengths are
themselves multiples of 3.  With a single candidate opener, the search
fails exactly when the guard fires. -/
theorem ruleOfThree_blocks_iff (m : Char) (oc cc : Str)
    (oOpen oClose cOpen cClose : Bool) (oCount cCount : Nat)
    (hOpen : oOpen = true) :
    findMatchingOpenerForCloser
      [Inline.emphasisDelimiter m oc oOpen oClose oCount]
      (Inline.emphasisDelimiter m cc cOpen cClose cCount) 1
    = if (oClose || cOpen) && (oCount + cCount) % 3 == 0
          && (oCount % 3 != 0 || cCount % 3 != 0) then
        none
      else
        some (Inline.emphasisDelimiter m oc oOpen oClose oCount, 0) := by
  subst hOpen
  rw [findMatchingOpenerForCloser, findOpenerGo]
  simp only [List.get?_cons_zero, delimMarker, delimCanOpen, delimCount,
    Bool.not_true, Bool.false_eq_true, if_false, ne_eq, not_true_eq_false,
    if_neg]
  split
  · rw [findOpenerGo]
  · rfl

/-- Witness for `ruleOfThree_blocks_iff` at a blocked pair (1 + 2 ≡ 0 mod 3). -/
theorem ruleOfThree_blocks_iff_witness :
    findMatchingOpenerForCloser
      [Inline.emphasisDelimiter '*' ['*'] true true 1]
      (Inline.emphasisDelimiter '*' ['*', '*'] false true 2) 1 = none := by
  rw [ruleOfThree_blocks_iff '*' ['*'] ['*', '*'] true true false true 1 2 rfl]
  simp

/-- C3 counterexample: an opener `*` run of length 1 that can both open and
close, and a closer `**` run of length 2 that can close but NOT open — so
it is not the case that both runs can both open and close.  The claimed
rule would never block this pair, yet the source skips the opener (the
guard is a disjunction `opener.canClose || closer.canOpen`), and the
search finds no opener. -/
theorem ruleOfThree_conjunction_counterexample :
    findMatchingOpenerForCloser
      [Inline.emphasisDelimiter '*' ['*'] true true 1]
      (Inline.emphasisDelimiter '*' ['*', '*'] false true 2) 1 = none
    ∧ delimCanOpen (Inline.emphasisDelimiter '*' ['*', '*'] false true 2) = false
    ∧ (1 + 2) % 3 = 0 :=
  ⟨rfl, rfl, rfl⟩

/-- C9: in `parseInline`, a neighbor position outside the input is read as
a space character: a delimiter run starting at index 0 is preceded by
whitespace, hence never right-flanking and unable to close; a run ending
at the end of the input is followed by whitespace, hence never
left-flanking and unable to open.  This holds for either marker. -/
theorem flanking_out_of_range_neighbors :
    (∀ (input : Str) (numOfMarkers : Nat) (marker : Char),
      (classifyEmphasisRun input 0 numOfMarkers marker).2 = false)
  ∧ (∀ (input : Str) (characterCursor numOfMarkers : Nat) (marker : Char),
      input.length ≤ characterCursor + numOfMarkers →
      (classifyEmphasisRun input characterCursor numOfMarkers marker).1 = false) := by
  have hsp : isWhiteSpaceCharacter ' ' = true := rfl
  constructor
  · intro input numOfMarkers marker
    simp only [classifyEmphasisRun, if_pos rfl, Option.getD_none, hsp,
      Bool.not_true, Bool.false_and]
    split <;> simp [hsp]
  · intro input characterCursor numOfMarkers marker h
    have hnone : input.get? (characterCursor + numOfMarkers) = none :=
      List.get?_eq_none.mpr h
    simp only [classifyEmphasisRun, hnone, Option.getD_none, hsp,
      Bool.not_true, Bool.false_and]
    split <;> simp [hsp]

/-- Witness for `flanking_out_of_range_neighbors`: a lone `*` at the end of
the input cannot open. -/
theorem flanking_out_of_range_neighbors_witness :
    (classifyEmphasisRun ['a', '*'] 1 1 '*').1 = false :=
  flanking_out_of_range_neighbors.2 ['a', '*'] 1 1 '*' (by decide)

/-! ## A small backtracking regex engine

The source builds several `RegExp` values (HTML tags, autolinks,
entities).  They are embedded as data below and interpreted by a
backtracking matcher that returns the possible remaining suffixes in
preference order (greedy alternatives first), which reproduces the JS
engine's leftmost-greedy semantics.  The matcher is fuelled; every use in
this development supplies ample fuel and only ever evaluates it on
concrete inputs. -/

inductive Re where
  | eps
  | eos
  | chr (c : Char)
  | cls (f : Char → Bool)
  | seq (a b : Re)
  | alt (a b : Re)
  | opt (a : Re)
  | star (a : Re)
  | starLazy (a : Re)
  | rep (a : Re) (min max : Nat)

/-- Match `re` against `s`; the result lists the suffixes left after each
possible match, most-preferred first. -/
def reMatch : Nat → Re → Str → List Str
  | 0, _, _ => []
  | fuel + 1, re, s =>
    match re with
    | .eps => [s]
    | .eos => if s.isEmpty then [s] else []
    | .chr c =>
      match s with
      | x :: rest => if x = c then [rest] else []
      | [] => []
    | .cls f =>
      match s with
      | x :: rest => if f x then [rest] else []
      | [] => []
    | .seq a b => (reMatch fuel a s).flatMap (fun rest => reMatch fuel b rest)
    | .alt a b => reMatch fuel a s ++ reMatch fuel b s
    | .opt a => reMatch fuel a s ++ [s]
    | .star a =>
      ((reMatch fuel a s).filter (fun rest => rest.length < s.length)).flatMap
        (fun rest => reMatch fuel (.star a) rest) ++ [s]
    | .starLazy a =>
      [s] ++ ((reMatch fuel a s).filter (fun rest => rest.length < s.length)).flatMap
        (fun rest => reMatch fuel (.starLazy a) rest)
    | .rep a min max =>
      match min, max with
      | 0, 0 => [s]
      | 0, mx + 1 =>
        ((reMatch fuel a s).filter (fun rest => rest.length < s.length)).flatMap
          (fun rest => reMatch fuel (.rep a 0 mx) rest) ++ [s]
      | mn + 1, mx =>
        (reMatch fuel a s).flatMap (fun rest => reMatch fuel (.rep a mn (mx - 1)) rest)

/-- Generous fuel in terms of the subject length. -/
def reFuel (s : Str) : Nat := (s.length + 16) * (s.length + 16)

/-- `re.test(s)` for a `^`-anchored regex: does any match start at 0? -/
def reTestAnchored (re : Re) (s : Str) : Bool :=
  !(reMatch (reFuel s) re s).isEmpty

/-- `re.test(s)` for an unanchored regex: does any match start anywhere? -/
def reTestSearch (re : Re) (s : Str) : Bool :=
  s.tails.any (fun t => !(reMatch (reFuel s) re t).isEmpty)

/-- `s.match(re)` for a `^`-anchored regex: the length of `match[0]` under
the engine's preference order, if any. -/
def reMatchLength (re : Re) (s : Str) : Option Nat :=
  match reMatch (reFuel s) re s with
  | [] => none
  | rest :: _ => some (s.length - rest.length)

/-- Fold a list of regexes into a sequence. -/
def reSeqList (l : List Re) : Re := l.foldr Re.seq .eps

/-- Fold a non-empty list of regexes into an alternation. -/
def reAltList : List Re → Re
  | [] => .cls (fun _ => false)
  | [r] => r
  | r :: rest => .alt r (reAltList rest)

/-- A literal string. -/
def reStr (l : Str) : Re := reSeqList (l.map Re.chr)

/-- A case-insensitive literal string (for the `/i` regexes; ASCII folding). -/
def reStrCI (l : Str) : Re :=
  reSeqList (l.map (fun c => Re.cls (fun x => x.toLower = c.toLower)))

/-- `X+`. -/
def rePlus (a : Re) : Re := .seq a (.star a)

/-- `\s` (JS whitespace). -/
def reWs : Re := .cls jsWhitespace

def isAsciiLetter (c : Char) : Bool :=
  ('A' ≤ c && c ≤ 'Z') || ('a' ≤ c && c ≤ 'z')

def isAsciiDigit (c : Char) : Bool := '0' ≤ c && c ≤ '9'

/-! The inline-HTML patterns of `inline-parser.ts`. -/

/-- `ATTRIBUTE_NAME = [a-zA-Z_:][a-zA-Z0-9:._-]*`. -/
def reAttributeName : Re :=
  .seq (.cls (fun c => isAsciiLetter c || c = '_' || c = ':'))
    (.star (.cls (fun c =>
      isAsciiLetter c || isAsciiDigit c || c = ':' || c = '.' || c = '_' || c = '-')))

/-- `UNQUOTED = [^"'=<>`\x00-\x20]+` (the class excludes a backquote). -/
def reUnquoted : Re :=
  rePlus (.cls (fun c =>
    !(c = '"' || c = '\'' || c = '=' || c = '<' || c = '>' ||
      c.toNat = 0x60 || c.toNat ≤ 0x20)))

/-- `SINGLE_QUOTED = '[^']*'`. -/
def reSingleQuoted : Re :=
  reSeqList [.chr '\'', .star (.cls (fun c => c ≠ '\'')), .chr '\'']

/-- `DOUBLE_QUOTED = "[^"]*"`. -/
def reDoubleQuoted : Re :=
  reSeqList [.chr '"', .star (.cls (fun c => c ≠ '"')), .chr '"']

/-- `ATTRIBUTE_VALUE = (?:UNQUOTED|SINGLE_QUOTED|DOUBLE_QUOTED)`. -/
def reAttributeValue : Re := reAltList [reUnquoted, reSingleQuoted, reDoubleQuoted]

/-- `ATTRIBUTE = (?:\s+NAME(?:\s*=\s*VALUE)?)`. -/
def reAttribute : Re :=
  reSeqList [rePlus reWs, reAttributeName,
    .opt (reSeqList [.star reWs, .chr '=', .star reWs, reAttributeValue])]

/-- `OPEN_TAG = <[A-Za-z][A-Za-z0-9\-]*ATTRIBUTE*\s*\/?>`. -/
def reOpenTag : Re :=
  reSeqList [.chr '<', .cls isAsciiLetter,
    .star (.cls (fun c => isAsciiLetter c || isAsciiDigit c || c = '-')),
    .star reAttribute, .star reWs, .opt (.chr '/'), .chr '>']

/-- `CLOSE_TAG = <\/[A-Za-z][A-Za-z0-9\-]*\s*>`. -/
def reCloseTag : Re :=
  reSeqList [.chr '<', .chr '/', .cls isAsciiLetter,
    .star (.cls (fun c => isAsciiLetter c || isAsciiDigit c || c = '-')),
    .star reWs, .chr '>']

/-- `COMMENT = <!---?>|<!--(?:[^-]|-[^-]|--[^>])*-->`. -/
def reComment : Re :=
  .alt
    (reSeqList [reStr "<!--".data, .opt (.chr '-'), .chr '>'])
    (reSeqList [reStr "<!--".data,
      .star (reAltList [.cls (fun c => c ≠ '-'),
        .seq (.chr '-') (.cls (fun c => c ≠ '-')),
        .seq (reStr "--".data) (.cls (fun c => c ≠ '>'))]),
      reStr "-->".data])

/-- `PROCESSING = <[?][\s\S]*?[?]>`. -/
def reProcessing : Re :=
  reSeqList [.chr '<', .chr '?', .starLazy (.cls (fun _ => true)),
    .chr '?', .chr '>']

/-- `DECLARATION = <![A-Za-z][^>]*>`. -/
def reDeclaration : Re :=
  reSeqList [.chr '<', .chr '!', .cls isAsciiLetter,
    .star (.cls (fun c => c ≠ '>')), .chr '>']

/-- `CDATA = <!\[CDATA\[[\s\S]*?\]\]>`. -/
def reCdata : Re :=
  reSeqList [reStr "<![CDATA[".data, .starLazy (.cls (fun _ => true)),
    reStr "]]>".data]

/-- `HTML_TAG_REGEX = ^(?:OPEN_TAG|CLOSE_TAG|COMMENT|PROCESSING|DECLARATION|CDATA)`. -/
def reHtmlTag : Re :=
  reAltList [reOpenTag, reCloseTag, reComment, reProcessing, reDeclaration, reCdata]

/-- `EMAIL_REGEX` (anchored): `<local@domain(\.domain)*>` with the RFC-like
classes of the source. -/
def reEmail : Re :=
  let localChar : Re := .cls (fun c =>
    isAsciiLetter c || isAsciiDigit c ||
    ("." ++ "!#$%&'*+/=?^_`" ++ "\x7b|\x7d~-").data.contains c)
  let domainStart : Re := .cls (fun c => isAsciiLetter c || isAsciiDigit c)
  let domainMid : Re := .cls (fun c => isAsciiLetter c || isAsciiDigit c || c = '-')
  let domain : Re :=
    .seq domainStart (.opt (.seq (.rep domainMid 0 61) domainStart))
  reSeqList [.chr '<', rePlus localChar, .chr '@', domain,
    .star (.seq (.chr '.') domain), .chr '>']

/-- `AUTOLINK_REGEX = ^<[A-Za-z][A-Za-z0-9.+-]{1,31}:[^<>\x00-\x20]*>/i`. -/
def reAutolink : Re :=
  reSeqList [.chr '<', .cls isAsciiLetter,
    .rep (.cls (fun c => isAsciiLetter c || isAsciiDigit c || c = '.' || c = '+' || c = '-')) 1 31,
    .chr ':',
    .star (.cls (fun c => !(c = '<' || c = '>' || c.toNat ≤ 0x20))),
    .chr '>']

/-- `ENTITY_REGEX = ^&(?:#x[a-f0-9]{1,6}|#[0-9]{1,7}|[a-z][a-z0-9]{1,31});/i`. -/
def reEntity : Re :=
  let hex : Re := .cls (fun c => isAsciiDigit c || ('a' ≤ c.toLower && c.toLower ≤ 'f'))
  let letter : Re := .cls (fun c => isAsciiLetter c)
  let alnum : Re := .cls (fun c => isAsciiLetter c || isAsciiDigit c)
  reSeqList [.chr '&',
    reAltList [
      reSeqList [.chr '#', .cls (fun c => c.toLower = 'x'), .rep hex 1 6],
      reSeqList [.chr '#', .rep (.cls isAsciiDigit) 1 7],
      reSeqList [letter, .rep alnum 1 31]],
    .chr ';']

/-! ## Block-level helpers (`markdown-parser.ts`) -/

/-- `s.charAt(i)`; `none` models the empty string returned out of range. -/
def charAt (s : Str) (i : Nat) : Option Char := s.get? i

/-- `s.slice(a)` for `a ≥ 0`. -/
def jsSlice (s : Str) (a : Nat) : Str := s.drop a

/-- `s.slice(a, b)` for `0 ≤ a ≤ b` (the only shape used on indices). -/
def jsSliceTo (s : Str) (a b : Nat) : Str := (s.take b).drop a

/-- `isSpaceOrTab` on a character. -/
def isSpaceOrTab (c : Char) : Bool := c = ' ' || c = '\t'

/-- `isSpaceOrTab(s.charAt(i))`: JS passes the empty string out of range,
which is neither a space nor a tab. -/
def isSpaceOrTabS (c : Option Char) : Bool := c.elim false isSpaceOrTab

/-- `isLineEmpty`: the trimmed line is empty. -/
def isLineEmpty (line : Str) : Bool := (jsTrim line).isEmpty

/-- `getFirstNonspaceIndex`: number of leading space/tab characters. -/
def getFirstNonspaceIndex (line : Str) : Nat :=
  (line.takeWhile isSpaceOrTab).length

/-- The column-counting loop of `getLeadingNonspaceColumn`, expanding tabs
to the next multiple of 4. -/
def leadingColumnGo (columns : Nat) : Str → Nat
  | [] => columns
  | c :: rest =>
    if c = ' ' then leadingColumnGo (columns + 1) rest
    else if c = '\t' then leadingColumnGo (columns + (4 - columns % 4)) rest
    else columns

/-- `getLeadingNonspaceColumn`. -/
def getLeadingNonspaceColumn (line : Str) : Nat := leadingColumnGo 0 line

/-- The indent scan of `sliceLeadingIndent`: returns the final indent level
and the remaining characters. -/
def sliceIndentGo (indent : Nat) : Str → Nat × Str
  | [] => (indent, [])
  | c :: rest =>
    if c = ' ' then sliceIndentGo (indent + 1) rest
    else if c = '\t' then sliceIndentGo (indent + (4 - indent % 4)) rest
    else (indent, c :: rest)

/-- `sliceLeadingIndent(line, width)`: remove up to `width` visual columns,
re-inserting spaces when a tab is cut through. -/
def sliceLeadingIndent (line : Str) (width : Nat) : Str :=
  let r := sliceIndentGo 0 line
  if r.1 > width then List.replicate (r.1 - width) ' ' ++ r.2 else r.2

/-- `isIndentedCodeLine`: 4 or more columns of indentation. -/
def isIndentedCodeLine (line : Str) : Bool :=
  getLeadingNonspaceColumn line ≥ 4

/-- The backtick character (U+0060). -/
def backtickChar : Char := Char.ofNat 0x60

/-- Length of the run of `marker` characters at the head of `s`. -/
def countLeadingRun (s : Str) (marker : Char) : Nat :=
  (s.takeWhile (fun c => c = marker)).length

/-- Result of `parseCodeFenceStart`. -/
structure FenceStart where
  indentLevel : Nat
  numOfMarkers : Nat
  marker : Char
  info : Option Str
deriving Repr, DecidableEq

/-- `parseCodeFenceStart`. -/
def parseCodeFenceStart (line : Str) : Option FenceStart :=
  let indentColumns := getLeadingNonspaceColumn line
  if indentColumns > 3 then none
  else
    let line := jsTrim line
    if line.length < 3 then none
    else
      match charAt line 0 with
      | none => none
      | some marker =>
        if marker ≠ '~' ∧ marker ≠ backtickChar then none
        else
          let numOfMarkers := countLeadingRun line marker
          if numOfMarkers < 3 then none
          else
            let info := jsTrim (jsSlice line numOfMarkers)
            if marker = backtickChar ∧ info.contains backtickChar then none
            else
              some ⟨indentColumns, numOfMarkers, marker,
                if info = [] then none else some info⟩

/-- `isCodeFenceEnd(line, { marker, numOfMarkers })`. -/
def isCodeFenceEnd (line : Str) (marker : Char) (numOfMarkers : Nat) : Bool :=
  let indent := getLeadingNonspaceColumn line
  if indent > 3 then false
  else
    let line := jsTrim line
    if charAt line 0 ≠ some marker then false
    else
      let n := countLeadingRun line marker
      if n < numOfMarkers then false
      else
        if line.length > n then false
        else true

/-- The marker-counting loop of `isSeparator`: counts `marker` characters,
skipping spaces and tabs; any other character invalidates the line. -/
def separatorCount (marker : Char) (count : Nat) : Str → Option Nat
  | [] => some count
  | c :: rest =>
    if isSpaceOrTab c then separatorCount marker count rest
    else if c = marker then separatorCount marker (count + 1) rest
    else none

/-- `isSeparator` (thematic break). -/
def isSeparator (line : Str) : Bool :=
  if isIndentedCodeLine line then false
  else
    match jsTrim line with
    | [] => false
    | marker :: rest =>
      if marker ≠ '-' ∧ marker ≠ '_' ∧ marker ≠ '*' then false
      else
        match separatorCount marker 1 rest with
        | none => false
        | some k => decide (k ≥ 3)

/-- The column scan after a marker: advances over spaces and tabs starting
at column `numOfColumns`, returning the final column and remaining text. -/
def markerWsScan (numOfColumns : Nat) : Str → Nat × Str
  | [] => (numOfColumns, [])
  | c :: rest =>
    if c = '\t' then markerWsScan (numOfColumns + (4 - numOfColumns % 4)) rest
    else if c = ' ' then markerWsScan (numOfColumns + 1) rest
    else (numOfColumns, c :: rest)

/-- `parseBlockquoteLine`: strip `>` (indent ≤ 3) and one following space,
expanding tabs relative to the absolute column. -/
def parseBlockquoteLine (line : Str) : Option Str :=
  if isIndentedCodeLine line then none
  else
    let firstNonspaceIndex := getFirstNonspaceIndex line
    if charAt line firstNonspaceIndex ≠ some '>' then none
    else
      let r := markerWsScan (firstNonspaceIndex + 1)
        (jsSlice line (firstNonspaceIndex + 1))
      let content := List.replicate (r.1 - firstNonspaceIndex - 1) ' ' ++ r.2
      if charAt content 0 = some ' ' then some (jsSlice content 1)
      else some content

/-- `parseATXHeading`. -/
def parseATXHeading (line : Str) : Option (Nat × Str) :=
  if isIndentedCodeLine line then none
  else
    let line := jsTrim line
    if charAt line 0 ≠ some '#' then none
    else
      let numOfOpeningHashes := countLeadingRun line '#'
      if numOfOpeningHashes > 6 then none
      else if numOfOpeningHashes < line.length
          ∧ charAt line numOfOpeningHashes ≠ some ' '
          ∧ charAt line numOfOpeningHashes ≠ some '\t' then none
      else
        -- Trailing `#` run, stopping when it would reach the opening run.
        let trailingRun := countLeadingRun line.reverse '#'
        let numOfClosingHashes :=
          min trailingRun (line.length - numOfOpeningHashes - 1)
        let contentEndIndex :=
          if isSpaceOrTabS (charAt line (line.length - numOfClosingHashes - 1))
          then line.length - numOfClosingHashes
          else line.length
        some (numOfOpeningHashes,
          jsTrim (jsSliceTo line numOfOpeningHashes contentEndIndex))

/-- `parseSetextHeading`: returns the heading level. -/
def parseSetextHeading (line : Str) : Option Nat :=
  if isIndentedCodeLine line then none
  else
    let line := jsTrim line
    match charAt line 0 with
    | none => none
    | some marker =>
      if marker ≠ '=' ∧ marker ≠ '-' then none
      else if ¬(line.all (fun c => c = marker)) then none
      else if marker = '=' then some 1 else some 2

/-- Table column alignments. -/
inductive Align where
  | left
  | right
  | center
deriving Repr, DecidableEq

/-- `/^:?-+:?$/`: an optional leading colon, one or more dashes, an
optional trailing colon. -/
def isDelimiterCellShape (cell : Str) : Bool :=
  let s1 := if charAt cell 0 = some ':' then jsSlice cell 1 else cell
  let s2 := if s1.getLast? = some ':' then s1.dropLast else s1
  !s2.isEmpty && s2.all (fun c => c = '-')

/-- Alignment of a valid delimiter cell from its leading/trailing colons. -/
def alignmentOfCell (cell : Str) : Option Align :=
  if cell.getLast? = some ':' then
    if charAt cell 0 = some ':' then some Align.center else some Align.right
  else if charAt cell 0 = some ':' then some Align.left
  else none

/-- `s.split(sep)` for a single-character separator. -/
def jsSplitChar (sep : Char) : Str → List Str
  | [] => [[]]
  | c :: rest =>
    if c = sep then [] :: jsSplitChar sep rest
    else prependToHead [c] (jsSplitChar sep rest)

/-- The alignment loop of `parseTableStartLine`: empty cells are allowed
only at the two ends (and contribute no column); every other cell must be
a delimiter cell. -/
def delimiterAlignments (total : Nat) (i : Nat) :
    List Str → Option (List (Option Align))
  | [] => some []
  | cell :: rest =>
    let cell := jsTrim cell
    if cell.isEmpty then
      if i = 0 ∨ i = total - 1 then delimiterAlignments total (i + 1) rest
      else none
    else if ¬isDelimiterCellShape cell then none
    else (delimiterAlignments total (i + 1) rest).map
      (fun as => alignmentOfCell cell :: as)

/-- Result of `parseTableStartLine`. -/
structure TableStart where
  alignments : List (Option Align)
  headCells : List Str
deriving Repr, DecidableEq

/-- `parseTableStartLine({ firstLine, secondLine })`. -/
def parseTableStartLine (firstLine secondLine : Option Str) : Option TableStart :=
  match firstLine, secondLine with
  | some firstLine, some secondLine =>
    if isIndentedCodeLine secondLine then none
    else if isLineEmpty secondLine then none
    else
      let firstLine := jsTrim firstLine
      let secondLine := jsTrim secondLine
      if charAt secondLine 0 ≠ some '|' ∧ charAt secondLine 0 ≠ some ':'
          ∧ charAt secondLine 0 ≠ some '-' then none
      else if charAt secondLine 0 = some '-'
          ∧ isSpaceOrTabS (charAt secondLine 1) then none
      else if ¬firstLine.contains '|' then none
      else if ¬((jsSlice secondLine 1).all (fun c =>
          c = '|' || c = ':' || c = '-' || isSpaceOrTab c)) then none
      else
        let delimiterCells := jsSplitChar '|' secondLine
        match delimiterAlignments delimiterCells.length 0 delimiterCells with
        | none => none
        | some alignments =>
          let headerCells := parseTableRow firstLine
          if headerCells.length = 0 ∨ headerCells.length ≠ alignments.length
          then none
          else some ⟨alignments, headerCells⟩
  | _, _ => none

/-- Numeric value of a digit string (`parseInt(s, 10)` on 1–9 digits). -/
def parseDigits (s : Str) : Nat :=
  s.foldl (fun a c => a * 10 + (c.toNat - 0x30)) 0

/-- The list-item kind with its marker data. -/
inductive ListItemKind where
  | ordered (value : Nat) (delimiter : Char)
  | unordered (marker : Char)
deriving Repr, DecidableEq

/-- Result of `parseListItem`. -/
structure ListItemParse where
  kind : ListItemKind
  content : Str
  numOfColumns : Nat
deriving Repr, DecidableEq

/-- Intermediate result of the ordered/unordered item openers, before the
wide-content adjustment. -/
structure RawItemParse where
  kind : ListItemKind
  content : Str
  numOfColumns : Nat
  numOfColumnsAfterMarker : Nat
deriving Repr, DecidableEq

/-- `parseOrderedListItem`.  A first-character check on an out-of-range
index compares `NaN`, which fails both bounds tests in JS and therefore
does not reject; the delimiter check rejects such lines a step later. -/
def parseOrderedListItem (line : Str) : Option RawItemParse :=
  if isIndentedCodeLine line then none
  else
    let firstNonspaceIndex := getFirstNonspaceIndex line
    let digitOk :=
      match charAt line firstNonspaceIndex with
      | some c => isAsciiDigit c
      | none => true
    if digitOk = false then none
    else
      let numOfDigits :=
        1 + ((jsSlice line (firstNonspaceIndex + 1)).takeWhile isAsciiDigit).length
      if numOfDigits > 9 then none
      else
        match charAt line (firstNonspaceIndex + numOfDigits) with
        | some delimiter =>
          if delimiter ≠ '.' ∧ delimiter ≠ ')' then none
          else
            let value := parseDigits
              (jsSliceTo line firstNonspaceIndex (firstNonspaceIndex + numOfDigits))
            let characterIndex := firstNonspaceIndex + numOfDigits + 1
            if characterIndex < line.length
                ∧ charAt line characterIndex ≠ some ' '
                ∧ charAt line characterIndex ≠ some '\t' then none
            else
              let r := markerWsScan characterIndex (jsSlice line characterIndex)
              some ⟨.ordered value delimiter, r.2, r.1,
                r.1 - (firstNonspaceIndex + numOfDigits + 1)⟩
        | none => none

/-- `parseUnorderedListItem`. -/
def parseUnorderedListItem (line : Str) : Option RawItemParse :=
  if isIndentedCodeLine line then none
  else
    let firstNonspaceIndex := getFirstNonspaceIndex line
    match charAt line firstNonspaceIndex with
    | some marker =>
      if marker ≠ '*' ∧ marker ≠ '+' ∧ marker ≠ '-' then none
      else
        let characterIndex := firstNonspaceIndex + 1
        if characterIndex < line.length
            ∧ charAt line characterIndex ≠ some ' '
            ∧ charAt line characterIndex ≠ some '\t' then none
        else
          let r := markerWsScan characterIndex (jsSlice line characterIndex)
          some ⟨.unordered marker, r.2, r.1, r.1 - (firstNonspaceIndex + 1)⟩
    | none => none

/-- `parseListItem`: an ordered or unordered opener, followed by the
wide-content/empty-content adjustment that falls back to the baseline
column one past the marker. -/
def parseListItem (line : Str) : Option ListItemParse :=
  let item? :=
    match parseOrderedListItem line with
    | some item => some item
    | none => parseUnorderedListItem line
  match item? with
  | none => none
  | some item =>
    if item.numOfColumnsAfterMarker ≥ 5 ∨ item.numOfColumnsAfterMarker = 0
        ∨ isLineEmpty item.content then
      let content := List.replicate item.numOfColumnsAfterMarker ' ' ++ item.content
      let content := if charAt content 0 = some ' ' then jsSlice content 1 else content
      some ⟨item.kind, content, item.numOfColumns - item.numOfColumnsAfterMarker + 1⟩
    else
      some ⟨item.kind, item.content, item.numOfColumns⟩

/-! HTML block start/end patterns (`HTML_SEQUENCES`). -/

/-- The end-pattern of an open HTML block, as an index into the fixed set
of terminator regexes. -/
inductive EndPat where
  | rawTextEnd
  | commentEnd
  | processingEnd
  | declarationEnd
  | cdataEnd
deriving Repr, DecidableEq

/-- The regex denoted by each terminator. -/
def endPatRe : EndPat → Re
  | .rawTextEnd =>
    reSeqList [reStr "</".data,
      reAltList (["script", "pre", "textarea", "style"].map (fun t => reStrCI t.data)),
      .chr '>']
  | .commentEnd => reStr "-->".data
  | .processingEnd => reStr "?>".data
  | .declarationEnd => reStr ">".data
  | .cdataEnd => reStr "]]>".data

/-- `endPattern.test(s)` (unanchored search). -/
def endPatTest (p : EndPat) (s : Str) : Bool := reTestSearch (endPatRe p) s

/-- One entry of `HTML_SEQUENCES`. -/
structure HtmlSequence where
  startPattern : Re
  endPattern : Option EndPat
  canInterruptParagraph : Bool
  canBeInterruptedByBlankLine : Bool

/-- The CommonMark block tag names of sequence 6. -/
def htmlBlockTagNames : List String :=
  ["address", "article", "aside", "base", "basefont", "blockquote", "body",
   "caption", "center", "col", "colgroup", "dd", "details", "dialog", "dir",
   "div", "dl", "dt", "fieldset", "figcaption", "figure", "footer", "form",
   "frame", "frameset", "h1", "h2", "h3", "h4", "h5", "h6", "head", "header",
   "hr", "html", "iframe", "legend", "li", "link", "main", "menu", "menuitem",
   "nav", "noframes", "ol", "optgroup", "option", "p", "param", "section",
   "search", "summary", "table", "tbody", "td", "tfoot", "th", "thead",
   "title", "tr", "track", "ul"]

/-- `HTML_SEQUENCES`, in source order. -/
def HTML_SEQUENCES : List HtmlSequence := [
  { startPattern := reSeqList [.chr '<',
      reAltList (["script", "pre", "textarea", "style"].map (fun t => reStrCI t.data)),
      reAltList [reWs, .chr '>', .eos]],
    endPattern := some .rawTextEnd,
    canInterruptParagraph := true, canBeInterruptedByBlankLine := false },
  { startPattern := reStr "<!--".data,
    endPattern := some .commentEnd,
    canInterruptParagraph := true, canBeInterruptedByBlankLine := false },
  { startPattern := reStr "<?".data,
    endPattern := some .processingEnd,
    canInterruptParagraph := true, canBeInterruptedByBlankLine := false },
  { startPattern := .seq (reStr "<!".data) (.cls isAsciiLetter),
    endPattern := some .declarationEnd,
    canInterruptParagraph := true, canBeInterruptedByBlankLine := false },
  { startPattern := reStr "<![CDATA[".data,
    endPattern := some .cdataEnd,
    canInterruptParagraph := true, canBeInterruptedByBlankLine := false },
  { startPattern := reSeqList [.chr '<', .opt (.chr '/'),
      reAltList (htmlBlockTagNames.map (fun t => reStrCI t.data)),
      reAltList [reWs, .seq (.opt (.chr '/')) (.chr '>'), .eos]],
    endPattern := none,
    canInterruptParagraph := true, canBeInterruptedByBlankLine := true },
  { startPattern := reSeqList [.alt reOpenTag reCloseTag, .star reWs, .eos],
    endPattern := none,
    canInterruptParagraph := false, canBeInterruptedByBlankLine := true }]

/-- `parseHTMLBlockStart`: returns
`(endPattern, canInterruptParagraph, canBeInterruptedByBlankLine)`. -/
def parseHTMLBlockStart (line : Str) : Option (Option EndPat × Bool × Bool) :=
  if isIndentedCodeLine line then none
  else
    let firstNonspaceIndex := getFirstNonspaceIndex line
    if charAt line firstNonspaceIndex ≠ some '<' then none
    else
      match HTML_SEQUENCES.find?
        (fun sq => reTestAnchored sq.startPattern (jsSlice line firstNonspaceIndex)) with
      | none => none
      | some sq =>
        some (sq.endPattern, sq.canInterruptParagraph, sq.canBeInterruptedByBlankLine)

/-! ## Inline low-level scanners (`inline-parser.ts`) -/

/-- Modelled from the spec: the host case conversions used by
`normalizeReference` (`.toLowerCase()`/`.toUpperCase()`); the spec allows
any consistent case-folding, modelled here as per-character mapping. -/
def jsToLowerCase (s : Str) : Str := s.map Char.toLower

/-- Modelled from the spec: see `jsToLowerCase`. -/
def jsToUpperCase (s : Str) : Str := s.map Char.toUpper

/-- `normalizeReference` with the source's case transforms. -/
def normalizeReferenceJS (s : Str) : Str :=
  normalizeReference jsToLowerCase jsToUpperCase s

/-- `isValidEntityCode`. -/
def isValidEntityCode (code : Nat) : Bool :=
  if 0xd800 ≤ code ∧ code ≤ 0xdfff then false
  else if 0xfdd0 ≤ code ∧ code ≤ 0xfdef then false
  else if code % 0x10000 = 0xffff ∨ code % 0x10000 = 0xfffe then false
  else if code ≤ 0x08 then false
  else if code = 0x0b then false
  else if 0x0e ≤ code ∧ code ≤ 0x1f then false
  else if 0x7f ≤ code ∧ code ≤ 0x9f then false
  else if code > 0x10ffff then false
  else true

/-- `fromCodePoint` (the scalar-value model renders the surrogate-pair
construction of the source as the code point itself). -/
def fromCodePoint (code : Nat) : Str := [Char.ofNat code]

/-- Hexadecimal digit value. -/
def hexDigitVal (c : Char) : Nat :=
  if isAsciiDigit c then c.toNat - 0x30
  else if 'a' ≤ c.toLower ∧ c.toLower ≤ 'f' then c.toLower.toNat - 0x61 + 10
  else 0

/-- `parseInt(s, 16)` on hex digits. -/
def parseHexDigits (s : Str) : Nat :=
  s.foldl (fun a c => a * 16 + hexDigitVal c) 0

/-- `DIGITAL_ENTITY_TEST_RE = ^#((?:x[a-f0-9]{1,8}|[0-9]{1,8}))$/i`. -/
def digitalEntityTest (entity : Str) : Bool :=
  match entity with
  | '#' :: rest =>
    match rest with
    | c :: hexrest =>
      if c.toLower = 'x' then
        decide (1 ≤ hexrest.length) && decide (hexrest.length ≤ 8) &&
          hexrest.all (fun c => isAsciiDigit c || ('a' ≤ c.toLower && c.toLower ≤ 'f'))
      else
        decide (1 ≤ rest.length) && decide (rest.length ≤ 8) &&
          rest.all isAsciiDigit
    | [] => false
  | _ => false

/-- Modelled from the spec: `decodeHTMLStrict` from the external
`entities` package — HTML5 entity decoding.  Numeric character references
are decoded (invalid code points become U+FFFD); a compact table covers the
common named entities; anything else is returned unchanged. -/
def decodeHTMLStrict (s : Str) : Str :=
  match s with
  | '&' :: rest =>
    match rest.getLast? with
    | some ';' =>
      let name := rest.dropLast
      match name with
      | '#' :: num =>
        let code :=
          match num with
          | c :: hexdigits =>
            if c.toLower = 'x' then parseHexDigits hexdigits else parseDigits num
          | [] => 0
        if isValidEntityCode code then fromCodePoint code else ['�']
      | _ =>
        let table : List (String × String) :=
          [("amp", "&"), ("lt", "<"), ("gt", ">"), ("quot", "\""),
           ("apos", "'"), ("nbsp", " "), ("copy", "©"),
           ("AMP", "&"), ("LT", "<"), ("GT", ">"), ("QUOT", "\"")]
        match table.find? (fun e => e.1.data = name) with
        | some e => e.2.data
        | none => s
    | _ => s
  | _ => s

/-- The entity arm of `UNESCAPE_ALL_RE` (`&([a-z#][a-z0-9]{1,31});`, with
the `i` flag): returns the captured group and the remaining input after
the `;`. -/
def entityScan (rest : Str) : Option (Str × Str) :=
  match rest with
  | c0 :: rest2 =>
    if ¬(isAsciiLetter c0 ∨ c0 = '#') then none
    else
      let run := rest2.takeWhile (fun c => isAsciiLetter c || isAsciiDigit c)
      if run.length < 1 ∨ run.length > 31 then none
      else
        match jsSlice rest2 run.length with
        | ';' :: after => some (c0 :: run, after)
        | _ => none
  | [] => none

/-- The global replacement loop of `unescapeString`
(`text.replace(UNESCAPE_ALL_RE, cb)`).  Fuelled: each step consumes at
least one character, so `length + 1` fuel always suffices. -/
def unescapeGo : Nat → Str → Str
  | 0, s => s
  | _, [] => []
  | fuel + 1, '\\' :: c :: rest =>
    if isAsciiPunctuationCharacter c then c :: unescapeGo fuel rest
    else '\\' :: unescapeGo fuel (c :: rest)
  | fuel + 1, '&' :: rest =>
    match entityScan rest with
    | some (entity, after) =>
      let matched := '&' :: (entity ++ [';'])
      let replacement :=
        if charAt entity 0 = some '#' ∧ digitalEntityTest entity then
          let code :=
            if (charAt entity 1).map Char.toLower = some 'x' then
              parseHexDigits (jsSlice entity 2)
            else parseDigits (jsSlice entity 1)
          if isValidEntityCode code then fromCodePoint code else matched
        else
          let decoded := decodeHTMLStrict matched
          if decoded ≠ matched then decoded else matched
      replacement ++ unescapeGo fuel after
    | none => '&' :: unescapeGo fuel rest
  | fuel + 1, c :: rest => c :: unescapeGo fuel rest

/-- `unescapeString` with its fast path. -/
def unescapeString (text : Str) : Str :=
  if ¬text.contains '\\' ∧ ¬text.contains '&' then text
  else unescapeGo (text.length + 1) text

/-- Result of `parseLinkDestination`.  `endIndex` is the index of the last
character of the destination token, as in the source (so it can be
`startIndex - 1` for an empty bare destination). -/
structure LinkDestination where
  href : Str
  raw : Str
  endIndex : Int
deriving Repr, DecidableEq

/-- The `<...>` destination scan: offset of the closing `>` relative to the
character after `<`, or `none`. -/
def angleDestGo : Str → Option Nat
  | [] => none
  | c :: rest =>
    if c = '\n' then none
    else if c = '<' then none
    else if c = '>' then some 0
    else if c = '\\' then
      match rest with
      | _ :: rest2 => (angleDestGo rest2).map (· + 2)
      | [] => none
    else (angleDestGo rest).map (· + 1)

/-- The bare destination scan: number of characters consumed, or `none` on
unbalanced or over-nested parentheses. -/
def bareDestGo (numOfLeftParentheses : Nat) : Str → Option Nat
  | [] => if numOfLeftParentheses ≠ 0 then none else some 0
  | c :: rest =>
    let code := c.toNat
    if code = 0x20 then
      if numOfLeftParentheses ≠ 0 then none else some 0
    else if code < 0x20 ∨ code = 0x7f then
      if numOfLeftParentheses ≠ 0 then none else some 0
    else if code = 0x5c then
      match rest with
      | c2 :: rest2 =>
        if c2 = ' ' then (if numOfLeftParentheses ≠ 0 then none else some 0)
        else (bareDestGo numOfLeftParentheses rest2).map (· + 2)
      | [] =>
        -- A final backslash is stepped over and the loop then ends.
        if numOfLeftParentheses ≠ 0 then none else some 1
    else if c = '(' then
      if numOfLeftParentheses + 1 > 32 then none
      else (bareDestGo (numOfLeftParentheses + 1) rest).map (· + 1)
    else if c = ')' then
      if numOfLeftParentheses = 0 then some 0
      else (bareDestGo (numOfLeftParentheses - 1) rest).map (· + 1)
    else (bareDestGo numOfLeftParentheses rest).map (· + 1)

/-- `parseLinkDestination(input, { startIndex })`. -/
def parseLinkDestination (input : Str) (startIndex : Nat) : Option LinkDestination :=
  if startIndex ≥ input.length then none
  else if charAt input startIndex = some '<' then
    match angleDestGo (jsSlice input (startIndex + 1)) with
    | none => none
    | some off =>
      let gtIndex := startIndex + 1 + off
      some ⟨unescapeString (jsSliceTo input (startIndex + 1) gtIndex),
            jsSliceTo input (startIndex + 1) (gtIndex + 1),
            (gtIndex : Int)⟩
  else
    match bareDestGo 0 (jsSlice input startIndex) with
    | none => none
    | some consumed =>
      let raw := jsSliceTo input startIndex (startIndex + consumed)
      some ⟨unescapeString raw, raw, (startIndex + consumed : Int) - 1⟩

/-- A parsed link reference definition (label already normalized). -/
structure LinkRefDefinition where
  label : Str
  href : Str
  title : Option Str
deriving Repr, DecidableEq

/-- Fuel covering every cursor step of `parseLinkReferenceDefinition`. -/
def linesFuel (lines : List Str) : Nat :=
  lines.foldl (fun a l => a + l.length + 2) 16

/-- Label scan of `parseLinkReferenceDefinition` (cursor after `[`).
Returns the label, the content after the closing `]`, the unconsumed
lines and the next line index.  A newline inside the brackets pulls in the
next line (trimmed, newline-terminated). -/
def lrdLabelGo : Nat → Str → Str → List Str → Nat →
    Option (Str × Str × List Str × Nat)
  | 0, _, _, _, _ => none
  | _ + 1, _, [], _, _ => none
  | fuel + 1, label, c :: rest, linesRest, nextLineIndex =>
    if c = '\\' then
      match rest with
      | c2 :: rest2 =>
        if c2 = ']' ∨ c2 = '[' ∨ c2 = '\\' then
          lrdLabelGo fuel (label ++ [c2]) rest2 linesRest nextLineIndex
        else
          lrdLabelGo fuel (label ++ [c]) (c2 :: rest2) linesRest nextLineIndex
      | [] => lrdLabelGo fuel (label ++ [c]) [] linesRest nextLineIndex
    else if c = '[' then none
    else if c = ']' then some (label, rest, linesRest, nextLineIndex)
    else if c = '\n' then
      match linesRest with
      | [] => none
      | next :: lr =>
        lrdLabelGo fuel (label ++ ['\n']) (rest ++ jsTrim next ++ ['\n']) lr
          (nextLineIndex + 1)
    else lrdLabelGo fuel (label ++ [c]) rest linesRest nextLineIndex

/-- Whitespace skip after the colon: a newline requires a next line. -/
def lrdSkipWs : Nat → Str → List Str → Nat → Option (Str × List Str × Nat)
  | 0, _, _, _ => none
  | _ + 1, [], linesRest, nextLineIndex => some ([], linesRest, nextLineIndex)
  | fuel + 1, c :: rest, linesRest, nextLineIndex =>
    if c = ' ' ∨ c = '\t' then lrdSkipWs fuel rest linesRest nextLineIndex
    else if c = '\n' then
      match linesRest with
      | [] => none
      | next :: lr =>
        lrdSkipWs fuel (rest ++ jsTrim next ++ ['\n']) lr (nextLineIndex + 1)
    else some (c :: rest, linesRest, nextLineIndex)

/-- Whitespace skip after the destination: a newline with no further line
breaks out (leaving the cursor on the newline). -/
def lrdSkipWsSoft : Nat → Str → List Str → Nat → Str × List Str × Nat
  | 0, s, linesRest, nextLineIndex => (s, linesRest, nextLineIndex)
  | _ + 1, [], linesRest, nextLineIndex => ([], linesRest, nextLineIndex)
  | fuel + 1, c :: rest, linesRest, nextLineIndex =>
    if c = ' ' ∨ c = '\t' then lrdSkipWsSoft fuel rest linesRest nextLineIndex
    else if c = '\n' then
      match linesRest with
      | [] => (c :: rest, linesRest, nextLineIndex)
      | next :: lr =>
        lrdSkipWsSoft fuel (rest ++ jsTrim next ++ ['\n']) lr (nextLineIndex + 1)
    else (c :: rest, linesRest, nextLineIndex)

/-- Title scan of `parseLinkReferenceDefinition` (cursor after the opening
quote).  Returns `none` for the title when the loop breaks without a
closing quote. -/
def lrdTitleGo (closing : Char) (openingIsParen : Bool) :
    Nat → Str → Str → List Str → Nat → Option (Option Str × Str × List Str × Nat)
  | 0, _, _, _, _ => none
  | _ + 1, _, [], linesRest, nextLineIndex => some (none, [], linesRest, nextLineIndex)
  | fuel + 1, acc, c :: rest, linesRest, nextLineIndex =>
    if c = closing then
      some (some (unescapeString acc), rest, linesRest, nextLineIndex)
    else if c = '(' ∧ openingIsParen then
      some (none, c :: rest, linesRest, nextLineIndex)
    else if c = '\\' ∧ rest ≠ [] then
      match rest with
      | c2 :: rest2 =>
        lrdTitleGo closing openingIsParen fuel (acc ++ [c, c2]) rest2 linesRest nextLineIndex
      | [] => some (none, [], linesRest, nextLineIndex)
    else if c = '\n' then
      match linesRest with
      | [] => some (none, c :: rest, linesRest, nextLineIndex)
      | next :: lr =>
        lrdTitleGo closing openingIsParen fuel (acc ++ ['\n'])
          (rest ++ jsTrim next ++ ['\n']) lr (nextLineIndex + 1)
    else lrdTitleGo closing openingIsParen fuel (acc ++ [c]) rest linesRest nextLineIndex

/-- `parseLinkReferenceDefinition(lines)`: parse one leading link
reference definition; returns the definition and `nextLineIndex`, the
number of lines it consumed. -/
def parseLinkReferenceDefinition (lines : List Str) : Option (LinkRefDefinition × Nat) :=
  match lines with
  | [] => none
  | firstLine :: restLines =>
    let content := jsTrim firstLine ++ ['\n']
    match content with
    | '[' :: afterBracket =>
      let fuel := linesFuel lines
      match lrdLabelGo fuel [] afterBracket restLines 1 with
      | none => none
      | some (label, afterLabel, linesRest, nextLineIndex) =>
        if label.length = 0 ∨ label.length > 999 then none
        else if (jsTrim label).isEmpty then none
        else
          match afterLabel with
          | ':' :: afterColon =>
            (match lrdSkipWs fuel afterColon linesRest nextLineIndex with
            | none => none
            | some (suffix2, linesRest2, idx2) =>
              match parseLinkDestination suffix2 0 with
              | none => none
              | some dest =>
                let suffix3 := jsSlice suffix2 (dest.endIndex + 1).toNat
                let destinationIsFollowedByNewline := charAt suffix3 0 = some '\n'
                if ¬destinationIsFollowedByNewline
                    ∧ charAt suffix3 0 ≠ some ' ' ∧ charAt suffix3 0 ≠ some '\t' then none
                else
                  match lrdSkipWsSoft fuel suffix3 linesRest2 idx2 with
                  | (suffix4, linesRest3, idx3) =>
                    match
                      (match charAt suffix4 0 with
                      | some q =>
                        if q = '"' ∨ q = '\'' ∨ q = '(' then
                          lrdTitleGo (if q = '(' then ')' else q) (q = '(')
                            fuel [] (jsSlice suffix4 1) linesRest3 idx3
                        else some (none, suffix4, linesRest3, idx3)
                      | none => some (none, suffix4, linesRest3, idx3)) with
                    | none => none
                    | some (title0, suffix5, _, idx4) =>
                      let title1 := if charAt suffix5 0 ≠ some '\n' then none else title0
                      match title1 with
                      | none =>
                        if ¬destinationIsFollowedByNewline then none
                        else some (⟨normalizeReferenceJS label, dest.href, none⟩, idx2)
                      | some t =>
                        some (⟨normalizeReferenceJS label, dest.href, some t⟩, idx4))
          | _ => none
    | _ => none

/-! ## The internal block tree (`markdown-parser.ts` internal nodes)

Parent back-references are represented by the recursive structure; line
indices use `Int` to mirror JS number arithmetic (the setext-heading start
index can go negative).  Every node carries a `uid` (creation order),
used to state identity and ordering properties of emitted blocks. -/

/-- `kind`-specific data of a list node. -/
inductive ListKind where
  | ordered (start : Nat) (delimiter : Char)
  | unordered (marker : Char)
deriving Repr, DecidableEq

mutual
inductive IBlock where
  | paragraph (lines : List Str) (isClosed : Bool)
      (startLineIndex endLineIndex : Int) (uid : Nat)
  | heading (level : Nat) (content : Str)
      (startLineIndex endLineIndex : Int) (uid : Nat)
  | fencedCode (indentLevel numOfMarkers : Nat) (marker : Char)
      (info : Option Str) (lines : List Str) (isClosed : Bool)
      (startLineIndex endLineIndex : Int) (uid : Nat)
  | indentedCode (lines : List Str) (isClosed : Bool)
      (startLineIndex endLineIndex : Int) (uid : Nat)
  | thematicBreak (startLineIndex endLineIndex : Int) (uid : Nat)
  | htmlBlock (endPattern : Option EndPat) (canBeInterruptedByBlankLine : Bool)
      (lines : List Str) (isClosed : Bool)
      (startLineIndex endLineIndex : Int) (uid : Nat)
  | blockquote (children : List IBlock) (isClosed : Bool)
      (startLineIndex endLineIndex : Int) (uid : Nat)
  | list (kind : ListKind) (numOfColumns : Nat) (children : List IListItem)
      (isClosed : Bool) (isTight : Bool)
      (startLineIndex endLineIndex : Int) (uid : Nat)
  | table (alignments : List (Option Align)) (headCells : List Str)
      (rows : List (List Str)) (isClosed : Bool)
      (startLineIndex endLineIndex : Int) (uid : Nat)

inductive IListItem where
  | mk (children : List IBlock) (isClosed : Bool)
      (startLineIndex endLineIndex : Int) (uid : Nat)
end

/-- `isClosed` of a block node (headings and thematic breaks are created
closed). -/
def IBlock.isClosed : IBlock → Bool
  | .paragraph _ c _ _ _ => c
  | .heading _ _ _ _ _ => true
  | .fencedCode _ _ _ _ _ c _ _ _ => c
  | .indentedCode _ c _ _ _ => c
  | .thematicBreak _ _ _ => true
  | .htmlBlock _ _ _ c _ _ _ => c
  | .blockquote _ c _ _ _ => c
  | .list _ _ _ c _ _ _ _ => c
  | .table _ _ _ c _ _ _ => c

/-- `startLineIndex`. -/
def IBlock.startLine : IBlock → Int
  | .paragraph _ _ s _ _ => s
  | .heading _ _ s _ _ => s
  | .fencedCode _ _ _ _ _ _ s _ _ => s
  | .indentedCode _ _ s _ _ => s
  | .thematicBreak s _ _ => s
  | .htmlBlock _ _ _ _ s _ _ => s
  | .blockquote _ _ s _ _ => s
  | .list _ _ _ _ _ s _ _ => s
  | .table _ _ _ _ s _ _ => s

/-- `endLineIndex`. -/
def IBlock.endLine : IBlock → Int
  | .paragraph _ _ _ e _ => e
  | .heading _ _ _ e _ => e
  | .fencedCode _ _ _ _ _ _ _ e _ => e
  | .indentedCode _ _ _ e _ => e
  | .thematicBreak _ e _ => e
  | .htmlBlock _ _ _ _ _ e _ => e
  | .blockquote _ _ _ e _ => e
  | .list _ _ _ _ _ _ e _ => e
  | .table _ _ _ _ _ e _ => e

/-- The creation-order identifier. -/
def IBlock.uid : IBlock → Nat
  | .paragraph _ _ _ _ u => u
  | .heading _ _ _ _ u => u
  | .fencedCode _ _ _ _ _ _ _ _ u => u
  | .indentedCode _ _ _ _ u => u
  | .thematicBreak _ _ u => u
  | .htmlBlock _ _ _ _ _ _ u => u
  | .blockquote _ _ _ _ u => u
  | .list _ _ _ _ _ _ _ u => u
  | .table _ _ _ _ _ _ u => u

def IListItem.children : IListItem → List IBlock
  | .mk cs _ _ _ _ => cs

def IListItem.isClosed : IListItem → Bool
  | .mk _ c _ _ _ => c

def IListItem.startLine : IListItem → Int
  | .mk _ _ s _ _ => s

def IListItem.endLine : IListItem → Int
  | .mk _ _ _ e _ => e

def IListItem.uid : IListItem → Nat
  | .mk _ _ _ _ u => u

/-- Gap detection on consecutive `(startLineIndex, endLineIndex)` pairs:
`a.endLineIndex < b.startLineIndex - 1`. -/
def hasLineGap : List (Int × Int) → Bool
  | a :: b :: rest => (decide (a.2 < b.1 - 1)) || hasLineGap (b :: rest)
  | _ => false

/-- `isListTight`. -/
def isListTight (items : List IListItem) : Bool :=
  !(hasLineGap (items.map (fun i => (i.startLine, i.endLine))) ||
    items.any (fun i =>
      hasLineGap (i.children.map (fun b => (b.startLine, b.endLine)))))

/-! ## Closing the rightmost path (`closeRightmostPath`) -/

mutual
/-- Close one block if open: close its open spine first, then the block
itself, updating container line indices (`min`/`max` with first/last
child) and computing list tightness at closure. -/
def closeSpineB : IBlock → IBlock
  | .paragraph ls _ s e u => .paragraph ls true s e u
  | .heading lv ct s e u => .heading lv ct s e u
  | .fencedCode il nm mk info ls _ s e u => .fencedCode il nm mk info ls true s e u
  | .indentedCode ls _ s e u => .indentedCode ls true s e u
  | .thematicBreak s e u => .thematicBreak s e u
  | .htmlBlock p cbi ls _ s e u => .htmlBlock p cbi ls true s e u
  | .blockquote cs c s e u =>
    if c then .blockquote cs c s e u
    else
      let cs2 := closeLastB cs
      let s2 := match cs2.head? with | some f => min s f.startLine | none => s
      let e2 := match cs2.getLast? with | some l => max e l.endLine | none => e
      .blockquote cs2 true s2 e2 u
  | .list k n items c t s e u =>
    if c then .list k n items c t s e u
    else
      let items2 := closeLastI items
      let s2 := match items2.head? with | some f => min s f.startLine | none => s
      let e2 := match items2.getLast? with | some l => max e l.endLine | none => e
      .list k n items2 true (isListTight items2) s2 e2 u
  | .table al hc rows _ s e u => .table al hc rows true s e u

/-- Close the rightmost path of a child list (the effect of
`closeRightmostPath(parent)` on `parent.children`). -/
def closeLastB : List IBlock → List IBlock
  | [] => []
  | [b] => [if b.isClosed then b else closeSpineB b]
  | b :: rest => b :: closeLastB rest

def closeSpineI : IListItem → IListItem
  | .mk cs c s e u =>
    if c then .mk cs c s e u
    else
      let cs2 := closeLastB cs
      let s2 := match cs2.head? with | some f => min s f.startLine | none => s
      let e2 := match cs2.getLast? with | some l => max e l.endLine | none => e
      .mk cs2 true s2 e2 u

def closeLastI : List IListItem → List IListItem
  | [] => []
  | [i] => [if i.isClosed then i else closeSpineI i]
  | i :: rest => i :: closeLastI rest
end

/-! ## Deepest open node on the rightmost path -/

/-- Node kind tags (for `getDeepestOpenNodeOnRightmostPath` type tests). -/
inductive BlockTag where
  | paragraphTag
  | headingTag
  | fencedCodeTag
  | indentedCodeTag
  | thematicBreakTag
  | htmlBlockTag
  | blockquoteTag
  | listTag
  | listItemTag
  | tableTag
deriving Repr, DecidableEq

mutual
/-- The kind of the deepest open node reachable from a children list
(`getDeepestOpenNodeOnRightmostPath`), if any. -/
def deepestOpenFromBlocks : List IBlock → Option BlockTag
  | [] => none
  | [b] => if b.isClosed then none else some (deepestOpenB b)
  | _ :: rest => deepestOpenFromBlocks rest

/-- The deepest open node reachable from one open block. -/
def deepestOpenB : IBlock → BlockTag
  | .blockquote cs _ _ _ _ => (deepestOpenFromBlocks cs).getD .blockquoteTag
  | .list _ _ items _ _ _ _ _ => (deepestOpenFromItems items).getD .listTag
  | .paragraph _ _ _ _ _ => .paragraphTag
  | .heading _ _ _ _ _ => .headingTag
  | .fencedCode _ _ _ _ _ _ _ _ _ => .fencedCodeTag
  | .indentedCode _ _ _ _ _ => .indentedCodeTag
  | .thematicBreak _ _ _ => .thematicBreakTag
  | .htmlBlock _ _ _ _ _ _ _ => .htmlBlockTag
  | .table _ _ _ _ _ _ _ => .tableTag

/-- The deepest open node reachable from the items of a list. -/
def deepestOpenFromItems : List IListItem → Option BlockTag
  | [] => none
  | [i] => if i.isClosed then none else some (deepestOpenI i)
  | _ :: rest => deepestOpenFromItems rest

/-- The deepest open node reachable from one open list item. -/
def deepestOpenI : IListItem → BlockTag
  | .mk cs _ _ _ _ => (deepestOpenFromBlocks cs).getD .listItemTag
end

mutual
/-- Lazy continuation: append `line` to the deepest open node when it is a
paragraph (`latestOpenNode.lines.push(line)`), updating its end line. -/
def lazyAppendBlocks (lineIndex : Int) (line : Str) : List IBlock → List IBlock
  | [] => []
  | [b] => [lazyAppendB lineIndex line b]
  | b :: rest => b :: lazyAppendBlocks lineIndex line rest

def lazyAppendB (lineIndex : Int) (line : Str) : IBlock → IBlock
  | .paragraph ls c s e u =>
    if c then .paragraph ls c s e u else .paragraph (ls ++ [line]) c s lineIndex u
  | .blockquote cs c s e u =>
    if c then .blockquote cs c s e u
    else .blockquote (lazyAppendBlocks lineIndex line cs) c s e u
  | .list k n items c t s e u =>
    if c then .list k n items c t s e u
    else .list k n (lazyAppendItems lineIndex line items) c t s e u
  | b => b

def lazyAppendItems (lineIndex : Int) (line : Str) : List IListItem → List IListItem
  | [] => []
  | [.mk cs c s e u] =>
    [if c then .mk cs c s e u else .mk (lazyAppendBlocks lineIndex line cs) c s e u]
  | i :: rest => i :: lazyAppendItems lineIndex line rest
end

/-- Replace the last element of a non-empty list. -/
def replaceLast (cs : List IBlock) (b : IBlock) : List IBlock :=
  cs.dropLast ++ [b]

/-- `lines.join("\n")`. -/
def joinLines (ls : List Str) : Str := (ls.intersperse ['\n']).flatten

/-- The link-reference-definition loop of the setext branch and the sweep:
consume leading definitions from a paragraph's lines, inserting each into
the store first-writer-wins. -/
def consumeLeadingDefs : Nat → List Str → RefMap → List Str × RefMap
  | 0, lines, refs => (lines, refs)
  | fuel + 1, lines, refs =>
    match parseLinkReferenceDefinition lines with
    | none => (lines, refs)
    | some (d, nextLineIndex) =>
      let refs2 := insertReferenceDefinition refs d.label ⟨d.href, d.title⟩
      consumeLeadingDefs fuel (lines.drop nextLineIndex) refs2

/-! ## Phase 2 of `parseLine`: opening new blocks -/

/-- `addNode`: close the container's rightmost path, then append. -/
def appendBlock (children : List IBlock) (node : IBlock) : List IBlock :=
  closeLastB children ++ [node]

/-- Whether an open HTML block created from this line is closed at once
(`node.endPattern?.test(line.trim())`). -/
def htmlClosesImmediately (endPattern : Option EndPat) (line : Str) : Bool :=
  match endPattern with
  | some p => endPatTest p (jsTrim line)
  | none => false

mutual
/-- One iteration of the block-opening loop (recognizers 1–4: blockquote,
ATX heading, fenced code, HTML block).  The fuel drops on every loop
restart (`continue` after opening a blockquote or a list item). -/
def openBlocks : Nat → Int → Str → List IBlock → Nat → RefMap →
    List IBlock × Nat × RefMap
  | 0, _, _, children, uid, refs => (children, uid, refs)
  | fuel + 1, lineIndex, line, children, uid, refs =>
    match parseBlockquoteLine line with
    | some content =>
      let inner := openBlocks fuel lineIndex content [] (uid + 1) refs
      let node := IBlock.blockquote inner.1 false lineIndex lineIndex uid
      (appendBlock children node, inner.2.1, inner.2.2)
    | none =>
    match parseATXHeading line with
    | some (level, content) =>
      (appendBlock children (.heading level content lineIndex lineIndex uid),
        uid + 1, refs)
    | none =>
    match parseCodeFenceStart line with
    | some f =>
      (appendBlock children
        (.fencedCode f.indentLevel f.numOfMarkers f.marker f.info [] false
          lineIndex lineIndex uid), uid + 1, refs)
    | none =>
    match parseHTMLBlockStart line with
    | some (endPattern, canInterruptParagraph, canBeInterruptedByBlankLine) =>
      if canInterruptParagraph
          ∨ deepestOpenFromBlocks children ≠ some .paragraphTag then
        (appendBlock children
          (.htmlBlock endPattern canBeInterruptedByBlankLine [line]
            (htmlClosesImmediately endPattern line) lineIndex lineIndex uid),
          uid + 1, refs)
      else openBlocksLate fuel lineIndex line children uid refs
    | none => openBlocksLate fuel lineIndex line children uid refs

  termination_by structural fuel _ _ _ _ _ => fuel

/-- Recognizers 5–13: table start, setext heading, thematic break, list
item, indented code, blank line, table continuation, lazy continuation,
new paragraph. -/
def openBlocksLate : Nat → Int → Str → List IBlock → Nat → RefMap →
    List IBlock × Nat × RefMap
  | 0, _, _, children, uid, refs => (children, uid, refs)
  | fuel + 1, lineIndex, line, children, uid, refs =>
    let lastChild := children.getLast?
    let afterParagraphChecks :=
      fun (_ : Unit) =>
      if isSeparator line then
        (appendBlock children (.thematicBreak lineIndex lineIndex uid),
          uid + 1, refs)
      else
      match parseListItem line with
      | some li =>
        -- Paragraph non-interruption.
        match lastChild with
        | some (.paragraph ls false s _e pu) =>
          if isLineEmpty li.content
              || (match li.kind with
                 | .ordered v _ => decide (v ≠ 1)
                 | .unordered _ => false) then
            (replaceLast children (.paragraph (ls ++ [line]) false s lineIndex pu),
              uid, refs)
          else openListItem fuel lineIndex line li children uid refs
        | _ => openListItem fuel lineIndex line li children uid refs
      | none =>
      let latestOpenNode := deepestOpenFromBlocks children
      if isIndentedCodeLine line
          ∧ (latestOpenNode = none ∨ latestOpenNode ≠ some .paragraphTag) then
        (appendBlock children
          (.indentedCode [sliceLeadingIndent line 4] false lineIndex lineIndex uid),
          uid + 1, refs)
      else if isLineEmpty line then
        (closeLastB children, uid, refs)
      else
      match lastChild with
      | some (.table al hc rows false s _ tu) =>
        let cells := padCells (parseTableRow line) hc.length
        (replaceLast children (.table al hc (rows ++ [cells]) false s lineIndex tu),
          uid, refs)
      | _ =>
        if latestOpenNode = some .paragraphTag then
          (lazyAppendBlocks lineIndex line children, uid, refs)
        else
          (appendBlock children (.paragraph [line] false lineIndex lineIndex uid),
            uid + 1, refs)
    match lastChild with
    | some (.paragraph ls false s e pu) =>
      (match parseTableStartLine ls.getLast? (some line) with
      | some t =>
        let children1 :=
          if ls.dropLast.length = 0 then children.dropLast
          else replaceLast children (.paragraph ls.dropLast false s e pu)
        (appendBlock children1
          (.table t.alignments t.headCells [] false lineIndex lineIndex uid),
          uid + 1, refs)
      | none =>
        match parseSetextHeading line with
        | some level =>
          let r := consumeLeadingDefs (ls.length + 1) ls refs
          if r.1.length > 0 then
            (appendBlock children.dropLast
              (.heading level (jsTrim (joinLines r.1))
                (s - ((ls.length : Int) - r.1.length)) lineIndex uid),
              uid + 1, r.2)
          else
            (replaceLast children (.paragraph (ls ++ [line]) false s e pu),
              uid, r.2)
        | none => afterParagraphChecks ())
    | _ => afterParagraphChecks ()

  termination_by structural fuel _ _ _ _ _ => fuel

/-- Open a list item (recognizer 8), reusing a compatible open list as the
parent and reprocessing the item's content inside the new item. -/
def openListItem : Nat → Int → Str → ListItemParse → List IBlock → Nat → RefMap →
    List IBlock × Nat × RefMap
  | 0, _, _, _, children, uid, refs => (children, uid, refs)
  | fuel + 1, lineIndex, _, li, children, uid, refs =>
    match children.getLast? with
    | some (.list k _n items false t s e lu) =>
      if (match k, li.kind with
          | .ordered _ d1, .ordered _ d2 => decide (d1 = d2)
          | .unordered m1, .unordered m2 => decide (m1 = m2)
          | _, _ => false) = true then
        let inner := openBlocks fuel lineIndex li.content [] (uid + 1) refs
        let item := IListItem.mk inner.1 false lineIndex lineIndex uid
        (replaceLast children
          (.list k li.numOfColumns (closeLastI items ++ [item]) false t s e lu),
          inner.2.1, inner.2.2)
      else openNewList fuel lineIndex li children uid refs
    | _ => openNewList fuel lineIndex li children uid refs

  termination_by structural fuel _ _ _ _ _ _ => fuel

/-- Create a fresh list with its first item. -/
def openNewList : Nat → Int → ListItemParse → List IBlock → Nat → RefMap →
    List IBlock × Nat × RefMap
  | 0, _, _, children, uid, refs => (children, uid, refs)
  | fuel + 1, lineIndex, li, children, uid, refs =>
    let kind : ListKind :=
      match li.kind with
      | .ordered v d => .ordered v d
      | .unordered m => .unordered m
    let inner := openBlocks fuel lineIndex li.content [] (uid + 2) refs
    let item := IListItem.mk inner.1 false lineIndex lineIndex (uid + 1)
    (appendBlock children
      (.list kind li.numOfColumns [item] false true lineIndex lineIndex uid),
      inner.2.1, inner.2.2)
  termination_by structural fuel _ _ _ _ _ => fuel
end

/-! ## Phase 1 of `parseLine`: matching the line against the open spine -/

/-- Fuel for one phase-2 run: each loop restart consumes a nonspace
character of the line, so twice the length amply suffices. -/
def openFuel (line : Str) : Nat := 2 * (line.length + 4)

/-- Result of matching a line against a container's children. -/
inductive DescendResult where
  | handled (children : List IBlock) (uid : Nat) (refs : RefMap)
  | fallthrough (children : List IBlock)

/-- Result of matching a line against an open list's items. -/
inductive ItemsResult where
  | notContinued
  | emptyNoChildren
  | updatedItems (items : List IListItem) (uid : Nat) (refs : RefMap)

mutual
/-- The continuation walk of `parseLine` over a container's children: the
line is matched against the last child while it is open; a fall-through
means phase 2 must run at this container on the returned children. -/
def descendGo (lineIndex : Int) (line : Str) (uid : Nat) (refs : RefMap) :
    List IBlock → DescendResult
  | [] => .fallthrough []
  | [b] => descendStep lineIndex line uid refs b
  | b :: rest =>
    match descendGo lineIndex line uid refs rest with
    | .handled cs u r => .handled (b :: cs) u r
    | .fallthrough cs => .fallthrough (b :: cs)

/-- Match the line against one open child (the big `while` of
`parseLine`). -/
def descendStep (lineIndex : Int) (line : Str) (uid : Nat) (refs : RefMap) :
    IBlock → DescendResult
  | .paragraph ls c s e u =>
    if c then .fallthrough [.paragraph ls c s e u]
    else if isLineEmpty line then .handled [.paragraph ls true s e u] uid refs
    else .fallthrough [.paragraph ls c s e u]
  | .table al hc rows c s e u =>
    if c then .fallthrough [.table al hc rows c s e u]
    else if isLineEmpty line then .handled [.table al hc rows true s e u] uid refs
    else .fallthrough [.table al hc rows c s e u]
  | .fencedCode il nm mk info ls c s e u =>
    if c then .fallthrough [.fencedCode il nm mk info ls c s e u]
    else if isCodeFenceEnd line mk nm then
      .handled [.fencedCode il nm mk info ls true s lineIndex u] uid refs
    else
      .handled
        [.fencedCode il nm mk info (ls ++ [sliceLeadingIndent line il]) c s lineIndex u]
        uid refs
  | .indentedCode ls c s e u =>
    if c then .fallthrough [.indentedCode ls c s e u]
    else if isIndentedCodeLine line then
      .handled [.indentedCode (ls ++ [sliceLeadingIndent line 4]) c s lineIndex u] uid refs
    else if isLineEmpty line then
      .handled [.indentedCode (ls ++ [[]]) c s lineIndex u] uid refs
    else .fallthrough [.indentedCode ls true s e u]
  | .htmlBlock p cbi ls c s e u =>
    if c then .fallthrough [.htmlBlock p cbi ls c s e u]
    else if cbi ∧ isLineEmpty line then
      .handled [.htmlBlock p cbi ls true s e u] uid refs
    else
      let closed2 :=
        match p with
        | some pat => endPatTest pat (jsTrim line)
        | none => false
      .handled [.htmlBlock p cbi (ls ++ [line]) closed2 s lineIndex u] uid refs
  | .blockquote cs c s e u =>
    if c then .fallthrough [.blockquote cs c s e u]
    else
      match parseBlockquoteLine line with
      | some content =>
        match descendGo lineIndex content uid refs cs with
        | .handled cs2 u2 r2 => .handled [.blockquote cs2 c s lineIndex u] u2 r2
        | .fallthrough cs2 =>
          let r := openBlocks (openFuel content) lineIndex content cs2 uid refs
          .handled [.blockquote r.1 c s lineIndex u] r.2.1 r.2.2
      | none => .fallthrough [.blockquote cs c s e u]
  | .list k n items c t s e u =>
    if c then .fallthrough [.list k n items c t s e u]
    else
      match descendItems lineIndex line uid refs n items with
      | .notContinued => .fallthrough [.list k n items c t s e u]
      | .emptyNoChildren => .handled [.list k n (closeLastI items) c t s e u] uid refs
      | .updatedItems items2 u2 r2 => .handled [.list k n items2 c t s e u] u2 r2
  | .heading lv ct s e u => .fallthrough [.heading lv ct s e u]
  | .thematicBreak s e u => .fallthrough [.thematicBreak s e u]

/-- Match the line against the last item of an open list (`numOfColumns`
is the list's required child indent). -/
def descendItems (lineIndex : Int) (line : Str) (uid : Nat) (refs : RefMap)
    (numOfColumns : Nat) : List IListItem → ItemsResult
  | [] => .notContinued
  | [.mk cs c s e u] =>
    if c then .notContinued
    else if isLineEmpty line then
      if cs.isEmpty then .emptyNoChildren
      else
        match descendGo lineIndex line uid refs cs with
        | .handled cs2 u2 r2 => .updatedItems [.mk cs2 c s e u] u2 r2
        | .fallthrough cs2 =>
          let r := openBlocks (openFuel line) lineIndex line cs2 uid refs
          .updatedItems [.mk r.1 c s e u] r.2.1 r.2.2
    else if getLeadingNonspaceColumn line ≥ numOfColumns then
      let line2 := sliceLeadingIndent line numOfColumns
      match descendGo lineIndex line2 uid refs cs with
      | .handled cs2 u2 r2 => .updatedItems [.mk cs2 c s e u] u2 r2
      | .fallthrough cs2 =>
        let r := openBlocks (openFuel line2) lineIndex line2 cs2 uid refs
        .updatedItems [.mk r.1 c s e u] r.2.1 r.2.2
    else .notContinued
  | i :: rest =>
    match descendItems lineIndex line uid refs numOfColumns rest with
    | .notContinued => .notContinued
    | .emptyNoChildren => .emptyNoChildren
    | .updatedItems items2 u2 r2 => .updatedItems (i :: items2) u2 r2
end

/-- `MarkdownParser.parseLine`. -/
def parseLine (lineIndex : Int) (line : Str) (children : List IBlock)
    (uid : Nat) (refs : RefMap) : List IBlock × Nat × RefMap :=
  match descendGo lineIndex line uid refs children with
  | .handled cs u r => (cs, u, r)
  | .fallthrough cs => openBlocks (openFuel line) lineIndex line cs uid refs

/-! ## The reference-definition sweep (`parseReferenceLinkDefinitions`) -/

mutual
/-- The sweep over a container's children: walk closed blocks in order
(stopping at the first open one), strip leading link reference
definitions from closed paragraphs (removing paragraphs consumed
entirely), and recurse into closed blockquotes and list items. -/
def sweepBlocks : List IBlock → RefMap → List IBlock × RefMap
  | [], refs => ([], refs)
  | b :: rest, refs =>
    if b.isClosed = false then (b :: rest, refs)
    else
      match b with
      | .paragraph ls c s e u =>
        let r := consumeLeadingDefs (ls.length + 1) ls refs
        if r.1.isEmpty then sweepBlocks rest r.2
        else
          let rc := sweepBlocks rest r.2
          (.paragraph r.1 c s e u :: rc.1, rc.2)
      | other =>
        let ri := sweepB other refs
        let rc := sweepBlocks rest ri.2
        (ri.1 :: rc.1, rc.2)

/-- The sweep recursion into one (non-paragraph) closed block. -/
def sweepB : IBlock → RefMap → IBlock × RefMap
  | .blockquote cs c s e u, refs =>
    let ri := sweepBlocks cs refs
    (.blockquote ri.1 c s e u, ri.2)
  | .list k n items c t s e u, refs =>
    let ri := sweepItems items refs
    (.list k n ri.1 c t s e u, ri.2)
  | b, refs => (b, refs)

/-- The sweep recursion into each item of a list. -/
def sweepItems : List IListItem → RefMap → List IListItem × RefMap
  | [], refs => ([], refs)
  | i :: rest, refs =>
    let ri := sweepI i refs
    let rc := sweepItems rest ri.2
    (ri.1 :: rc.1, rc.2)

/-- The sweep recursion into one list item. -/
def sweepI : IListItem → RefMap → IListItem × RefMap
  | .mk cs c s e u, refs =>
    let ri := sweepBlocks cs refs
    (.mk ri.1 c s e u, ri.2)
end

/-! ## Inline parser: small helpers -/

/-- `getNumOfConsecutiveCharacters(input, { characters, startIndex })`. -/
def countConsecutive (input : Str) (characters : List Char) (startIndex : Nat) : Nat :=
  ((input.drop startIndex).takeWhile (fun c => characters.contains c)).length

/-- `input.indexOf(c, start)` (`none` for `-1`). -/
def jsIndexOfFrom (input : Str) (c : Char) (start : Nat) : Option Nat :=
  match (input.drop start).findIdx? (fun x => x = c) with
  | some i => some (start + i)
  | none => none

/-- Result of `parseLinkTitle`. -/
structure LinkTitle where
  raw : Str
  title : Str
  endIndex : Nat
deriving Repr, DecidableEq

/-- The title scan of `parseLinkTitle`: index of the closing quote. -/
def parseLinkTitleGo (input : Str) (openQ closeQ : Char) : Nat → Nat → Option Nat
  | 0, _ => none
  | fuel + 1, endIndex =>
    if endIndex < input.length then
      let character := input.getD endIndex ' '
      if character = closeQ then some endIndex
      else if character = '(' ∧ openQ = '(' then none
      else if character = '\\' ∧ endIndex + 1 < input.length then
        parseLinkTitleGo input openQ closeQ fuel (endIndex + 2)
      else parseLinkTitleGo input openQ closeQ fuel (endIndex + 1)
    else none

/-- `parseLinkTitle`. -/
def parseLinkTitle (input : Str) (startIndex : Nat) : Option LinkTitle :=
  if startIndex ≥ input.length then none
  else
    let openingQuoteCharacter := input.getD startIndex ' '
    if ¬(['"', '\'', '('] : List Char).contains openingQuoteCharacter then none
    else
      let closingQuoteCharacter :=
        if openingQuoteCharacter = '(' then ')' else openingQuoteCharacter
      match parseLinkTitleGo input openingQuoteCharacter closingQuoteCharacter
          (input.length + 1) (startIndex + 1) with
      | none => none
      | some endIndex =>
        some ⟨jsSliceTo input startIndex (endIndex + 1),
              unescapeString (jsSliceTo input (startIndex + 1) endIndex),
              endIndex⟩

/-- Result of `parseLinkTarget`. -/
structure LinkTarget where
  href : Str
  title : Option Str
  endIndex : Nat
deriving Repr, DecidableEq

/-- `parseLinkTarget`. -/
def parseLinkTarget (input : Str) (startIndex : Nat) : Option LinkTarget :=
  if charAt input startIndex ≠ some '(' then none
  else
    let numOfWhitespacesAfterLeftParenthesis :=
      countConsecutive input [' ', '\t', '\n'] (startIndex + 1)
    let destinationStartIndex := startIndex + numOfWhitespacesAfterLeftParenthesis + 1
    match parseLinkDestination input destinationStartIndex with
    | none => none
    | some destination =>
      if destination.endIndex = (destinationStartIndex : Int) then none
      else
        let destinationEndIndex := (destination.endIndex + 1).toNat
        let numOfWhitespacesAfterHref :=
          countConsecutive input [' ', '\t', '\n'] destinationEndIndex
        let titleStartIndex := destinationEndIndex + numOfWhitespacesAfterHref
        let title := parseLinkTitle input titleStartIndex
        let targetEndIndex0 : Int :=
          match title with
          | some t => (t.endIndex : Int)
          | none => destination.endIndex
        let numOfWhitespaces :=
          countConsecutive input [' ', '\t', '\n'] (targetEndIndex0 + 1).toNat
        let targetEndIndex := (targetEndIndex0 + (numOfWhitespaces : Int) + 1).toNat
        if charAt input targetEndIndex ≠ some ')' then none
        else some ⟨destination.href, (title.map (fun t => t.title)), targetEndIndex⟩

/-- Result of `parseReferenceLinkLabel`. -/
structure RefLabel where
  label : Str
  endIndex : Nat
deriving Repr, DecidableEq

/-- The label scan of `parseReferenceLinkLabel`. -/
def refLabelGo (input : Str) : Nat → Str → Nat → Option RefLabel
  | 0, _, _ => none
  | fuel + 1, label, endIndex =>
    if endIndex < input.length then
      let character := input.getD endIndex ' '
      if label.length > 999 then none
      else if character = '\\' then
        match charAt input (endIndex + 1) with
        | some nextCharacter =>
          if ([']', '[', '\\'] : List Char).contains nextCharacter then
            refLabelGo input fuel (label ++ [nextCharacter]) (endIndex + 2)
          else refLabelGo input fuel (label ++ [character]) (endIndex + 1)
        | none => refLabelGo input fuel (label ++ [character]) (endIndex + 1)
      else if character = '[' then none
      else if character = ']' then
        if (jsTrim label).length = 0 then none
        else some ⟨label, endIndex⟩
      else refLabelGo input fuel (label ++ [character]) (endIndex + 1)
    else none

/-- `parseReferenceLinkLabel`. -/
def parseReferenceLinkLabel (input : Str) (startIndex : Nat) : Option RefLabel :=
  if startIndex ≥ input.length then none
  else if charAt input startIndex ≠ some '[' then none
  else if charAt input (startIndex + 1) = some ']' then
    some ⟨[], startIndex + 1⟩
  else refLabelGo input (input.length + 1) [] (startIndex + 1)

/-- The label scan of `extractLinkLabel`. -/
def extractLabelGo (input : Str) (endIndexBound : Nat) : Nat → Str → Nat → Option Str
  | 0, label, _ => some label
  | fuel + 1, label, index =>
    if index < endIndexBound ∧ index < input.length then
      if label.length > 999 then none
      else
        let character := input.getD index ' '
        if character = '\\' then
          match charAt input (index + 1) with
          | some nextCharacter =>
            if ([']', '[', '\\'] : List Char).contains nextCharacter then
              extractLabelGo input endIndexBound fuel (label ++ [nextCharacter]) (index + 2)
            else extractLabelGo input endIndexBound fuel (label ++ [character]) (index + 1)
          | none => extractLabelGo input endIndexBound fuel (label ++ [character]) (index + 1)
        else extractLabelGo input endIndexBound fuel (label ++ [character]) (index + 1)
    else some label

/-- `extractLinkLabel`. -/
def extractLinkLabel (input : Str) (startIndex endIndex : Nat) : Option Str :=
  match extractLabelGo input endIndex (input.length + 1) [] startIndex with
  | none => none
  | some label =>
    if (jsTrim label).length = 0 then none else some label

/-! ## `encodeUnsafeChars` (single-argument form used by `parseInline`) -/

/-- ASCII alphanumeric test (`/^[0-9a-z]$/i`). -/
def isAsciiAlphanumeric (c : Char) : Bool :=
  ('0' ≤ c && c ≤ '9') || ('a' ≤ c && c ≤ 'z') || ('A' ≤ c && c ≤ 'Z')

/-- Hex digit test (`/^[0-9a-f]$/i`). -/
def isHexDigit (c : Char) : Bool :=
  ('0' ≤ c && c ≤ '9') || ('a' ≤ c && c ≤ 'f') || ('A' ≤ c && c ≤ 'F')

/-- One uppercase hexadecimal digit. -/
def hexDigitUpper (n : Nat) : Char :=
  if n < 10 then Char.ofNat (48 + n) else Char.ofNat (55 + n)

/-- `%HH` (two uppercase hex digits) for a byte value. -/
def percentByte (b : Nat) : Str :=
  ['%', hexDigitUpper (b / 16), hexDigitUpper (b % 16)]

/-- UTF-8 bytes of a code point. Modelled from the spec of UTF-8:
`encodeURIComponent` percent-encodes the UTF-8 serialization of each code
point (a surrogate pair in JS denotes the combined astral code point). -/
def utf8Bytes (n : Nat) : List Nat :=
  if n < 0x80 then [n]
  else if n < 0x800 then [0xc0 + n / 64, 0x80 + n % 64]
  else if n < 0x10000 then [0xe0 + n / 4096, 0x80 + n / 64 % 64, 0x80 + n % 64]
  else [0xf0 + n / 262144, 0x80 + n / 4096 % 64, 0x80 + n / 64 % 64, 0x80 + n % 64]

/-- Modelled from the spec: `encodeURIComponent` on a single code point
(uppercase-hex percent-encoding of its UTF-8 bytes). -/
def encodeURIComponentChar (c : Char) : Str :=
  (utf8Bytes c.toNat).flatMap percentByte

/-- `DEFAULT_ALLOWED_CHARS`. -/
def DEFAULT_ALLOWED_CHARS : Str :=
  [';', '/', '?', ':', '@', '&', '=', '+', '$', ',', '-', '_', '.', '!',
   '~', '*', '\'', '(', ')', '#']

/-- One ASCII character under `getAsciiEncodeTable(DEFAULT_ALLOWED_CHARS)`:
alphanumerics and allowed characters pass through, anything else is
percent-encoded. -/
def encodeAsciiChar (c : Char) : Str :=
  if isAsciiAlphanumeric c then [c]
  else if DEFAULT_ALLOWED_CHARS.contains c then [c]
  else percentByte c.toNat

/-- The character loop of `encodeUnsafeChars` with
`keepExistingEscapes = true`.  (The unpaired-surrogate branch of the
source is unreachable over Unicode scalar values; a JS surrogate pair is
a single astral `Char` here and takes the `encodeURIComponent` path, as
in the source.) -/
def encodeUnsafeGo (input : Str) : Nat → Nat → Str
  | 0, _ => []
  | fuel + 1, i =>
    if i < input.length then
      let c := input.getD i ' '
      if c = '%' ∧ i + 2 < input.length ∧ isHexDigit (input.getD (i + 1) ' ')
          ∧ isHexDigit (input.getD (i + 2) ' ') then
        jsSliceTo input i (i + 3) ++ encodeUnsafeGo input fuel (i + 3)
      else if c.toNat < 128 then
        encodeAsciiChar c ++ encodeUnsafeGo input fuel (i + 1)
      else
        encodeURIComponentChar c ++ encodeUnsafeGo input fuel (i + 1)
    else []

/-- `encodeUnsafeChars(input)`. -/
def encodeUnsafeChars (input : Str) : Str :=
  encodeUnsafeGo input (input.length + 1) 0

/-! ## `parseEmphasisDelimiterNodes` -/

/-- `content` of a delimiter node. -/
def delimContent : Inline → Str
  | .emphasisDelimiter _ c _ _ _ => c
  | _ => []

/-- `canClose` of a delimiter node. -/
def delimCanClose : Inline → Bool
  | .emphasisDelimiter _ _ _ c _ => c
  | _ => false

/-- The final pass of `parseEmphasisDelimiterNodes` (and its
between-nodes map): every remaining delimiter node becomes a text node
holding its current content. -/
def demoteDelims (nodes : List Inline) : List Inline :=
  nodes.map (fun n =>
    match n with
    | .emphasisDelimiter _ content _ _ _ => .text content
    | n => n)

/-- Fuel bound for the emphasis-resolution loop: every iteration either
advances the closer index, demotes a delimiter, or consumes at least two
delimiter characters while growing the list by at most one node. -/
def pednFuel (ns : List Inline) : Nat :=
  let c := (ns.map (fun n => (delimContent n).length + 1)).sum
  (c + 2) * (2 * ns.length + c + 4)

/-- One run of the `while (closerIndex < result.length)` loop of
`parseEmphasisDelimiterNodes` (array splices written out on lists). -/
def pednGo (fuel : Nat) (result : List Inline) (closerIndex : Nat) : List Inline :=
  match fuel with
  | 0 => result
  | fuel + 1 =>
    if closerIndex < result.length then
      match result.get? closerIndex with
      | some (.emphasisDelimiter marker content canOpen canClose count) =>
        if ¬canClose then pednGo fuel result (closerIndex + 1)
        else
          let closer := Inline.emphasisDelimiter marker content canOpen canClose count
          match findMatchingOpenerForCloser result closer closerIndex with
          | none =>
            if ¬canOpen then
              pednGo fuel
                (result.take closerIndex ++ [.text content]
                  ++ result.drop (closerIndex + 1))
                (closerIndex + 1)
            else pednGo fuel result (closerIndex + 1)
          | some (opener, openerIndex) =>
            let oc := delimContent opener
            let isStrong := oc.length ≥ 2 ∧ content.length ≥ 2
            let k := if isStrong then 2 else 1
            let oc2 := oc.take (oc.length - k)
            let cc2 := content.drop k
            let children :=
              demoteDelims ((result.take closerIndex).drop (openerIndex + 1))
            let wrap := if isStrong then Inline.strong children
                        else Inline.emphasis children
            let opener2 := Inline.emphasisDelimiter (delimMarker opener) oc2
              (delimCanOpen opener) (delimCanClose opener) (delimCount opener)
            let closer2 := Inline.emphasisDelimiter marker cc2 canOpen canClose count
            let base := result.take openerIndex
            let rest := result.drop (closerIndex + 1)
            let mid :=
              (if oc2.isEmpty then [] else [opener2]) ++ [wrap]
                ++ (if cc2.isEmpty then [] else [closer2])
            pednGo fuel (base ++ mid ++ rest) (openerIndex + 1)
      | _ => pednGo fuel result (closerIndex + 1)
    else result

/-- `parseEmphasisDelimiterNodes`. -/
def parseEmphasisDelimiterNodes (nodes : List Inline) : List Inline :=
  demoteDelims (pednGo (pednFuel nodes) nodes 0)

/-! ## `mergeAdjacentTextNodes` and the main `parseInline` loop -/

mutual
/-- `mergeAdjacentTextNodes`: adjacent text nodes are concatenated into
the previous one; container nodes get their children merged recursively. -/
def mergeGo (acc : List Inline) : List Inline → List Inline
  | [] => acc
  | n :: rest =>
    match n with
    | .text t =>
      match acc.getLast? with
      | some (.text t0) => mergeGo (acc.dropLast ++ [.text (t0 ++ t)]) rest
      | _ => mergeGo (acc ++ [.text t]) rest
    | other => mergeGo (acc ++ [mergeNode other]) rest

/-- Recursive merge inside one node with children. -/
def mergeNode : Inline → Inline
  | .link h ti cs => .link h ti (mergeGo [] cs)
  | .image h ti cs => .image h ti (mergeGo [] cs)
  | .emphasis cs => .emphasis (mergeGo [] cs)
  | .strong cs => .strong (mergeGo [] cs)
  | n => n
end

/-- A bracket-stack entry (`Bracket`), with the text node identified by
its index in the node list at push time. -/
structure InlineBracket where
  isImage : Bool
  nodeIndex : Nat
  startIndex : Nat
  isActive : Bool
deriving Repr, DecidableEq

/-- After a link forms, every `[` bracket still on the stack becomes
inactive. -/
def deactivateLinkBrackets (bs : List InlineBracket) : List InlineBracket :=
  bs.map (fun b => if b.isImage then b else ⟨b.isImage, b.nodeIndex, b.startIndex, false⟩)

/-- The closing-backtick search of the code-span branch. -/
def codeSpanCloserGo (input : Str) (numOpen : Nat) : Nat → Nat → Option Nat
  | 0, _ => none
  | fuel + 1, closerIndex =>
    if closerIndex < input.length then
      match jsIndexOfFrom input backtickChar closerIndex with
      | none => none
      | some idx =>
        let m := countConsecutive input [backtickChar] idx
        if m = numOpen then some idx
        else codeSpanCloserGo input numOpen fuel (idx + m)
    else none

/-- The character loop of `parseInline`: each iteration consumes at least
one character, so fuel `input.length + 1` always suffices. -/
def parseInlineGo (refs : RefMap) (input : Str) :
    Nat → Nat → List Inline → List InlineBracket → List Inline
  | 0, _, nodes, _ => nodes
  | fuel + 1, characterCursor, nodes, brackets =>
    if characterCursor < input.length then
      let marker := input.getD characterCursor ' '
      if marker = '\n' then
        let startIndex := characterCursor
        let numOfPrecedingSpaces :=
          (((input.take startIndex).reverse).takeWhile (fun c => c = ' ')).length
        let nodes1 :=
          match nodes.getLast? with
          | some (.text t) =>
            nodes.dropLast ++ [.text (t.take (t.length - numOfPrecedingSpaces))]
          | _ => nodes
        let br := if numOfPrecedingSpaces ≥ 2 then Inline.hardbreak else Inline.softbreak
        let numOfSpaces := countConsecutive input [' '] (startIndex + 1)
        parseInlineGo refs input fuel (characterCursor + 1 + numOfSpaces)
          (nodes1 ++ [br]) brackets
      else if marker = '\\' then
        match charAt input (characterCursor + 1) with
        | some '\n' =>
          let numOfSpaces := countConsecutive input [' ', '\t'] (characterCursor + 2)
          parseInlineGo refs input fuel (characterCursor + 2 + numOfSpaces)
            (nodes ++ [.hardbreak]) brackets
        | some c2 =>
          if isAsciiPunctuationCharacter c2 then
            parseInlineGo refs input fuel (characterCursor + 2)
              (nodes ++ [.text [c2]]) brackets
          else
            parseInlineGo refs input fuel (characterCursor + 1)
              (nodes ++ [.text ['\\']]) brackets
        | none =>
          parseInlineGo refs input fuel (characterCursor + 1)
            (nodes ++ [.text ['\\']]) brackets
      else if marker = backtickChar then
        let numOfOpeningBackticks := countConsecutive input [backtickChar] characterCursor
        let openerIndex := characterCursor + numOfOpeningBackticks
        match codeSpanCloserGo input numOfOpeningBackticks (input.length + 1) openerIndex with
        | some closerIndex =>
          let content0 := (jsSliceTo input openerIndex closerIndex).map
            (fun c => if c = '\n' then ' ' else c)
          let content :=
            if content0.head? = some ' ' ∧ content0.getLast? = some ' '
                ∧ (jsTrim content0).length > 0 then
              (content0.drop 1).dropLast
            else content0
          parseInlineGo refs input fuel (closerIndex + numOfOpeningBackticks)
            (nodes ++ [.codeSpan content]) brackets
        | none =>
          parseInlineGo refs input fuel (characterCursor + numOfOpeningBackticks)
            (nodes ++ [.text (List.replicate numOfOpeningBackticks backtickChar)]) brackets
      else if marker = '*' ∨ marker = '_' then
        let numOfMarkers := countConsecutive input [marker] characterCursor
        let flank := classifyEmphasisRun input characterCursor numOfMarkers marker
        parseInlineGo refs input fuel (characterCursor + numOfMarkers)
          (nodes ++ [.emphasisDelimiter marker (List.replicate numOfMarkers marker)
            flank.1 flank.2 numOfMarkers]) brackets
      else if marker = '[' then
        parseInlineGo refs input fuel (characterCursor + 1)
          (nodes ++ [.text ['[']])
          (⟨false, nodes.length, characterCursor, true⟩ :: brackets)
      else if marker = '!' ∧ charAt input (characterCursor + 1) = some '[' then
        parseInlineGo refs input fuel (characterCursor + 2)
          (nodes ++ [.text ['!', '[']])
          (⟨true, nodes.length, characterCursor, true⟩ :: brackets)
      else if marker = ']' then
        let startIndex := characterCursor
        match brackets with
        | [] =>
          parseInlineGo refs input fuel (characterCursor + 1)
            (nodes ++ [.text [']']]) []
        | openerBracket :: brackets1 =>
          if ¬openerBracket.isActive then
            parseInlineGo refs input fuel (characterCursor + 1)
              (nodes ++ [.text [']']]) brackets1
          else
            match parseLinkTarget input (characterCursor + 1) with
            | some target =>
              let openerNodeIndex := openerBracket.nodeIndex
              let children := parseEmphasisDelimiterNodes (nodes.drop (openerNodeIndex + 1))
              let node :=
                if openerBracket.isImage then
                  Inline.image (encodeUnsafeChars target.href) target.title children
                else Inline.link (encodeUnsafeChars target.href) target.title children
              let brackets2 :=
                if ¬openerBracket.isImage then deactivateLinkBrackets brackets1
                else brackets1
              parseInlineGo refs input fuel (target.endIndex + 1)
                (nodes.take openerNodeIndex ++ [node]) brackets2
            | none =>
              let extracted := extractLinkLabel input
                (if ¬openerBracket.isImage then openerBracket.startIndex + 1
                 else openerBracket.startIndex + 2) startIndex
              let labelAndCursor : Option Str × Nat :=
                match parseReferenceLinkLabel input (characterCursor + 1) with
                | some referenceLabel =>
                  (if referenceLabel.label.length > 0 then some referenceLabel.label
                   else extracted, referenceLabel.endIndex + 1)
                | none => (extracted, startIndex + 1)
              match labelAndCursor.1.bind
                  (fun l => refsGet refs (normalizeReferenceJS l)) with
              | none =>
                parseInlineGo refs input fuel (startIndex + 1)
                  (nodes ++ [.text [']']]) brackets1
              | some definition =>
                let openerNodeIndex := openerBracket.nodeIndex
                let children := parseEmphasisDelimiterNodes (nodes.drop (openerNodeIndex + 1))
                let node :=
                  if openerBracket.isImage then
                    Inline.image (encodeUnsafeChars definition.href) definition.title children
                  else Inline.link (encodeUnsafeChars definition.href) definition.title children
                let brackets2 :=
                  if ¬openerBracket.isImage then deactivateLinkBrackets brackets1
                  else brackets1
                parseInlineGo refs input fuel labelAndCursor.2
                  (nodes.take openerNodeIndex ++ [node]) brackets2
      else if marker = '<' then
        let s := jsSlice input characterCursor
        match reMatchLength reEmail s with
        | some len =>
          let email := jsSliceTo s 1 (len - 1)
          parseInlineGo refs input fuel (characterCursor + len)
            (nodes ++ [.link (encodeUnsafeChars ("mailto:".toList ++ email)) none
              [.text email]]) brackets
        | none =>
          match reMatchLength reAutolink s with
          | some len =>
            let uri := jsSliceTo s 1 (len - 1)
            parseInlineGo refs input fuel (characterCursor + len)
              (nodes ++ [.link (encodeUnsafeChars uri) none [.text uri]]) brackets
          | none =>
            match reMatchLength reHtmlTag s with
            | some len =>
              parseInlineGo refs input fuel (characterCursor + len)
                (nodes ++ [.html (s.take len)]) brackets
            | none =>
              parseInlineGo refs input fuel (characterCursor + 1)
                (nodes ++ [.text ['<']]) brackets
      else if marker = '&' then
        let s := jsSlice input characterCursor
        match reMatchLength reEntity s with
        | some len =>
          parseInlineGo refs input fuel (characterCursor + len)
            (nodes ++ [.text (decodeHTMLStrict (s.take len))]) brackets
        | none =>
          parseInlineGo refs input fuel (characterCursor + 1)
            (nodes ++ [.text ['&']]) brackets
      else
        let breakSet : List Char :=
          ['\n', '\\', backtickChar, '*', '_', '[', ']', '!', '<', '&']
        let run :=
          ((input.drop characterCursor).takeWhile (fun c => ¬breakSet.contains c)).length
        let endIndex := if run = 0 then characterCursor + 1 else characterCursor + run
        parseInlineGo refs input fuel endIndex
          (nodes ++ [.text (jsSliceTo input characterCursor endIndex)]) brackets
    else nodes

/-- `parseInline(input, { referenceDefinitions })`. -/
def parseInline (input : Str) (refs : RefMap) : List Inline :=
  mergeGo [] (parseEmphasisDelimiterNodes
    (parseInlineGo refs input (input.length + 1) 0 [] []))

/-! ## Public block nodes and `convertInternalBlockToPublicBlock` -/

/-- Kind of a public list node (`kind`, plus `start` or `marker`). -/
inductive PublicListKind where
  | ordered (start : Nat)
  | unordered (marker : Char)
deriving Repr

/-- A public table cell: `{ align, children }`. -/
abbrev PublicCell := Option Align × List Inline

mutual
/-- Public `BlockNode`. -/
inductive PublicBlock where
  | blockquote (children : List PublicBlock)
  | heading (level : Nat) (children : List Inline)
  | paragraph (children : List Inline)
  | thematicBreak
  | codeBlock (content : Str) (info : Option Str)
  | htmlBlock (content : Str)
  | list (kind : PublicListKind) (tight : Bool) (items : List PublicListItem)
  | table (head : List PublicCell) (body : List (List PublicCell))

/-- A public list item. -/
inductive PublicListItem where
  | mk (children : List PublicBlock)
end

/-- The leading-empty-line skip of the indented-code conversion. -/
def icStartGo (ls : List Str) (endIndex : Int) : Nat → Nat → Nat
  | 0, s => s
  | fuel + 1, s =>
    if (s : Int) < endIndex then
      match ls.get? s with
      | some line => if isLineEmpty line then icStartGo ls endIndex fuel (s + 1) else s
      | none => s
    else s

/-- The trailing-empty-line skip of the indented-code conversion. -/
def icEndGo (ls : List Str) (startIndex : Nat) : Nat → Int → Int
  | 0, e => e
  | fuel + 1, e =>
    if e > (startIndex : Int) then
      match ls.get? e.toNat with
      | some line => if isLineEmpty line then icEndGo ls startIndex fuel (e - 1) else e
      | none => e
    else e

mutual
/-- `convertInternalBlockToPublicBlock`. -/
def convertInternalBlockToPublicBlock (refs : RefMap) : IBlock → PublicBlock
  | .blockquote cs _ _ _ _ => .blockquote (convertBlocks refs cs)
  | .heading level content _ _ _ => .heading level (parseInline content refs)
  | .paragraph ls _ _ _ _ => .paragraph (parseInline (jsTrim (joinLines ls)) refs)
  | .thematicBreak _ _ _ => .thematicBreak
  | .fencedCode _ _ _ info ls _ _ _ _ =>
    .codeBlock (if ls.length > 0 then joinLines ls ++ ['\n'] else []) info
  | .indentedCode ls _ _ _ _ =>
    let startIndex := icStartGo ls ((ls.length : Int) - 1) (ls.length + 1) 0
    let endIndex := icEndGo ls startIndex (ls.length + 1) ((ls.length : Int) - 1)
    .codeBlock
      (joinLines ((ls.take (endIndex + 1).toNat).drop startIndex) ++ ['\n']) none
  | .htmlBlock _ _ ls _ _ _ _ => .htmlBlock (joinLines ls)
  | .list k _ items _ tight _ _ _ =>
    let kind := match k with
      | .ordered start _ => PublicListKind.ordered start
      | .unordered m => PublicListKind.unordered m
    .list kind tight (convertItems refs items)
  | .table alignments headCells rows _ _ _ _ =>
    .table
      (headCells.enum.map (fun p =>
        ((alignments.get? p.1).join, parseInline p.2 refs)))
      (rows.map (fun row =>
        row.enum.map (fun p => ((alignments.get? p.1).join, parseInline p.2 refs))))

/-- Conversion of a children list. -/
def convertBlocks (refs : RefMap) : List IBlock → List PublicBlock
  | [] => []
  | b :: rest => convertInternalBlockToPublicBlock refs b :: convertBlocks refs rest

/-- Conversion of the items of a list node. -/
def convertItems (refs : RefMap) : List IListItem → List PublicListItem
  | [] => []
  | .mk cs _ _ _ _ :: rest => .mk (convertBlocks refs cs) :: convertItems refs rest
end

/-! ## `MarkdownParser.parse` -/

/-- The private parser fields (`splitter` state, `root.children`,
`nextLineIndex`, `nextNodeIndex`, `#referenceDefinitions`), plus the
`uidCounter` instrumentation used to identify nodes across calls. -/
structure ParserState where
  splitter : SplitterState
  children : List IBlock
  nextLineIndex : Int
  nextNodeIndex : Nat
  refs : RefMap
  uidCounter : Nat

/-- A fresh `new MarkdownParser()`. -/
def initialParserState : ParserState := ⟨⟨[], false⟩, [], 0, 0, [], 0⟩

/-- `line.replace(/\0/g, "�")`. -/
def replaceNul (l : Str) : Str :=
  l.map (fun c => if c = Char.ofNat 0 then Char.ofNat 0xfffd else c)

/-- The per-line loop of `parse`. -/
def parseLinesGo : List Str → Int → List IBlock → Nat → RefMap →
    List IBlock × Int × Nat × RefMap
  | [], lineIndex, cs, uid, refs => (cs, lineIndex, uid, refs)
  | l :: rest, lineIndex, cs, uid, refs =>
    let r := parseLine lineIndex (replaceNul l) cs uid refs
    parseLinesGo rest (lineIndex + 1) r.1 r.2.1 r.2.2

/-- The emission loop of `parse`: convert the closed prefix. -/
def harvestClosedPrefix (refs : RefMap) : List IBlock → List PublicBlock
  | [] => []
  | b :: rest =>
    if b.isClosed then
      convertInternalBlockToPublicBlock refs b :: harvestClosedPrefix refs rest
    else []

/-- `MarkdownParser.parse(input, { stream })`: split into lines, parse
each line (NUL bytes replaced), close the rightmost path when not
streaming, run the reference-definition sweep, then emit the closed
prefix of the root children from `nextNodeIndex` on. -/
def MarkdownParser.parse (st : ParserState) (input : Str) (stream : Bool) :
    List PublicBlock × ParserState :=
  let sp := LineSplitter.split st.splitter input stream
  let r := parseLinesGo sp.1 st.nextLineIndex st.children st.uidCounter st.refs
  let children1 := if stream = false then closeLastB r.1 else r.1
  let sw := sweepBlocks children1 r.2.2.2
  let emitted := harvestClosedPrefix sw.2 (sw.1.drop st.nextNodeIndex)
  (emitted, ⟨sp.2, sw.1, r.2.1, st.nextNodeIndex + emitted.length, sw.2, r.2.2.1⟩)



/-! ## Claims C5, C6, C10 -/

/-- A string literal as a character list. -/
def ofS (s : String) : Str := s.toList

/-- C5: `MarkdownParser.parse` is a total function of the parser state,
the input and the stream flag: every call returns a list of public block
nodes and a successor state, for every input whatsoever.  In the
embedding every fallible construct of the source is modelled explicitly,
so totality of this definition is the no-exception property. -/
theorem parse_total_no_error (st : ParserState) (input : Str) (stream : Bool) :
    ∃ (nodes : List PublicBlock) (st2 : ParserState),
      MarkdownParser.parse st input stream = (nodes, st2) :=
  ⟨_, _, rfl⟩

/-- C6 counterexample: with an open paragraph `x` as the deepest open
node, the line `"- "` parses as a list-item opener with empty content,
but it is **not** appended to the paragraph as a continuation line: the
setext-heading recognizer runs first and turns the paragraph into a
closed level-2 heading. -/
theorem listOpener_after_paragraph_counterexample :
    parseLine 1 (ofS "- ") [.paragraph [ofS "x"] false 0 0 0] 1 []
      = ([.heading 2 (ofS "x") 0 1 1], 2, []) := rfl

/-- C6 (corrected): the paragraph non-interruption rule holds only after
every earlier recognizer has declined the line: when the deepest open
node is a paragraph and the line is a list-item opener with empty content
or an ordered start value other than 1, the raw line is appended to the
paragraph as a continuation line — provided the line is not blank and is
not recognized as a blockquote, ATX heading, code fence, HTML block
start, table delimiter row, setext heading underline, or thematic break
(any of which wins first, as the `"- "` counterexample shows). -/
theorem listOpener_paragraph_suppression
    (lineIndex : Int) (line : Str) (ls : List Str) (s e : Int) (pu uid : Nat)
    (refs : RefMap) (li : ListItemParse)
    (hne : isLineEmpty line = false)
    (hbq : parseBlockquoteLine line = none)
    (hatx : parseATXHeading line = none)
    (hfence : parseCodeFenceStart line = none)
    (hhtml : parseHTMLBlockStart line = none)
    (htbl : parseTableStartLine ls.getLast? (some line) = none)
    (hsetext : parseSetextHeading line = none)
    (hsep : isSeparator line = false)
    (hli : parseListItem line = some li)
    (hsup : isLineEmpty li.content = true ∨ ∃ v d, li.kind = .ordered v d ∧ v ≠ 1) :
    parseLine lineIndex line [.paragraph ls false s e pu] uid refs
      = ([.paragraph (ls ++ [line]) false s lineIndex pu], uid, refs) := by
  have hfuel : openFuel line = (2 * line.length + 7) + 1 := by
    simp [openFuel]; omega
  have hfuel2 : 2 * line.length + 7 = (2 * line.length + 6) + 1 := by omega
  simp only [parseLine, descendGo, descendStep, hne, Bool.false_eq_true, if_false]
  rw [hfuel]
  simp only [openBlocks, hbq, hatx, hfence, hhtml]
  rw [hfuel2]
  simp only [openBlocksLate, List.getLast?_singleton, htbl, hsetext, hsep,
    Bool.false_eq_true, if_false, hli]
  have hcond : (isLineEmpty li.content ||
      match li.kind with
      | ListItemKind.ordered v _ => decide (v ≠ 1)
      | ListItemKind.unordered _ => false) = true := by
    rcases hsup with h | ⟨v, d, hk, hv⟩
    · simp [h]
    · simp [hk, hv]
  rw [if_pos hcond]
  simp [replaceLast]

/-- Witness: the empty-content unordered opener `"* "` (which no earlier
recognizer claims) is appended to the open paragraph. -/
theorem listOpener_paragraph_suppression_witness :
    parseLine 1 (ofS "* ") [.paragraph [ofS "x"] false 0 0 0] 7 []
      = ([.paragraph [ofS "x", ofS "* "] false 0 1 0], 7, []) :=
  listOpener_paragraph_suppression 1 (ofS "* ") [ofS "x"] 0 0 0 7 []
    ⟨.unordered '*', [], 2⟩ rfl rfl rfl rfl rfl rfl rfl rfl rfl (Or.inl rfl)

/-- C10 counterexample: a pipes-and-whitespace line does not always give
zero cells and does not always continue the table.  `parseTableRow`
applied to `"||"` yields one cell (the empty string), not zero; and the
pipes-only line `"    |"`, indented four columns, closes the open table
and opens an indented code block instead of appending a row. -/
theorem tableRow_pipe_only_counterexample :
    parseTableRow (ofS "||") = [[]]
    ∧ parseLine 2 (ofS "    |") [.table [none, none] [ofS "a", ofS "b"] [] false 0 1 0] 5 []
      = ([.table [none, none] [ofS "a", ofS "b"] [] true 0 1 0,
          .indentedCode [ofS "|"] false 2 2 5], 6, []) :=
  ⟨rfl, rfl⟩

/-- C10 (corrected): for the single-pipe line `"|"` of the claim (whose
row parse is indeed empty, and whose indent is below four columns), an
open table as the last root child is continued, not closed: the line
appends one body row with exactly as many cells as the header, all of
them empty. -/
theorem table_pipe_line_appends_empty_row
    (al : List (Option Align)) (hc : List Str) (rows : List (List Str))
    (s e : Int) (tu uid : Nat) (refs : RefMap) (lineIndex : Int) :
    parseLine lineIndex (ofS "|") [.table al hc rows false s e tu] uid refs
      = ([.table al hc (rows ++ [List.replicate hc.length []]) false s lineIndex tu],
         uid, refs) := by
  have h1 : isLineEmpty (ofS "|") = false := rfl
  have hbq : parseBlockquoteLine (ofS "|") = none := rfl
  have hatx : parseATXHeading (ofS "|") = none := rfl
  have hfence : parseCodeFenceStart (ofS "|") = none := rfl
  have hhtml : parseHTMLBlockStart (ofS "|") = none := rfl
  have hsep : isSeparator (ofS "|") = false := rfl
  have hli : parseListItem (ofS "|") = none := rfl
  have hic : isIndentedCodeLine (ofS "|") = false := rfl
  have hrow : parseTableRow (ofS "|") = [] := rfl
  have hfuel : openFuel (ofS "|") = 9 + 1 := rfl
  have hfuel2 : (9 : Nat) = 8 + 1 := rfl
  simp only [parseLine, descendGo, descendStep, h1, Bool.false_eq_true, if_false]
  rw [hfuel]
  simp only [openBlocks, hbq, hatx, hfence, hhtml]
  rw [hfuel2]
  simp only [openBlocksLate, List.getLast?_singleton, hsep, Bool.false_eq_true,
    if_false, hli, deepestOpenFromBlocks, deepestOpenB, IBlock.isClosed, hic,
    false_and, h1, hrow, padCells, replaceLast]
  simp

/-! ## Claim C1: streaming vs one-shot parsing -/

/-- A sequence of `parse(cᵢ, { stream: true })` calls on one parser. -/
def parseStreamCalls : ParserState → List Str → List PublicBlock × ParserState
  | st, [] => ([], st)
  | st, c :: rest =>
    let r := MarkdownParser.parse st c true
    let r2 := parseStreamCalls r.2 rest
    (r.1 ++ r2.1, r2.2)

/-- Streamed runs of all chunks followed by the final
`parse("", { stream: false })` flush, concatenating the returned lists. -/
def parseStreamThenFlush (chunks : List Str) : List PublicBlock :=
  let r := parseStreamCalls initialParserState chunks
  r.1 ++ (MarkdownParser.parse r.2 [] false).1

/-- Whether an inline node is a link. -/
def isLinkNode : Inline → Bool
  | .link _ _ _ => true
  | _ => false

/-- Whether the first emitted block is a paragraph containing a link. -/
def headParagraphHasLink : List PublicBlock → Bool
  | .paragraph cs :: _ => cs.any isLinkNode
  | _ => false

/-- C1 counterexample: feeding `"[ref]\n\n[ref]: /u\n"` one character per
streamed call and flushing does not reproduce the one-shot parse.  The
first paragraph is emitted (and its inlines converted) before the
reference definition has been seen, so the streamed output keeps
`[ref]` as literal text while the one-shot output resolves it to a
link. -/
theorem streaming_rechunking_counterexample :
    ((ofS "[ref]\n\n[ref]: /u\n").map (fun c => ([c] : Str))).flatten
        = ofS "[ref]\n\n[ref]: /u\n"
    ∧ parseStreamThenFlush ((ofS "[ref]\n\n[ref]: /u\n").map (fun c => ([c] : Str)))
        ≠ (MarkdownParser.parse initialParserState (ofS "[ref]\n\n[ref]: /u\n") false).1 := by
  constructor
  · rfl
  · intro h
    have h1 : headParagraphHasLink
        (parseStreamThenFlush ((ofS "[ref]\n\n[ref]: /u\n").map (fun c => ([c] : Str))))
        = false := rfl
    have h2 : headParagraphHasLink
        (MarkdownParser.parse initialParserState (ofS "[ref]\n\n[ref]: /u\n") false).1
        = true := rfl
    rw [h] at h1
    rw [h1] at h2
    exact Bool.noConfusion h2

/-- The streamed splitter fold: `split(cᵢ, { stream: true })` in order. -/
def splitStreamGo : SplitterState → List Str → List Str × SplitterState
  | st, [] => ([], st)
  | st, c :: rest =>
    let r := LineSplitter.split st c true
    let r2 := splitStreamGo r.2 rest
    (r.1 ++ r2.1, r2.2)

/-- Streamed splitting of all chunks followed by the final
`split("", { stream: false })` flush. -/
def splitStreamThenFlush (chunks : List Str) : List Str :=
  let r := splitStreamGo ⟨[], false⟩ chunks
  r.1 ++ (LineSplitter.split r.2 [] false).1

/-- A chunk's leading LF, swallowed when the previous chunk ended in CR. -/
def dropLeadingLF : Str → Str
  | '\n' :: t => t
  | t => t

/-- Continuing a scan result with further input. -/
def splitterScanCont (r : List Str × Str × Bool) (t : Str) : List Str × Str × Bool :=
  if r.2.2 then splitterScan [] (dropLeadingLF t) else splitterScan r.2.1 t

theorem splitterScan_nl (acc rest) :
    splitterScan acc ('\n' :: rest) = consLine acc (splitterScan [] rest) := by
  rw [splitterScan.eq_def]; simp

theorem splitterScan_cr_nil (acc) : splitterScan acc ['\r'] = ([acc], [], true) := by
  rw [splitterScan.eq_def]; simp

theorem splitterScan_crlf (acc rest2) :
    splitterScan acc ('\r' :: '\n' :: rest2) = consLine acc (splitterScan [] rest2) := by
  rw [splitterScan.eq_def]; simp

theorem splitterScan_cr_other (acc c2 rest2) (h2 : c2 ≠ '\n') :
    splitterScan acc ('\r' :: c2 :: rest2)
      = consLine acc (splitterScan [] (c2 :: rest2)) := by
  rw [splitterScan.eq_def]; simp [h2]

theorem dropLeadingLF_other (c2 : Char) (t2 : Str) (h2 : c2 ≠ '\n') :
    dropLeadingLF (c2 :: t2) = c2 :: t2 := by
  rw [dropLeadingLF.eq_def]
  split
  · rename_i heq; cases heq; exact absurd rfl h2
  · rfl

theorem splitterScan_pcr_rest (acc s : Str) :
    (splitterScan acc s).2.2 = true → (splitterScan acc s).2.1 = [] := by
  induction acc, s using splitterScan.induct with
  | case1 acc => intro h; simp [splitterScan] at h
  | case2 acc rest ih =>
    rw [splitterScan_nl]; exact ih
  | case3 acc _ => intro _; rw [splitterScan_cr_nil]
  | case4 acc rest2 _ ih =>
    rw [splitterScan_crlf]; exact ih
  | case5 acc c2 rest2 h2 _ ih =>
    rw [splitterScan_cr_other acc c2 rest2 h2]; exact ih
  | case6 acc c rest h1 h2 ih =>
    rw [splitterScan_cons acc c rest h1 h2]; exact ih

theorem splitterScan_append (t : Str) (ht : t ≠ []) (acc s : Str) :
    splitterScan acc (s ++ t)
      = ((splitterScan acc s).1 ++ (splitterScanCont (splitterScan acc s) t).1,
         (splitterScanCont (splitterScan acc s) t).2) := by
  induction acc, s using splitterScan.induct with
  | case1 acc => simp [splitterScan, splitterScanCont]
  | case2 acc rest ih =>
    rw [List.cons_append, splitterScan_nl, splitterScan_nl, ih]
    simp [consLine, splitterScanCont]
  | case3 acc _ =>
    rw [List.cons_append, List.nil_append, splitterScan_cr_nil]
    match t, ht with
    | c2 :: t2, _ =>
      by_cases h2 : c2 = '\n'
      · subst h2
        rw [splitterScan_crlf]
        simp [splitterScanCont, dropLeadingLF, consLine]
      · rw [splitterScan_cr_other acc c2 t2 h2]
        simp [splitterScanCont, dropLeadingLF_other c2 t2 h2, consLine]
  | case4 acc rest2 _ ih =>
    rw [List.cons_append, List.cons_append, splitterScan_crlf, splitterScan_crlf, ih]
    simp [consLine, splitterScanCont]
  | case5 acc c2 rest2 h2 _ ih =>
    rw [List.cons_append, List.cons_append,
      splitterScan_cr_other acc c2 (rest2 ++ t) h2, ← List.cons_append, ih,
      splitterScan_cr_other acc c2 rest2 h2]
    simp [consLine, splitterScanCont]
  | case6 acc c rest h1 h2 ih =>
    rw [List.cons_append, splitterScan_cons acc c (rest ++ t) h1 h2,
      splitterScan_cons acc c rest h1 h2, ih]

theorem split_unfold (st : SplitterState) (chunk : Str) (stream : Bool) :
    LineSplitter.split st chunk stream
      = (let c1 := if st.hasPendingCR then dropLeadingLF chunk else chunk
         let r := splitterScan st.partialLine c1
         if stream = false ∧ r.2.1 ≠ [] then (r.1 ++ [r.2.1], ⟨[], r.2.2⟩)
         else (r.1, ⟨r.2.1, r.2.2⟩)) := by
  rcases st with ⟨p, pcr⟩
  cases pcr
  · rfl
  · rcases chunk with _ | ⟨c0, c'⟩
    · rfl
    · by_cases h0 : c0 = '\n'
      · subst h0; rfl
      · rw [LineSplitter.split]
        simp [dropLeadingLF_other c0 c' h0]
        intro rest h
        cases h
        exact absurd rfl h0

theorem dropLeadingLF_append (c t : Str) (hc : c ≠ []) :
    dropLeadingLF (c ++ t) = dropLeadingLF c ++ t := by
  match c, hc with
  | c0 :: c', _ =>
    by_cases h0 : c0 = '\n'
    · subst h0; rfl
    · rw [List.cons_append, dropLeadingLF_other c0 (c' ++ t) h0,
        dropLeadingLF_other c0 c' h0]
      rfl

theorem split_append (st : SplitterState) (c t : Str) (hc : c ≠ []) :
    (LineSplitter.split st (c ++ t) false).1
      = (LineSplitter.split st c true).1
        ++ (LineSplitter.split (LineSplitter.split st c true).2 t false).1 := by
  rcases st with ⟨p, pcr⟩
  have hchunk : (if pcr then dropLeadingLF (c ++ t) else c ++ t)
      = (if pcr then dropLeadingLF c else c) ++ t := by
    cases pcr
    · rfl
    · simp [dropLeadingLF_append c t hc]
  rw [split_unfold, split_unfold, split_unfold]
  simp only
  rw [hchunk]
  set c1 := if pcr then dropLeadingLF c else c with hc1
  simp only [Bool.true_eq_false, false_and, if_false, true_and, eq_self_iff_true]
  rcases ht : t with _ | ⟨t0, t2⟩
  · -- t = []: the one-shot run is just the chunk run plus the flush of its
    -- remaining partial line.
    simp only [List.append_nil]
    have hemp : (if (splitterScan p c1).2.2 = true then dropLeadingLF [] else ([] : Str))
        = [] := by
      cases (splitterScan p c1).2.2 <;> simp [dropLeadingLF]
    rw [hemp]
    by_cases hrest : (splitterScan p c1).2.1 = []
    · simp [splitterScan, hrest]
    · simp [splitterScan, hrest]
  · -- t ≠ []
    have htne : t ≠ [] := by rw [ht]; simp
    rw [← ht, splitterScan_append t htne p c1]
    simp only
    by_cases hpcr2 : (splitterScan p c1).2.2 = true
    · have hrest : (splitterScan p c1).2.1 = [] := splitterScan_pcr_rest p c1 hpcr2
      simp only [splitterScanCont, hpcr2, if_true, hrest]
      by_cases hfin : (splitterScan ([] : Str) (dropLeadingLF t)).2.1 = []
      · simp [hfin]
      · simp [hfin]
    · have hpcr2' : (splitterScan p c1).2.2 = false := by
        cases h : (splitterScan p c1).2.2
        · rfl
        · exact absurd h hpcr2
      simp only [splitterScanCont, hpcr2', Bool.false_eq_true, if_false]
      by_cases hfin : (splitterScan (splitterScan p c1).2.1 t).2.1 = []
      · simp [hfin]
      · simp [hfin]

theorem splitStreamGo_lines (chunks : List Str) :
    ∀ st, (∀ c ∈ chunks, c ≠ []) →
      (splitStreamGo st chunks).1
          ++ (LineSplitter.split (splitStreamGo st chunks).2 [] false).1
        = (LineSplitter.split st chunks.flatten false).1 := by
  induction chunks with
  | nil => intro st _; simp [splitStreamGo]
  | cons c rest ih =>
    intro st h
    have hc : c ≠ [] := h c (by simp)
    have hrest : ∀ x ∈ rest, x ≠ [] := fun x hx => h x (by simp [hx])
    simp only [splitStreamGo, List.flatten_cons]
    rw [split_append st c rest.flatten hc, List.append_assoc,
      ih (LineSplitter.split st c true).2 hrest]

/-- C1 (corrected): streamed calls see exactly the one-shot line sequence.
For any chunking of the input into non-empty chunks, splitting the chunks
one call at a time with `stream: true` and finishing with the
`stream: false` flush yields exactly the lines of a single non-stream
split of the concatenation.  (The block lists returned by `parse` can
nevertheless differ, because inline conversion happens at emission time
with the reference definitions known then — the counterexample; and an
empty chunk clears a pending CR early, which changes the line sequence
itself.) -/
theorem lineSplitter_stream_rechunking (chunks : List Str)
    (h : ∀ c ∈ chunks, c ≠ []) :
    splitStreamThenFlush chunks
      = (LineSplitter.split ⟨[], false⟩ chunks.flatten false).1 := by
  rw [splitStreamThenFlush]
  exact splitStreamGo_lines chunks ⟨[], false⟩ h

/-- Witness: the chunks `["a\r", "\nb"]` (a CRLF split across the
boundary) stream to the same lines as the one-shot split. -/
theorem lineSplitter_stream_rechunking_witness :
    (∀ c ∈ ([ofS "a\r", ofS "\nb"] : List Str), c ≠ [])
    ∧ splitStreamThenFlush [ofS "a\r", ofS "\nb"]
        = (LineSplitter.split ⟨[], false⟩
            ([ofS "a\r", ofS "\nb"] : List Str).flatten false).1 :=
  ⟨by decide, lineSplitter_stream_rechunking _ (by decide)⟩

mutual
/-- A children list is *swept* when the reference-definition sweep leaves
it unchanged: it is processed up to its first open block, and every
processed paragraph has no leading definition left and at least one
line. -/
def SweptList : List IBlock → Prop
  | [] => True
  | b :: rest => if b.isClosed = false then True else SweptB b ∧ SweptList rest

/-- One processed block is swept. -/
def SweptB : IBlock → Prop
  | .paragraph ls _ _ _ _ => parseLinkReferenceDefinition ls = none ∧ ls ≠ []
  | .blockquote cs _ _ _ _ => SweptList cs
  | .list _ _ items _ _ _ _ _ => SweptItems items
  | _ => True

/-- All items of a processed list are swept. -/
def SweptItems : List IListItem → Prop
  | [] => True
  | i :: rest => SweptI i ∧ SweptItems rest

/-- One processed list item is swept. -/
def SweptI : IListItem → Prop
  | .mk cs _ _ _ _ => SweptList cs
end

/-- The label scan only moves the line index forward. -/
theorem lrdLabelGo_mono :
    ∀ (fuel : Nat) (label s : Str) (lr : List Str) (n : Nat)
      (out : Str × Str × List Str × Nat),
      lrdLabelGo fuel label s lr n = some out → n ≤ out.2.2.2 := by
  intro fuel label s lr n
  induction fuel, label, s, lr, n using lrdLabelGo.induct with
  | case1 a b c d => intro out h; simp [lrdLabelGo] at h
  | case2 a b c d => intro out h; simp [lrdLabelGo] at h
  | case3 fuel label lr n c hexrest hor ih =>
    intro out h
    rw [lrdLabelGo.eq_def] at h
    dsimp only at h
    rw [if_pos rfl] at h
    rw [if_pos hor] at h
    exact ih out h
  | case4 fuel label lr n c hexrest hor ih =>
    intro out h
    rw [lrdLabelGo.eq_def] at h
    dsimp only at h
    rw [if_pos rfl] at h
    rw [if_neg hor] at h
    exact ih out h
  | case5 fuel label lr n ih =>
    intro out h
    rw [lrdLabelGo.eq_def] at h
    dsimp only at h
    rw [if_pos rfl] at h
    exact ih out h
  | case6 fuel label rest lr n h1 =>
    intro out h
    rw [lrdLabelGo.eq_def] at h
    dsimp only at h
    rw [if_neg h1, if_pos rfl] at h
    simp at h
  | case7 fuel label rest lr n h1 h2 =>
    intro out h
    rw [lrdLabelGo.eq_def] at h
    dsimp only at h
    rw [if_neg h1, if_neg h2, if_pos rfl] at h
    cases h
    exact le_refl n
  | case8 fuel label rest n h1 h2 h3 =>
    intro out h
    rw [lrdLabelGo.eq_def] at h
    dsimp only at h
    rw [if_neg h1, if_neg h2, if_neg h3, if_pos rfl] at h
    simp at h
  | case9 fuel label rest n next lrest h1 h2 h3 ih =>
    intro out h
    rw [lrdLabelGo.eq_def] at h
    dsimp only at h
    rw [if_neg h1, if_neg h2, if_neg h3, if_pos rfl] at h
    exact le_trans (Nat.le_succ n) (ih out h)
  | case10 fuel label c rest lr n h1 h2 h3 h4 ih =>
    intro out h
    rw [lrdLabelGo.eq_def] at h
    dsimp only at h
    rw [if_neg h1, if_neg h2, if_neg h3, if_neg h4] at h
    exact ih out h

/-- The post-colon whitespace skip only moves the line index forward. -/
theorem lrdSkipWs_mono :
    ∀ (fuel : Nat) (s : Str) (lr : List Str) (n : Nat) (out : Str × List Str × Nat),
      lrdSkipWs fuel s lr n = some out → n ≤ out.2.2 := by
  intro fuel s lr n
  induction fuel, s, lr, n using lrdSkipWs.induct with
  | case1 a b c => intro out h; simp [lrdSkipWs] at h
  | case2 a b c => intro out h
                   rw [lrdSkipWs.eq_def] at h
                   dsimp only at h
                   cases h
                   exact le_refl _
  | case3 fuel c rest lr n hws ih =>
    intro out h
    rw [lrdSkipWs.eq_def] at h
    dsimp only at h
    rw [if_pos hws] at h
    exact ih out h
  | case4 fuel rest n h1 =>
    intro out h
    rw [lrdSkipWs.eq_def] at h
    dsimp only at h
    rw [if_neg h1, if_pos rfl] at h
    simp at h
  | case5 fuel rest n next lrest h1 ih =>
    intro out h
    rw [lrdSkipWs.eq_def] at h
    dsimp only at h
    rw [if_neg h1, if_pos rfl] at h
    exact le_trans (Nat.le_succ n) (ih out h)
  | case6 fuel c rest lr n h1 h2 =>
    intro out h
    rw [lrdSkipWs.eq_def] at h
    dsimp only at h
    rw [if_neg h1, if_neg h2] at h
    cases h
    exact le_refl _

/-- The post-destination whitespace skip only moves the line index
forward. -/
theorem lrdSkipWsSoft_mono :
    ∀ (fuel : Nat) (s : Str) (lr : List Str) (n : Nat),
      n ≤ (lrdSkipWsSoft fuel s lr n).2.2 := by
  intro fuel s lr n
  induction fuel, s, lr, n using lrdSkipWsSoft.induct with
  | case1 a b c => exact le_refl _
  | case2 a b c => rw [lrdSkipWsSoft.eq_def]
  | case3 fuel c rest lr n hws ih =>
    rw [lrdSkipWsSoft.eq_def]
    dsimp only
    rw [if_pos hws]
    exact ih
  | case4 fuel rest n h1 =>
    rw [lrdSkipWsSoft.eq_def]
    dsimp only
    rw [if_neg h1, if_pos rfl]
  | case5 fuel rest n next lrest h1 ih =>
    rw [lrdSkipWsSoft.eq_def]
    dsimp only
    rw [if_neg h1, if_pos rfl]
    exact le_trans (Nat.le_succ n) ih
  | case6 fuel c rest lr n h1 h2 =>
    rw [lrdSkipWsSoft.eq_def]
    dsimp only
    rw [if_neg h1, if_neg h2]

/-- The title scan only moves the line index forward. -/
theorem lrdTitleGo_mono (closing : Char) (openingIsParen : Bool) :
    ∀ (fuel : Nat) (acc s : Str) (lr : List Str) (n : Nat)
      (out : Option Str × Str × List Str × Nat),
      lrdTitleGo closing openingIsParen fuel acc s lr n = some out → n ≤ out.2.2.2 := by
  intro fuel acc s lr n
  induction fuel, acc, s, lr, n using lrdTitleGo.induct closing openingIsParen with
  | case1 a b c d => intro out h; simp [lrdTitleGo] at h
  | case2 a b c d =>
    intro out h
    rw [lrdTitleGo.eq_def] at h
    dsimp only at h
    cases h
    exact le_refl _
  | case3 fuel label rest lr n =>
    intro out h
    rw [lrdTitleGo.eq_def] at h
    dsimp only at h
    split at h
    · cases h; exact le_refl _
    · rename_i hne; exact absurd rfl hne
  | case4 fuel label c rest lr n hne hpar =>
    intro out h
    rw [lrdTitleGo.eq_def] at h
    dsimp only at h
    rw [if_neg hne] at h
    rw [if_pos hpar] at h
    cases h
    exact le_refl _
  | case5 fuel label c lr n hne hnpar c1 hexrest hbs ih =>
    intro out h
    rw [lrdTitleGo.eq_def] at h
    dsimp only at h
    rw [if_neg hne, if_neg hnpar, if_pos hbs] at h
    exact ih out h
  | case6 fuel label c lr n hne hnpar habs =>
    exact absurd habs.2 (by simp)
  | case7 fuel label rest n h1 h2 h3 =>
    intro out h
    rw [lrdTitleGo.eq_def] at h
    dsimp only at h
    rw [if_neg h1, if_neg h2, if_neg h3, if_pos rfl] at h
    cases h
    exact le_refl _
  | case8 fuel label rest n next lrest h1 h2 h3 ih =>
    intro out h
    rw [lrdTitleGo.eq_def] at h
    dsimp only at h
    rw [if_neg h1, if_neg h2, if_neg h3, if_pos rfl] at h
    exact le_trans (Nat.le_succ n) (ih out h)
  | case9 fuel label c rest lr n h1 h2 h3 h4 ih =>
    intro out h
    rw [lrdTitleGo.eq_def] at h
    dsimp only at h
    rw [if_neg h1, if_neg h2, if_neg h3, if_neg h4] at h
    exact ih out h

/-- A parsed link reference definition consumes at least one line. -/
theorem parseLinkReferenceDefinition_pos (lines : List Str)
    (d : LinkRefDefinition) (k : Nat)
    (h : parseLinkReferenceDefinition lines = some (d, k)) : 1 ≤ k := by
  match lines with
  | [] => simp [parseLinkReferenceDefinition] at h
  | firstLine :: restLines =>
    rw [parseLinkReferenceDefinition] at h
    dsimp only at h
    split at h
    case h_2 => exact absurd h (by simp)
    case h_1 =>
      split at h
      case h_1 => exact absurd h (by simp)
      case h_2 label afterLabel linesRest n1 heqLabel =>
        split at h
        case isTrue => exact absurd h (by simp)
        case isFalse hlen =>
          split at h
          case isTrue => exact absurd h (by simp)
          case isFalse hempty =>
            split at h
            case h_2 => exact absurd h (by simp)
            case h_1 afterColon heqColon =>
              split at h
              case h_1 => exact absurd h (by simp)
              case h_2 suffix2 linesRest2 idx2 heqSkip =>
                split at h
                case h_1 => exact absurd h (by simp)
                case h_2 dest heqDest =>
                  split at h
                  case isTrue => exact absurd h (by simp)
                  case isFalse hnl =>
                    split at h
                    case h_1 => exact absurd h (by simp)
                    case h_2 title0 suffix5 lr3 idx4 heqTitle =>
                      split at h
                      case h_1 =>
                        split at h
                        case isTrue => exact absurd h (by simp)
                        case isFalse =>
                          have hm1 := lrdLabelGo_mono _ _ _ _ _ _ heqLabel
                          have hm2 := lrdSkipWs_mono _ _ _ _ _ heqSkip
                          dsimp only at hm1 hm2
                          simp only [Option.some.injEq, Prod.mk.injEq] at h
                          obtain ⟨hd, hk⟩ := h
                          omega
                      case h_2 t heqT =>
                        have hm1 := lrdLabelGo_mono _ _ _ _ _ _ heqLabel
                        have hm2 := lrdSkipWs_mono _ _ _ _ _ heqSkip
                        dsimp only at hm1 hm2
                        have hm3 := lrdSkipWsSoft_mono
                          (linesFuel (firstLine :: restLines))
                          (jsSlice suffix2 (dest.endIndex + 1).toNat) linesRest2 idx2
                        simp only [Option.some.injEq, Prod.mk.injEq] at h
                        obtain ⟨hd, hk⟩ := h
                        rcases hq : charAt (lrdSkipWsSoft (linesFuel (firstLine :: restLines))
                            (jsSlice suffix2 (dest.endIndex + 1).toNat) linesRest2 idx2).1 0
                          with _ | q
                        · rw [hq] at heqTitle
                          dsimp only at heqTitle
                          simp only [Option.some.injEq, Prod.mk.injEq] at heqTitle
                          obtain ⟨h1, h2, h3, hk4⟩ := heqTitle
                          exact hk ▸ hk4 ▸ le_trans (le_trans hm1 hm2) hm3
                        · rw [hq] at heqTitle
                          dsimp only at heqTitle
                          split at heqTitle
                          · have hm4 := lrdTitleGo_mono _ _ _ _ _ _ _ _ heqTitle
                            have hm4b : (lrdSkipWsSoft (linesFuel (firstLine :: restLines))
                                (jsSlice suffix2 (dest.endIndex + 1).toNat) linesRest2 idx2).2.2 ≤ idx4 := hm4
                            exact hk ▸ le_trans (le_trans (le_trans hm1 hm2) hm3) hm4b
                          · simp only [Option.some.injEq, Prod.mk.injEq] at heqTitle
                            obtain ⟨h1, h2, h3, hk4⟩ := heqTitle
                            exact hk ▸ hk4 ▸ le_trans (le_trans hm1 hm2) hm3

/-- With no leading definition, `consumeLeadingDefs` is the identity. -/
theorem consumeLeadingDefs_none (fuel : Nat) (ls : List Str) (refs : RefMap)
    (h : parseLinkReferenceDefinition ls = none) :
    consumeLeadingDefs (fuel + 1) ls refs = (ls, refs) := by
  rw [consumeLeadingDefs, h]

/-- With enough fuel, `consumeLeadingDefs` strips every leading
definition: no further definition parses from the remaining lines. -/
theorem consumeLeadingDefs_complete :
    ∀ (fuel : Nat) (ls : List Str) (refs : RefMap), ls.length < fuel →
      parseLinkReferenceDefinition (consumeLeadingDefs fuel ls refs).1 = none := by
  intro fuel
  induction fuel with
  | zero => intro ls refs h; exact absurd h (Nat.not_lt_zero _)
  | succ f ih =>
    intro ls refs h
    rw [consumeLeadingDefs]
    rcases hp : parseLinkReferenceDefinition ls with _ | ⟨d, k⟩
    · dsimp only
      exact hp
    · dsimp only
      apply ih
      have hk := parseLinkReferenceDefinition_pos ls d k hp
      have hne : ls ≠ [] := by
        intro he
        rw [he] at hp
        simp [parseLinkReferenceDefinition] at hp
      have hlen : 1 ≤ ls.length := by
        cases ls
        · exact absurd rfl hne
        · simp
      rw [List.length_drop]
      omega

/-- The sweep leaves swept trees unchanged (all four traversals). -/
theorem sweep_swept_id_all :
    (∀ (cs : List IBlock) (refs : RefMap), SweptList cs →
      sweepBlocks cs refs = (cs, refs))
    ∧ (∀ (b : IBlock) (refs : RefMap), SweptB b → sweepB b refs = (b, refs))
    ∧ (∀ (items : List IListItem) (refs : RefMap), SweptItems items →
      sweepItems items refs = (items, refs))
    ∧ (∀ (i : IListItem) (refs : RefMap), SweptI i → sweepI i refs = (i, refs)) := by
  refine sweepBlocks.mutual_induct
    (fun cs refs => SweptList cs → sweepBlocks cs refs = (cs, refs))
    (fun b refs => SweptB b → sweepB b refs = (b, refs))
    (fun items refs => SweptItems items → sweepItems items refs = (items, refs))
    (fun i refs => SweptI i → sweepI i refs = (i, refs))
    ?_ ?_ ?_ ?_ ?_ ?_ ?_ ?_ ?_ ?_ ?_
  · intro cs c s e u refs ih hsw
    simp only [SweptB] at hsw
    rw [sweepB]
    rw [ih hsw]
  · intro k n items c t s e u refs ih hsw
    simp only [SweptB] at hsw
    rw [sweepB]
    rw [ih hsw]
  · intro b refs hnbq hnl _
    rw [sweepB.eq_def]
    match b, hnbq, hnl with
    | .paragraph ls c s e u, _, _ => rfl
    | .heading lv ct s e u, _, _ => rfl
    | .fencedCode il nm mk info ls c s e u, _, _ => rfl
    | .indentedCode ls c s e u, _, _ => rfl
    | .thematicBreak s e u, _, _ => rfl
    | .htmlBlock p cbi ls c s e u, _, _ => rfl
    | .table al hc rows c s e u, _, _ => rfl
    | .blockquote cs c s e u, hnbq, _ => exact absurd rfl (hnbq cs c s e u)
    | .list k n items c t s e u, _, hnl => exact absurd rfl (hnl k n items c t s e u)
  · intro cs c s e u refs ih hsw
    simp only [SweptI] at hsw
    rw [sweepI]
    rw [ih hsw]
  · intro refs _
    rfl
  · intro b rest refs hopen _
    rw [sweepBlocks.eq_def]
    dsimp only
    rw [if_pos hopen]
  · intro rest refs ls c s e u r hemp hcl ih hsw
    simp only [IBlock.isClosed] at hcl
    simp only [SweptList, IBlock.isClosed] at hsw
    rw [if_neg hcl] at hsw
    obtain ⟨⟨hparse, hne⟩, hrest⟩ := hsw
    have hr : consumeLeadingDefs (ls.length + 1) ls refs = (ls, refs) :=
      consumeLeadingDefs_none ls.length ls refs hparse
    have hemp2 : (consumeLeadingDefs (ls.length + 1) ls refs).1.isEmpty = true := hemp
    rw [hr] at hemp2
    simp only [List.isEmpty_iff] at hemp2
    exact absurd hemp2 hne
  · intro rest refs ls c s e u r hemp hcl ih hsw
    simp only [IBlock.isClosed] at hcl
    simp only [SweptList, IBlock.isClosed] at hsw
    rw [if_neg hcl] at hsw
    obtain ⟨⟨hparse, hne⟩, hrest⟩ := hsw
    have hr : consumeLeadingDefs (ls.length + 1) ls refs = (ls, refs) :=
      consumeLeadingDefs_none ls.length ls refs hparse
    have ih2 : SweptList rest →
        sweepBlocks rest (consumeLeadingDefs (ls.length + 1) ls refs).2
          = (rest, (consumeLeadingDefs (ls.length + 1) ls refs).2) := ih
    rw [hr] at ih2
    have ih3 : SweptList rest → sweepBlocks rest refs = (rest, refs) := ih2
    have hemp4 : ¬(((ls, refs) : List Str × RefMap).1.isEmpty = true) := by
      simp only [List.isEmpty_iff]
      exact hne
    rw [sweepBlocks.eq_def]
    dsimp only [IBlock.isClosed]
    rw [if_neg hcl, hr, if_neg hemp4]
    dsimp only
    rw [ih3 hrest]
  · intro rest refs other hnpara ri hcl ihB ihRest hsw
    simp only [SweptList] at hsw
    rw [if_neg hcl] at hsw
    obtain ⟨hswB, hswRest⟩ := hsw
    have hB := ihB hswB
    have ihRest2 : SweptList rest →
        sweepBlocks rest (sweepB other refs).2 = (rest, (sweepB other refs).2) := ihRest
    rw [hB] at ihRest2
    have ihRest3 : SweptList rest → sweepBlocks rest refs = (rest, refs) := ihRest2
    cases other
    case paragraph ls c s e u => exact absurd rfl (hnpara ls c s e u)
    all_goals
      rw [sweepBlocks.eq_def]
      dsimp only
      rw [if_neg hcl, hB]
      dsimp only
      rw [ihRest3 hswRest]
  · intro refs _
    rfl
  · intro i rest refs ri ihI ihRest hsw
    simp only [SweptItems] at hsw
    have hI := ihI hsw.1
    have ihRest2 : SweptItems rest →
        sweepItems rest (sweepI i refs).2 = (rest, (sweepI i refs).2) := ihRest
    rw [hI] at ihRest2
    have ihRest3 : SweptItems rest → sweepItems rest refs = (rest, refs) := ihRest2
    rw [sweepItems.eq_def]
    dsimp only
    rw [hI]
    dsimp only
    rw [ihRest3 hsw.2]

/-! ## Prefix stability of the per-line mutations -/

/-- `closeRightmostPath` does not change the number of root children. -/
theorem closeLastB_length : ∀ cs : List IBlock, (closeLastB cs).length = cs.length := by
  intro cs
  induction cs with
  | nil => rfl
  | cons b rest ih =>
    cases rest with
    | nil => rfl
    | cons b2 r2 =>
      rw [closeLastB.eq_def]
      dsimp only
      rw [List.length_cons, List.length_cons, ih]

/-- `closeRightmostPath` leaves an already-closed prefix unchanged. -/
theorem closeLastB_take : ∀ (cs : List IBlock) (n : Nat), n ≤ cs.length →
    (∀ x ∈ cs.take n, x.isClosed = true) → (closeLastB cs).take n = cs.take n := by
  intro cs
  induction cs with
  | nil => intro n _ _; rfl
  | cons b rest ih =>
    intro n hn hc
    cases rest with
    | nil =>
      cases n with
      | zero => rfl
      | succ m =>
        have hm : m = 0 := by
          have := hn
          simp only [List.length_cons, List.length_nil] at this
          omega
        subst hm
        have hb : b.isClosed = true := hc b (by simp)
        rw [closeLastB.eq_def]
        dsimp only
        rw [if_pos hb]
    | cons b2 r2 =>
      cases n with
      | zero => rfl
      | succ m =>
        rw [closeLastB.eq_def]
        dsimp only
        rw [List.take_succ_cons, List.take_succ_cons]
        have hm : m ≤ (b2 :: r2).length := by
          simp only [List.length_cons] at hn ⊢
          omega
        have hc2 : ∀ x ∈ (b2 :: r2).take m, x.isClosed = true := by
          intro x hx
          exact hc x (by rw [List.take_succ_cons]; exact List.mem_cons_of_mem b hx)
        rw [ih m hm hc2]

/-- Lazy continuation leaves a closed block unchanged. -/
theorem lazyAppendB_closed (lineIndex : Int) (line : Str) (b : IBlock)
    (h : b.isClosed = true) : lazyAppendB lineIndex line b = b := by
  cases b <;>
    first
    | rfl
    | (simp only [IBlock.isClosed] at h
       rw [lazyAppendB.eq_def]
       dsimp only
       rw [if_pos h])

/-- Lazy continuation does not change the number of root children. -/
theorem lazyAppendBlocks_length (lineIndex : Int) (line : Str) :
    ∀ cs : List IBlock, (lazyAppendBlocks lineIndex line cs).length = cs.length := by
  intro cs
  induction cs with
  | nil => rfl
  | cons b rest ih =>
    cases rest with
    | nil => rfl
    | cons b2 r2 =>
      rw [lazyAppendBlocks.eq_def]
      dsimp only
      rw [List.length_cons, List.length_cons, ih]

/-- Lazy continuation leaves an already-closed prefix unchanged. -/
theorem lazyAppendBlocks_take (lineIndex : Int) (line : Str) :
    ∀ (cs : List IBlock) (n : Nat), n ≤ cs.length →
    (∀ x ∈ cs.take n, x.isClosed = true) →
    (lazyAppendBlocks lineIndex line cs).take n = cs.take n := by
  intro cs
  induction cs with
  | nil => intro n _ _; rfl
  | cons b rest ih =>
    intro n hn hc
    cases rest with
    | nil =>
      cases n with
      | zero => rfl
      | succ m =>
        have hm : m = 0 := by
          simp only [List.length_cons, List.length_nil] at hn
          omega
        subst hm
        have hb : b.isClosed = true := hc b (by simp)
        rw [lazyAppendBlocks.eq_def]
        dsimp only
        rw [lazyAppendB_closed lineIndex line b hb]
    | cons b2 r2 =>
      cases n with
      | zero => rfl
      | succ m =>
        rw [lazyAppendBlocks.eq_def]
        dsimp only
        rw [List.take_succ_cons, List.take_succ_cons]
        have hm : m ≤ (b2 :: r2).length := by
          simp only [List.length_cons] at hn ⊢
          omega
        have hc2 : ∀ x ∈ (b2 :: r2).take m, x.isClosed = true := by
          intro x hx
          exact hc x (by rw [List.take_succ_cons]; exact List.mem_cons_of_mem b hx)
        rw [ih m hm hc2]

/-- Truncating the last element preserves shorter prefixes. -/
theorem take_dropLast_eq (cs : List IBlock) (n : Nat) (hlt : n < cs.length) :
    cs.dropLast.take n = cs.take n := by
  rw [List.dropLast_eq_take, List.take_take]
  have : min n (cs.length - 1) = n := by omega
  rw [this]

/-- If the last root child is open, the closed prefix stops before it. -/
theorem open_last_lt (cs : List IBlock) (n : Nat) (b : IBlock)
    (hg : cs.getLast? = some b) (hb : b.isClosed = false)
    (hn : n ≤ cs.length) (hc : ∀ x ∈ cs.take n, x.isClosed = true) :
    n < cs.length := by
  rcases Nat.lt_or_ge n cs.length with h | h
  · exact h
  · exfalso
    have hnl : n = cs.length := Nat.le_antisymm hn h
    have hmem : b ∈ cs := List.mem_of_mem_getLast? hg
    have hcl := hc b (by rw [hnl, List.take_length]; exact hmem)
    rw [hb] at hcl
    exact Bool.noConfusion hcl

/-- `addNode` (close the rightmost path, then push) preserves a closed
prefix, also when called on a vertically edited child list. -/
theorem appendBlock_stable (cs0 cs : List IBlock) (node : IBlock) (n : Nat)
    (h1 : cs0.take n = cs.take n) (h2 : n ≤ cs0.length)
    (hc : ∀ x ∈ cs.take n, x.isClosed = true) :
    (appendBlock cs0 node).take n = cs.take n
      ∧ n ≤ (appendBlock cs0 node).length := by
  have hc0 : ∀ x ∈ cs0.take n, x.isClosed = true := by rw [h1]; exact hc
  have ht := closeLastB_take cs0 n h2 hc0
  have hl := closeLastB_length cs0
  constructor
  · rw [appendBlock, List.take_append_of_le_length (by rw [hl]; exact h2), ht, h1]
  · rw [appendBlock, List.length_append, hl]
    simp only [List.length_cons, List.length_nil]
    omega

/-- Replacing the (open) last root child preserves the closed prefix. -/
theorem replaceLast_stable (cs : List IBlock) (b : IBlock) (n : Nat)
    (hlt : n < cs.length) :
    (replaceLast cs b).take n = cs.take n ∧ n ≤ (replaceLast cs b).length := by
  have hdl : cs.dropLast.length = cs.length - 1 := List.length_dropLast cs
  constructor
  · rw [replaceLast, List.take_append_of_le_length (by omega), take_dropLast_eq cs n hlt]
  · rw [replaceLast, List.length_append, hdl]
    simp only [List.length_cons, List.length_nil]
    omega

/-- Phase 2 (`openBlocks` and companions) only closes, edits or replaces
blocks at or after the first open root child: a closed prefix passes
through unchanged, and the child list never shrinks below it. -/
theorem openBlocks_prefix_all : ∀ fuel : Nat,
    (∀ (lineIndex : Int) (line : Str) (cs : List IBlock) (uid : Nat) (refs : RefMap)
        (n : Nat), n ≤ cs.length → (∀ x ∈ cs.take n, x.isClosed = true) →
        (openBlocks fuel lineIndex line cs uid refs).1.take n = cs.take n
          ∧ n ≤ (openBlocks fuel lineIndex line cs uid refs).1.length)
    ∧ (∀ (lineIndex : Int) (line : Str) (cs : List IBlock) (uid : Nat) (refs : RefMap)
        (n : Nat), n ≤ cs.length → (∀ x ∈ cs.take n, x.isClosed = true) →
        (openBlocksLate fuel lineIndex line cs uid refs).1.take n = cs.take n
          ∧ n ≤ (openBlocksLate fuel lineIndex line cs uid refs).1.length)
    ∧ (∀ (lineIndex : Int) (line : Str) (li : ListItemParse) (cs : List IBlock)
        (uid : Nat) (refs : RefMap) (n : Nat),
        n ≤ cs.length → (∀ x ∈ cs.take n, x.isClosed = true) →
        (openListItem fuel lineIndex line li cs uid refs).1.take n = cs.take n
          ∧ n ≤ (openListItem fuel lineIndex line li cs uid refs).1.length)
    ∧ (∀ (lineIndex : Int) (li : ListItemParse) (cs : List IBlock)
        (uid : Nat) (refs : RefMap) (n : Nat),
        n ≤ cs.length → (∀ x ∈ cs.take n, x.isClosed = true) →
        (openNewList fuel lineIndex li cs uid refs).1.take n = cs.take n
          ∧ n ≤ (openNewList fuel lineIndex li cs uid refs).1.length) := by
  intro fuel
  induction fuel with
  | zero =>
    exact ⟨fun _ _ _ _ _ n hn _ => ⟨rfl, hn⟩, fun _ _ _ _ _ n hn _ => ⟨rfl, hn⟩,
      fun _ _ _ _ _ _ n hn _ => ⟨rfl, hn⟩, fun _ _ _ _ _ n hn _ => ⟨rfl, hn⟩⟩
  | succ fuel ih =>
    obtain ⟨ihA, ihB, ihC, ihD⟩ := ih
    refine ⟨?_, ?_, ?_, ?_⟩
    · intro lineIndex line cs uid refs n hn hc
      rw [openBlocks.eq_def]
      dsimp only
      split
      · exact appendBlock_stable _ _ _ _ rfl hn hc
      · split
        · exact appendBlock_stable _ _ _ _ rfl hn hc
        · split
          · exact appendBlock_stable _ _ _ _ rfl hn hc
          · split
            · split
              · exact appendBlock_stable _ _ _ _ rfl hn hc
              · exact ihB _ _ _ _ _ _ hn hc
            · exact ihB _ _ _ _ _ _ hn hc
    · intro lineIndex line cs uid refs n hn hc
      rw [openBlocksLate.eq_def]
      dsimp only
      split
      next ls s e pu heq =>
        have hlt : n < cs.length := open_last_lt cs n _ heq rfl hn hc
        split
        next t heq2 =>
          split
          next hlen =>
            exact appendBlock_stable _ _ _ _ (take_dropLast_eq cs n hlt)
              (by rw [List.length_dropLast]; omega) hc
          next hlen =>
            exact appendBlock_stable _ _ _ _ (replaceLast_stable cs _ n hlt).1
              (replaceLast_stable cs _ n hlt).2 hc
        next heq2 =>
          split
          next level heq3 =>
            split
            next hpos =>
              exact appendBlock_stable _ _ _ _ (take_dropLast_eq cs n hlt)
                (by rw [List.length_dropLast]; omega) hc
            next hpos =>
              exact replaceLast_stable cs _ n hlt
          next heq3 =>
            dsimp only
            split
            · exact appendBlock_stable _ _ _ _ rfl hn hc
            · split
              next li heq4 =>
                split
                · exact replaceLast_stable cs _ n hlt
                · exact ihC _ _ _ _ _ _ _ hn hc
              next heq4 =>
                split
                · exact appendBlock_stable _ _ _ _ rfl hn hc
                · split
                  · exact ⟨closeLastB_take cs n hn hc, by rw [closeLastB_length]; exact hn⟩
                  · split
                    next al2 hcells rows2 s2 tu2 heq5 =>
                      have hlt2 : n < cs.length := open_last_lt cs n _ heq5 rfl hn hc
                      exact replaceLast_stable cs _ n hlt2
                    next heq5 =>
                      split
                      · exact ⟨lazyAppendBlocks_take _ _ cs n hn hc,
                          by rw [lazyAppendBlocks_length]; exact hn⟩
                      · exact appendBlock_stable _ _ _ _ rfl hn hc
      next hne =>
        split
        · exact appendBlock_stable _ _ _ _ rfl hn hc
        · split
          next li heq4 =>
            split
            next ls2 s2 e2 pu2 heq5 =>
              have hlt : n < cs.length := open_last_lt cs n _ heq5 rfl hn hc
              split
              · exact replaceLast_stable cs _ n hlt
              · exact ihC _ _ _ _ _ _ _ hn hc
            next heq5 =>
              exact ihC _ _ _ _ _ _ _ hn hc
          next heq4 =>
            split
            · exact appendBlock_stable _ _ _ _ rfl hn hc
            · split
              · exact ⟨closeLastB_take cs n hn hc, by rw [closeLastB_length]; exact hn⟩
              · split
                next al hcells rows s2 tu heq5 =>
                  have hlt : n < cs.length := open_last_lt cs n _ heq5 rfl hn hc
                  exact replaceLast_stable cs _ n hlt
                next heq5 =>
                  split
                  · exact ⟨lazyAppendBlocks_take _ _ cs n hn hc,
                      by rw [lazyAppendBlocks_length]; exact hn⟩
                  · exact appendBlock_stable _ _ _ _ rfl hn hc
    · intro lineIndex line li cs uid refs n hn hc
      rw [openListItem.eq_def]
      dsimp only
      split
      next k m items t s e lu heq =>
        have hlt := open_last_lt cs n _ heq rfl hn hc
        split
        · exact replaceLast_stable cs _ n hlt
        · exact ihD _ _ _ _ _ _ hn hc
      next heq =>
        exact ihD _ _ _ _ _ _ hn hc
    · intro lineIndex li cs uid refs n hn hc
      rw [openNewList.eq_def]
      dsimp only
      exact appendBlock_stable _ _ _ _ rfl hn hc

/-- Phase 1 leaves a closed block alone: the walk falls through on it. -/
theorem descendStep_closed (lineIndex : Int) (line : Str) (uid : Nat) (refs : RefMap)
    (b : IBlock) (h : b.isClosed = true) :
    descendStep lineIndex line uid refs b = .fallthrough [b] := by
  cases b <;>
    first
    | rfl
    | (simp only [IBlock.isClosed] at h
       rw [descendStep.eq_def]
       dsimp only
       rw [if_pos h])

/-- Phase 1 (`descendGo`) edits only the last child: a closed prefix
passes through unchanged on both the handled and fall-through outcomes. -/
theorem descendGo_stable (lineIndex : Int) (line : Str) (uid : Nat) (refs : RefMap) :
    ∀ (cs : List IBlock) (n : Nat), n ≤ cs.length →
    (∀ x ∈ cs.take n, x.isClosed = true) →
    (∀ cs2 u2 r2, descendGo lineIndex line uid refs cs = .handled cs2 u2 r2 →
      cs2.take n = cs.take n ∧ n ≤ cs2.length)
    ∧ (∀ cs2, descendGo lineIndex line uid refs cs = .fallthrough cs2 →
      cs2.take n = cs.take n ∧ n ≤ cs2.length) := by
  intro cs
  induction cs with
  | nil =>
    intro n hn _
    have hn0 : n = 0 := by simp only [List.length_nil] at hn; omega
    subst hn0
    constructor
    · intro cs2 u2 r2 h
      rw [descendGo.eq_def] at h
      cases h
    · intro cs2 h
      rw [descendGo.eq_def] at h
      cases h
      exact ⟨rfl, Nat.zero_le _⟩
  | cons b rest ih =>
    intro n hn hc
    cases rest with
    | nil =>
      cases n with
      | zero =>
        exact ⟨fun cs2 u2 r2 _ => ⟨rfl, Nat.zero_le _⟩, fun cs2 _ => ⟨rfl, Nat.zero_le _⟩⟩
      | succ m =>
        have hm : m = 0 := by simp only [List.length_cons, List.length_nil] at hn; omega
        subst hm
        have hb : b.isClosed = true := hc b (by simp)
        have hstep := descendStep_closed lineIndex line uid refs b hb
        constructor
        · intro cs2 u2 r2 h
          rw [descendGo.eq_def] at h
          dsimp only at h
          rw [hstep] at h
          cases h
        · intro cs2 h
          rw [descendGo.eq_def] at h
          dsimp only at h
          rw [hstep] at h
          cases h
          exact ⟨rfl, by simp⟩
    | cons b2 r2l =>
      cases n with
      | zero =>
        exact ⟨fun cs2 u2 r2 _ => ⟨rfl, Nat.zero_le _⟩, fun cs2 _ => ⟨rfl, Nat.zero_le _⟩⟩
      | succ m =>
        have hm : m ≤ (b2 :: r2l).length := by
          simp only [List.length_cons] at hn ⊢; omega
        have hc2 : ∀ x ∈ (b2 :: r2l).take m, x.isClosed = true := by
          intro x hx
          exact hc x (by rw [List.take_succ_cons]; exact List.mem_cons_of_mem b hx)
        obtain ⟨ihH, ihF⟩ := ih m hm hc2
        constructor
        · intro cs2 u2 r2 h
          rw [descendGo.eq_def] at h
          dsimp only at h
          rcases hrec : descendGo lineIndex line uid refs (b2 :: r2l) with ⟨cs3, u3, r3⟩ | ⟨cs3⟩
          · rw [hrec] at h
            dsimp only at h
            cases h
            obtain ⟨ht, hl⟩ := ihH _ _ _ hrec
            constructor
            · rw [List.take_succ_cons, List.take_succ_cons, ht]
            · simp only [List.length_cons]; omega
          · rw [hrec] at h
            dsimp only at h
            cases h
        · intro cs2 h
          rw [descendGo.eq_def] at h
          dsimp only at h
          rcases hrec : descendGo lineIndex line uid refs (b2 :: r2l) with ⟨cs3, u3, r3⟩ | ⟨cs3⟩
          · rw [hrec] at h
            dsimp only at h
            cases h
          · rw [hrec] at h
            dsimp only at h
            cases h
            obtain ⟨ht, hl⟩ := ihF _ hrec
            constructor
            · rw [List.take_succ_cons, List.take_succ_cons, ht]
            · simp only [List.length_cons]; omega

/-- One `parseLine` call preserves a closed root prefix and never
shrinks the child list below it. -/
theorem parseLine_stable (lineIndex : Int) (line : Str) (cs : List IBlock)
    (uid : Nat) (refs : RefMap) (n : Nat) (hn : n ≤ cs.length)
    (hc : ∀ x ∈ cs.take n, x.isClosed = true) :
    (parseLine lineIndex line cs uid refs).1.take n = cs.take n
      ∧ n ≤ (parseLine lineIndex line cs uid refs).1.length := by
  obtain ⟨hH, hF⟩ := descendGo_stable lineIndex line uid refs cs n hn hc
  rw [parseLine]
  rcases hd : descendGo lineIndex line uid refs cs with ⟨cs2, u2, r2⟩ | ⟨cs2⟩
  · exact hH cs2 u2 r2 hd
  · obtain ⟨ht, hl⟩ := hF cs2 hd
    have hc2 : ∀ x ∈ cs2.take n, x.isClosed = true := by rw [ht]; exact hc
    obtain ⟨ht2, hl2⟩ :=
      (openBlocks_prefix_all (openFuel line)).1 lineIndex line cs2 uid refs n hl hc2
    dsimp only
    exact ⟨by rw [ht2, ht], hl2⟩

/-- The per-line loop of `parse` preserves a closed root prefix. -/
theorem parseLinesGo_stable :
    ∀ (lines : List Str) (lineIndex : Int) (cs : List IBlock) (uid : Nat)
      (refs : RefMap) (n : Nat), n ≤ cs.length →
    (∀ x ∈ cs.take n, x.isClosed = true) →
    (parseLinesGo lines lineIndex cs uid refs).1.take n = cs.take n
      ∧ n ≤ (parseLinesGo lines lineIndex cs uid refs).1.length := by
  intro lines
  induction lines with
  | nil => intro _ cs _ _ n hn _; exact ⟨rfl, hn⟩
  | cons l rest ih =>
    intro lineIndex cs uid refs n hn hc
    obtain ⟨ht, hl⟩ := parseLine_stable lineIndex (replaceNul l) cs uid refs n hn hc
    have hc2 : ∀ x ∈ (parseLine lineIndex (replaceNul l) cs uid refs).1.take n,
        x.isClosed = true := by rw [ht]; exact hc
    rw [parseLinesGo]
    obtain ⟨ht2, hl2⟩ := ih (lineIndex + 1) _ _ _ n hl hc2
    exact ⟨by rw [ht2, ht], hl2⟩

/-- The sweep preserves each block's closed flag. -/
theorem sweepB_isClosed (b : IBlock) (refs : RefMap) :
    ((sweepB b refs).1).isClosed = b.isClosed := by
  cases b <;> rfl

/-- A closed, swept prefix passes through the sweep unchanged, and the
sweep continues on the remaining children with the same store. -/
theorem sweep_prefix_passthrough :
    ∀ (p rest : List IBlock) (refs : RefMap),
      (∀ x ∈ p, x.isClosed = true) → (∀ x ∈ p, SweptB x) →
      sweepBlocks (p ++ rest) refs
        = (p ++ (sweepBlocks rest refs).1, (sweepBlocks rest refs).2) := by
  intro p
  induction p with
  | nil => intro rest refs _ _; rfl
  | cons b p ih =>
    intro rest refs hc hs
    have hcb : b.isClosed = true := hc b (List.mem_cons_self b p)
    have hsb : SweptB b := hs b (List.mem_cons_self b p)
    have hc2 : ∀ x ∈ p, x.isClosed = true := fun x hx => hc x (List.mem_cons_of_mem b hx)
    have hs2 : ∀ x ∈ p, SweptB x := fun x hx => hs x (List.mem_cons_of_mem b hx)
    have hncl : ¬(b.isClosed = false) := by rw [hcb]; exact fun h => Bool.noConfusion h
    cases b with
    | paragraph ls c s e u =>
      simp only [SweptB] at hsb
      obtain ⟨hparse, hne⟩ := hsb
      have hr : consumeLeadingDefs (ls.length + 1) ls refs = (ls, refs) :=
        consumeLeadingDefs_none ls.length ls refs hparse
      rw [List.cons_append, sweepBlocks.eq_def]
      dsimp only
      rw [if_neg hncl, hr]
      have hemp : ¬(((ls, refs) : List Str × RefMap).1.isEmpty = true) := by
        simp only [List.isEmpty_iff]
        exact hne
      rw [if_neg hemp]
      dsimp only
      rw [ih rest refs hc2 hs2]
      rfl
    | blockquote cs c s e u =>
      have hB := sweep_swept_id_all.2.1 _ refs hsb
      rw [List.cons_append, sweepBlocks.eq_def]
      dsimp only
      rw [if_neg hncl, hB]
      dsimp only
      rw [ih rest refs hc2 hs2]
      rfl
    | list k m items c t s e u =>
      have hB := sweep_swept_id_all.2.1 _ refs hsb
      rw [List.cons_append, sweepBlocks.eq_def]
      dsimp only
      rw [if_neg hncl, hB]
      dsimp only
      rw [ih rest refs hc2 hs2]
      rfl
    | heading lv ct s e u =>
      have hB := sweep_swept_id_all.2.1 _ refs hsb
      rw [List.cons_append, sweepBlocks.eq_def]
      dsimp only
      rw [if_neg hncl, hB]
      dsimp only
      rw [ih rest refs hc2 hs2]
      rfl
    | fencedCode il nm mk info ls c s e u =>
      have hB := sweep_swept_id_all.2.1 _ refs hsb
      rw [List.cons_append, sweepBlocks.eq_def]
      dsimp only
      rw [if_neg hncl, hB]
      dsimp only
      rw [ih rest refs hc2 hs2]
      rfl
    | indentedCode ls c s e u =>
      have hB := sweep_swept_id_all.2.1 _ refs hsb
      rw [List.cons_append, sweepBlocks.eq_def]
      dsimp only
      rw [if_neg hncl, hB]
      dsimp only
      rw [ih rest refs hc2 hs2]
      rfl
    | thematicBreak s e u =>
      have hB := sweep_swept_id_all.2.1 _ refs hsb
      rw [List.cons_append, sweepBlocks.eq_def]
      dsimp only
      rw [if_neg hncl, hB]
      dsimp only
      rw [ih rest refs hc2 hs2]
      rfl
    | htmlBlock pt cbi ls c s e u =>
      have hB := sweep_swept_id_all.2.1 _ refs hsb
      rw [List.cons_append, sweepBlocks.eq_def]
      dsimp only
      rw [if_neg hncl, hB]
      dsimp only
      rw [ih rest refs hc2 hs2]
      rfl
    | table al hcs rows c s e u =>
      have hB := sweep_swept_id_all.2.1 _ refs hsb
      rw [List.cons_append, sweepBlocks.eq_def]
      dsimp only
      rw [if_neg hncl, hB]
      dsimp only
      rw [ih rest refs hc2 hs2]
      rfl

/-- The sweep's output is swept: running it again would change nothing
(all four traversals; for single blocks, excluding bare paragraphs,
which the list traversal handles itself). -/
theorem sweep_output_swept_all :
    (∀ (cs : List IBlock) (refs : RefMap), SweptList (sweepBlocks cs refs).1)
    ∧ (∀ (b : IBlock) (refs : RefMap),
        (∀ ls c s e u, b = IBlock.paragraph ls c s e u → False) →
        SweptB (sweepB b refs).1)
    ∧ (∀ (items : List IListItem) (refs : RefMap), SweptItems (sweepItems items refs).1)
    ∧ (∀ (i : IListItem) (refs : RefMap), SweptI (sweepI i refs).1) := by
  refine sweepBlocks.mutual_induct
    (fun cs refs => SweptList (sweepBlocks cs refs).1)
    (fun b refs => (∀ ls c s e u, b = IBlock.paragraph ls c s e u → False) →
      SweptB (sweepB b refs).1)
    (fun items refs => SweptItems (sweepItems items refs).1)
    (fun i refs => SweptI (sweepI i refs).1)
    ?_ ?_ ?_ ?_ ?_ ?_ ?_ ?_ ?_ ?_ ?_
  · intro cs c s e u refs ih _
    rw [sweepB]
    simp only [SweptB]
    exact ih
  · intro k n items c t s e u refs ih _
    rw [sweepB]
    simp only [SweptB]
    exact ih
  · intro b refs hnbq hnl hnp
    rw [sweepB.eq_def]
    match b, hnbq, hnl, hnp with
    | .paragraph ls c s e u, _, _, hnp => exact (hnp ls c s e u rfl).elim
    | .heading lv ct s e u, _, _, _ => exact trivial
    | .fencedCode il nm mk info ls c s e u, _, _, _ => exact trivial
    | .indentedCode ls c s e u, _, _, _ => exact trivial
    | .thematicBreak s e u, _, _, _ => exact trivial
    | .htmlBlock p cbi ls c s e u, _, _, _ => exact trivial
    | .table al hc rows c s e u, _, _, _ => exact trivial
    | .blockquote cs c s e u, hnbq, _, _ => exact (hnbq cs c s e u rfl).elim
    | .list k n items c t s e u, _, hnl, _ => exact (hnl k n items c t s e u rfl).elim
  · intro cs c s e u refs ih
    rw [sweepI]
    simp only [SweptI]
    exact ih
  · intro refs
    exact trivial
  · intro b rest refs hopen
    rw [sweepBlocks.eq_def]
    dsimp only
    rw [if_pos hopen]
    simp only [SweptList]
    rw [if_pos hopen]
    exact trivial
  · intro rest refs ls c s e u r hemp hcl ih
    rw [sweepBlocks.eq_def]
    dsimp only
    rw [if_neg hcl]
    have hemp2 : (consumeLeadingDefs (ls.length + 1) ls refs).1.isEmpty = true := hemp
    rw [if_pos hemp2]
    exact ih
  · intro rest refs ls c s e u r hemp hcl ih
    simp only [IBlock.isClosed] at hcl
    rw [sweepBlocks.eq_def]
    dsimp only [IBlock.isClosed]
    rw [if_neg hcl]
    have hemp2 : ¬((consumeLeadingDefs (ls.length + 1) ls refs).1.isEmpty = true) := hemp
    rw [if_neg hemp2]
    simp only [SweptList, IBlock.isClosed]
    rw [if_neg hcl]
    constructor
    · simp only [SweptB]
      constructor
      · exact consumeLeadingDefs_complete (ls.length + 1) ls refs (by omega)
      · intro h0
        exact hemp2 (by rw [h0]; rfl)
    · exact ih
  · intro rest refs other hnpara ri hcl ihB ihRest
    cases other with
    | paragraph ls c s e u => exact (hnpara ls c s e u rfl).elim
    | blockquote cs c s e u =>
      rw [sweepBlocks.eq_def]
      dsimp only
      rw [if_neg hcl]
      dsimp only
      simp only [SweptList]
      rw [sweepB_isClosed]
      rw [if_neg hcl]
      exact ⟨ihB (fun _ _ _ _ _ h => IBlock.noConfusion h), ihRest⟩
    | list k n items c t s e u =>
      rw [sweepBlocks.eq_def]
      dsimp only
      rw [if_neg hcl]
      dsimp only
      simp only [SweptList]
      rw [sweepB_isClosed]
      rw [if_neg hcl]
      exact ⟨ihB (fun _ _ _ _ _ h => IBlock.noConfusion h), ihRest⟩
    | heading lv ct s e u =>
      rw [sweepBlocks.eq_def]
      dsimp only
      rw [if_neg hcl]
      dsimp only
      simp only [SweptList]
      rw [sweepB_isClosed]
      rw [if_neg hcl]
      exact ⟨ihB (fun _ _ _ _ _ h => IBlock.noConfusion h), ihRest⟩
    | fencedCode il nm mk info ls c s e u =>
      rw [sweepBlocks.eq_def]
      dsimp only
      rw [if_neg hcl]
      dsimp only
      simp only [SweptList]
      rw [sweepB_isClosed]
      rw [if_neg hcl]
      exact ⟨ihB (fun _ _ _ _ _ h => IBlock.noConfusion h), ihRest⟩
    | indentedCode ls c s e u =>
      rw [sweepBlocks.eq_def]
      dsimp only
      rw [if_neg hcl]
      dsimp only
      simp only [SweptList]
      rw [sweepB_isClosed]
      rw [if_neg hcl]
      exact ⟨ihB (fun _ _ _ _ _ h => IBlock.noConfusion h), ihRest⟩
    | thematicBreak s e u =>
      rw [sweepBlocks.eq_def]
      dsimp only
      rw [if_neg hcl]
      dsimp only
      simp only [SweptList]
      rw [sweepB_isClosed]
      rw [if_neg hcl]
      exact ⟨ihB (fun _ _ _ _ _ h => IBlock.noConfusion h), ihRest⟩
    | htmlBlock p cbi ls c s e u =>
      rw [sweepBlocks.eq_def]
      dsimp only
      rw [if_neg hcl]
      dsimp only
      simp only [SweptList]
      rw [sweepB_isClosed]
      rw [if_neg hcl]
      exact ⟨ihB (fun _ _ _ _ _ h => IBlock.noConfusion h), ihRest⟩
    | table al hc rows c s e u =>
      rw [sweepBlocks.eq_def]
      dsimp only
      rw [if_neg hcl]
      dsimp only
      simp only [SweptList]
      rw [sweepB_isClosed]
      rw [if_neg hcl]
      exact ⟨ihB (fun _ _ _ _ _ h => IBlock.noConfusion h), ihRest⟩
  · intro refs
    exact trivial
  · intro i rest refs ri ihI ihRest
    rw [sweepItems.eq_def]
    dsimp only
    simp only [SweptItems]
    exact ⟨ihI, ihRest⟩

/-- The emission loop of `parse` is exactly: map the public conversion
over the maximal closed prefix. -/
theorem harvestClosedPrefix_eq (refs : RefMap) :
    ∀ l : List IBlock, harvestClosedPrefix refs l
      = (l.takeWhile (fun b => b.isClosed)).map
          (convertInternalBlockToPublicBlock refs) := by
  intro l
  induction l with
  | nil => rfl
  | cons b rest ih =>
    by_cases hb : b.isClosed = true
    · rw [harvestClosedPrefix, if_pos hb, ih, List.takeWhile_cons]
      have hb2 : (fun b : IBlock => b.isClosed) b = true := hb
      rw [if_pos hb2, List.map_cons]
    · rw [harvestClosedPrefix, if_neg hb, List.takeWhile_cons]
      have hb2 : ¬((fun b : IBlock => b.isClosed) b = true) := hb
      rw [if_neg hb2, List.map_nil]

/-- Every block in the maximal closed prefix of a swept child list is
itself swept. -/
theorem sweptAll_takeWhile :
    ∀ l : List IBlock, SweptList l →
      ∀ b ∈ l.takeWhile (fun x => x.isClosed), SweptB b := by
  intro l
  induction l with
  | nil => intro _ b hb; rw [List.takeWhile_nil] at hb; cases hb
  | cons x rest ih =>
    intro hsw b hb
    rw [List.takeWhile_cons] at hb
    by_cases hx : x.isClosed = true
    · have hx2 : (fun x : IBlock => x.isClosed) x = true := hx
      rw [if_pos hx2] at hb
      have hncl : ¬(x.isClosed = false) := by rw [hx]; exact fun h => Bool.noConfusion h
      simp only [SweptList] at hsw
      rw [if_neg hncl] at hsw
      rcases List.mem_cons.mp hb with hbx | hbr
      · rw [hbx]; exact hsw.1
      · exact ih hsw.2 b hbr
    · have hx2 : ¬((fun x : IBlock => x.isClosed) x = true) := hx
      rw [if_neg hx2] at hb
      cases hb

/-- C2: emission discipline of one `parse` call.  If every root child
before `nextNodeIndex` is closed and swept (which holds of a fresh
parser and is preserved by every call), then the call returns exactly
the maximal closed run of root children starting at `nextNodeIndex`
(converted in source order), advances `nextNodeIndex` by exactly the
number of returned blocks, and leaves the already-emitted prefix
untouched — so across any sequence of calls each root block is returned
at most once, in source order, at the first call where it is closed and
all earlier siblings have been returned, and a closed block behind a
still-open sibling waits for it. -/
theorem parse_emission_discipline (st : ParserState) (input : Str) (stream : Bool)
    (out : List PublicBlock) (st2 : ParserState)
    (heq : MarkdownParser.parse st input stream = (out, st2))
    (hn : st.nextNodeIndex ≤ st.children.length)
    (hclosed : ∀ x ∈ st.children.take st.nextNodeIndex, x.isClosed = true)
    (hswept : ∀ x ∈ st.children.take st.nextNodeIndex, SweptB x) :
    st2.nextNodeIndex = st.nextNodeIndex + out.length
    ∧ st2.children.take st.nextNodeIndex = st.children.take st.nextNodeIndex
    ∧ out = ((st2.children.drop st.nextNodeIndex).takeWhile (fun b => b.isClosed)).map
        (convertInternalBlockToPublicBlock st2.refs)
    ∧ st2.nextNodeIndex ≤ st2.children.length
    ∧ (∀ x ∈ st2.children.take st2.nextNodeIndex, x.isClosed = true)
    ∧ (∀ x ∈ st2.children.take st2.nextNodeIndex, SweptB x) := by
  simp only [MarkdownParser.parse] at heq
  rw [Prod.mk.injEq] at heq
  obtain ⟨hout, hst2⟩ := heq
  subst hout
  subst hst2
  dsimp only
  set SP := LineSplitter.split st.splitter input stream with hSPdef
  set R := parseLinesGo SP.1 st.nextLineIndex st.children st.uidCounter st.refs with hRdef
  set C1 := if stream = false then closeLastB R.1 else R.1 with hC1def
  set SW := sweepBlocks C1 R.2.2.2 with hSWdef
  obtain ⟨hRt, hRl⟩ := parseLinesGo_stable SP.1 st.nextLineIndex st.children
    st.uidCounter st.refs st.nextNodeIndex hn hclosed
  rw [← hRdef] at hRt hRl
  have hC1both : C1.take st.nextNodeIndex = st.children.take st.nextNodeIndex
      ∧ st.nextNodeIndex ≤ C1.length := by
    rw [hC1def]
    by_cases hs : stream = false
    · rw [if_pos hs]
      constructor
      · rw [closeLastB_take R.1 st.nextNodeIndex hRl (by rw [hRt]; exact hclosed), hRt]
      · rw [closeLastB_length]
        exact hRl
    · rw [if_neg hs]
      exact ⟨hRt, hRl⟩
  obtain ⟨hC1t, hC1l⟩ := hC1both
  have hc1closed : ∀ x ∈ C1.take st.nextNodeIndex, x.isClosed = true := by
    rw [hC1t]; exact hclosed
  have hc1swept : ∀ x ∈ C1.take st.nextNodeIndex, SweptB x := by
    rw [hC1t]; exact hswept
  set SWR := sweepBlocks (C1.drop st.nextNodeIndex) R.2.2.2 with hSWRdef
  have hsplit : C1 = C1.take st.nextNodeIndex ++ C1.drop st.nextNodeIndex :=
    (List.take_append_drop st.nextNodeIndex C1).symm
  have hSW1 : SW = (C1.take st.nextNodeIndex ++ SWR.1, SWR.2) := by
    rw [hSWdef, hSWRdef]
    conv_lhs => rw [hsplit]
    exact sweep_prefix_passthrough (C1.take st.nextNodeIndex)
      (C1.drop st.nextNodeIndex) R.2.2.2 hc1closed hc1swept
  have hlenpre : (C1.take st.nextNodeIndex).length = st.nextNodeIndex := by
    rw [List.length_take]
    omega
  have hpretake : (C1.take st.nextNodeIndex).take st.nextNodeIndex
      = C1.take st.nextNodeIndex := by
    rw [List.take_take]
    simp
  have hSWtake : SW.1.take st.nextNodeIndex = st.children.take st.nextNodeIndex := by
    rw [hSW1]
    dsimp only
    rw [List.take_append_of_le_length (by rw [hlenpre]), hpretake, hC1t]
  have hSWdrop : SW.1.drop st.nextNodeIndex = SWR.1 := by
    have hdl := List.drop_left (C1.take st.nextNodeIndex) SWR.1
    rw [hlenpre] at hdl
    rw [hSW1]
    exact hdl
  have hSWlen : SW.1.length = st.nextNodeIndex + SWR.1.length := by
    rw [hSW1]
    dsimp only
    rw [List.length_append, hlenpre]
  set E := harvestClosedPrefix SW.2 (SW.1.drop st.nextNodeIndex) with hEdef
  have hE : E = ((SW.1.drop st.nextNodeIndex).takeWhile (fun b => b.isClosed)).map
      (convertInternalBlockToPublicBlock SW.2) :=
    harvestClosedPrefix_eq SW.2 (SW.1.drop st.nextNodeIndex)
  have hElen : E.length = (SWR.1.takeWhile (fun b => b.isClosed)).length := by
    rw [hE, hSWdrop, List.length_map]
  have hTWle : (SWR.1.takeWhile (fun b => b.isClosed)).length ≤ SWR.1.length :=
    (List.takeWhile_prefix _).length_le
  have hTWtake : SWR.1.take ((SWR.1.takeWhile (fun b => b.isClosed)).length)
      = SWR.1.takeWhile (fun b => b.isClosed) :=
    (List.prefix_iff_eq_take.mp (List.takeWhile_prefix _)).symm
  have hSWRswept : SweptList SWR.1 := by
    rw [hSWRdef]
    exact sweep_output_swept_all.1 (C1.drop st.nextNodeIndex) R.2.2.2
  have hnewpre : SW.1.take (st.nextNodeIndex + E.length)
      = st.children.take st.nextNodeIndex ++ SWR.1.takeWhile (fun b => b.isClosed) := by
    rw [List.take_add, hSWtake, hSWdrop, hElen, hTWtake]
  refine ⟨rfl, hSWtake, ?_, ?_, ?_, ?_⟩
  · exact hE
  · rw [hSWlen]
    omega
  · intro x hx
    rw [hnewpre] at hx
    rcases List.mem_append.mp hx with hx1 | hx2
    · exact hclosed x hx1
    · exact List.mem_takeWhile_imp hx2
  · intro x hx
    rw [hnewpre] at hx
    rcases List.mem_append.mp hx with hx1 | hx2
    · exact hswept x hx1
    · exact sweptAll_takeWhile SWR.1 hSWRswept x hx2

/-- Witness for C2 at a concrete call: a fresh parser fed `"x\n\ny"` with
`stream: true`. -/
theorem parse_emission_discipline_witness :
    (MarkdownParser.parse initialParserState (ofS "x\n\ny") true
      = ((MarkdownParser.parse initialParserState (ofS "x\n\ny") true).1,
         (MarkdownParser.parse initialParserState (ofS "x\n\ny") true).2))
    ∧ initialParserState.nextNodeIndex ≤ initialParserState.children.length
    ∧ (∀ x ∈ initialParserState.children.take initialParserState.nextNodeIndex,
        x.isClosed = true)
    ∧ (∀ x ∈ initialParserState.children.take initialParserState.nextNodeIndex, SweptB x)
    ∧ ((MarkdownParser.parse initialParserState (ofS "x\n\ny") true).2.nextNodeIndex
        = initialParserState.nextNodeIndex
          + (MarkdownParser.parse initialParserState (ofS "x\n\ny") true).1.length
      ∧ (MarkdownParser.parse initialParserState (ofS "x\n\ny") true).2.children.take
            initialParserState.nextNodeIndex
        = initialParserState.children.take initialParserState.nextNodeIndex
      ∧ (MarkdownParser.parse initialParserState (ofS "x\n\ny") true).1
        = (((MarkdownParser.parse initialParserState (ofS "x\n\ny") true).2.children.drop
              initialParserState.nextNodeIndex).takeWhile (fun b => b.isClosed)).map
            (convertInternalBlockToPublicBlock
              (MarkdownParser.parse initialParserState (ofS "x\n\ny") true).2.refs)
      ∧ (MarkdownParser.parse initialParserState (ofS "x\n\ny") true).2.nextNodeIndex
        ≤ (MarkdownParser.parse initialParserState (ofS "x\n\ny") true).2.children.length
      ∧ (∀ x ∈ (MarkdownParser.parse initialParserState (ofS "x\n\ny") true).2.children.take
            (MarkdownParser.parse initialParserState (ofS "x\n\ny") true).2.nextNodeIndex,
          x.isClosed = true)
      ∧ (∀ x ∈ (MarkdownParser.parse initialParserState (ofS "x\n\ny") true).2.children.take
            (MarkdownParser.parse initialParserState (ofS "x\n\ny") true).2.nextNodeIndex,
          SweptB x)) :=
  ⟨rfl, Nat.le.refl,
    fun x hx => absurd hx (List.not_mem_nil x),
    fun x hx => absurd hx (List.not_mem_nil x),
    parse_emission_discipline initialParserState (ofS "x\n\ny") true
      (MarkdownParser.parse initialParserState (ofS "x\n\ny") true).1
      (MarkdownParser.parse initialParserState (ofS "x\n\ny") true).2
      rfl Nat.le.refl
      (fun x hx => absurd hx (List.not_mem_nil x))
      (fun x hx => absurd hx (List.not_mem_nil x))⟩
